import Mathlib

/-!
# WebCola layout adaptor

A shallow embedding of `src/adaptor.js` (the class `cola.adaptor`, declared as
`cola.Layout` in `index.d.ts`, and the interaction handlers that follow it) and
of the host callbacks it is given by `src/d3adaptor.js`.  The classes of the
library that are not among the sources are parameters of the methods that call
them; the locks of the descent engine and the shortest-path calculator, which
properties are stated about, are modelled from the specification.

Conventions of the embedding:

* a layout object is a value of the structure `adaptor`; a method is a function
  from the state before the call to the state after it, paired with what the
  method returns.  A method that returns `this` returns `Ret.self`;
* JavaScript numbers are rationals.  Where a computation can meet `NaN` as the
  numeric reading of `undefined` or of an object, it is written `none`; a
  property that can be left holding `NaN` or an infinity is a `Val`, and the
  properties `_alpha` and `_lastStress`, which hold what the descent step
  returns, are a `Num`: a rational, `NaN` or an infinity;
* argument types are those of `index.d.ts`; a parameter that the code lets be
  absent is an `Option`, and a property whose value can be `undefined` is an
  `Option` or a `Val`;
* the host callbacks `trigger` and `kick` are recorded: `events` is the list of
  events handed to `trigger`, oldest first, and `kicks` counts the calls of
  `kick`;
* the bitwise operators work on 32-bit integers: an `Int`, reduced modulo
  `2^32` where the operator reads its operands;
* a JavaScript exception is an `Except.error`.
-/

namespace cola

/-! ## Values -/

/-- JavaScript data values, for the properties the adaptor copies or tests for
truthiness without computing on them. -/
inductive Val where
  | undefined
  | null
  | bool (b : Bool)
  | num (q : ℚ)
  | nan
  | posInf
  | negInf
  | str (s : String)
  | arr (xs : List Val)
  | obj (props : List (String × Val))

/-- The truthiness of a value: what `if (v)` tests. -/
def Val.truthy : Val → Bool
  | .undefined => false
  | .null => false
  | .bool b => b
  | .num q => decide (q ≠ 0)
  | .nan => false
  | .posInf => true
  | .negInf => true
  | .str s => decide (s ≠ "")
  | .arr _ => true
  | .obj _ => true

/-- The test `typeof v === 'undefined'`. -/
def Val.isUndefined : Val → Bool
  | .undefined => true
  | _ => false

/-- A value of type `α` in a position where TypeScript also admits `undefined`
and `null`. -/
inductive Nullable (α : Type) where
  | undefined
  | null
  | val (a : α)

/-- The truthiness of a nullable array: an array, even an empty one, is truthy. -/
def Nullable.truthy {α : Type} : Nullable α → Bool
  | .val _ => true
  | _ => false

/-- A setting that is either a function, known by its identity, or a plain
value: what `typeof x === "function" ? ... : ...` distinguishes. -/
inductive FnOr (α : Type) where
  | fn (id : Nat)
  | val (a : α)

/-- What an accessor returns: a value, or the layout itself (`return this`). -/
inductive Ret (α : Type) where
  | value (a : α)
  | self

/-- A JavaScript number in a property that holds whatever the descent step
returns: a rational, `NaN` or an infinity. -/
inductive Num where
  | num (q : ℚ)
  | nan
  | posInf
  | negInf
  deriving DecidableEq

/-- The exceptions the modelled code can raise. -/
inductive JSError where
  | typeError
  | rangeError
  deriving DecidableEq

/-! ## Data model -/

/-- A link endpoint, a group leaf or a nested group: a numeric index, a
reference to the object stored at position `ref` of the list it points into,
or `undefined` (what `start` leaves for an index that is no position of the
node list). -/
inductive Endpoint where
  | index (q : ℚ)
  | node (ref : Nat)
  | undefined

/-- A node object; every property may be missing (`undefined`). -/
structure Node where
  x : Val := .undefined
  y : Val := .undefined
  px : Val := .undefined
  py : Val := .undefined
  fixed : Val := .undefined
  index : Val := .undefined
  parent : Option Nat := none

/-- A link object. -/
structure Link where
  source : Endpoint
  target : Endpoint
  length : Val := .undefined

/-- A group object. -/
structure Group where
  padding : Val := .undefined
  leaves : Option (List Endpoint) := none
  groups : Option (List Endpoint) := none
  parent : Option Nat := none

/-- The root group built by `groups(x)` or by `start()`. -/
structure RootGroup where
  leaves : Option (List Nat) := none
  groups : Option (List Nat) := none

/-- The record `flowLayout` stores: the axis, and the separation accessor,
which is `undefined` (`none`), the constant function made from a number
(`FnOr.val`) or the function given (`FnOr.fn`). -/
structure DirectedLinkConstraints where
  axis : Val
  getMinSeparation : Option (FnOr ℚ)

/-- The three lifecycle events. -/
inductive EventType where
  | start
  | tick
  | end_
  deriving DecidableEq

/-- An event object `{type, alpha, stress}` handed to `trigger`; `none` is an
`undefined` or absent property. -/
structure Event where
  type : EventType
  alpha : Option Num
  stress : Option Num
  deriving DecidableEq

/-- Modelled from the spec: the class `Locks` of the descent engine
(`descent.ts` is not among the sources; `index.d.ts` declares `add`, `clear`,
`isEmpty` and `apply` over a map `locks` from node index to required
position). -/
structure Locks where
  locks : List (Nat × List Val) := []

/-- Modelled from the spec: `Locks.clear`, "clear all locks". -/
def Locks.clear (_L : Locks) : Locks :=
  { locks := [] }

/-- Modelled from the spec: `Locks.add(id, x)`, "add a lock on the node at
index id" with required position `x`; a lock already held for `id` is
replaced. -/
def Locks.add (L : Locks) (id : Nat) (x : List Val) : Locks :=
  { locks := L.locks.filter (fun e => decide (e.1 ≠ id)) ++ [(id, x)] }

/-- The position locked for node `id`, if any: `locks[id]`. -/
def Locks.get (L : Locks) (id : Nat) : Option (List Val) :=
  (L.locks.find? (fun e => decide (e.1 = id))).map Prod.snd

/-- The arguments of a call `new cola.vpsc.Projection(nodes, groups,
rootGroup, constraints, avoidOverlaps)`, which stand for the project functions
made from it (`vpsc.ts` is not among the sources). -/
structure Projection where
  nodes : List Node
  groups : List Group
  rootGroup : Option RootGroup
  constraints : List Val
  avoidOverlaps : Bool

/-- Modelled from the spec: the state of the class `Descent` that the adaptor
reads and writes (`descent.ts` is not among the sources): the coordinates
`x = [x, y]`, one row per axis as the adaptor builds them, the locks, the
ideal distances `D`, the weights `G`, the threshold and the project functions;
`none` is a property the adaptor has not set. -/
structure Descent where
  x : List Val × List Val
  locks : Locks := {}
  D : List (List Val) := []
  G : Option (List (List Val)) := none
  threshold : Option (FnOr ℚ) := none
  project : Option Projection := none

/-- The state of a layout object: the fields of `adaptor`, then the record of
the calls made to the host callbacks `trigger` and `kick`.  The fields
`_variables`, `_visibilityGraph` and `linkAccessor` take no part in the
methods embedded here and are left out. -/
structure adaptor where
  _canvasSize : List ℚ
  _linkDistance : FnOr ℚ
  _defaultNodeSize : ℚ
  _linkLengthCalculator : Option Nat
  _linkType : FnOr Val
  _avoidOverlaps : Val
  _handleDisconnected : Val
  _running : Bool
  _nodes : List Node
  _groups : List Group
  _rootGroup : Option RootGroup
  _links : Nullable (List Link)
  _constraints : Nullable (List Val)
  _distanceMatrix : Nullable (List (List ℚ))
  _descent : Option Descent
  _directedLinkConstraints : Option DirectedLinkConstraints
  _threshold : FnOr ℚ
  _alpha : Option Num
  _lastStress : Option Num
  events : List Event
  kicks : Nat

/-- The constructor `adaptor(options)`: `_alpha` and `_lastStress` are not
assigned, so they start `undefined`; nothing has been triggered or kicked. -/
def adaptor.new : adaptor :=
  { _canvasSize := [1, 1]
    _linkDistance := .val 20
    _defaultNodeSize := 10
    _linkLengthCalculator := none
    _linkType := .val .null
    _avoidOverlaps := .bool false
    _handleDisconnected := .bool true
    _running := false
    _nodes := []
    _groups := []
    _rootGroup := none
    _links := .val []
    _constraints := .val []
    _distanceMatrix := .null
    _descent := none
    _directedLinkConstraints := none
    _threshold := .val (1 / 100)
    _alpha := none
    _lastStress := none
    events := []
    kicks := 0 }

/-! ## Accessors -/

/-- The truthiness of a property holding a number or `undefined`: `undefined`,
0 and `NaN` are falsy. -/
def numTruthy : Option Num → Bool
  | none => false
  | some (.num q) => decide (q ≠ 0)
  | some .nan => false
  | some .posInf => true
  | some .negInf => true

/-- The method `avoidOverlaps(v)`; `none` is a call without argument. -/
def adaptor.avoidOverlaps (s : adaptor) (v : Option Val) : adaptor × Ret Val :=
  match v with
  | none => (s, .value s._avoidOverlaps)
  | some v => ({ s with _avoidOverlaps := v }, .self)

/-- The method `handleDisconnected(v)`; `none` is a call without argument. -/
def adaptor.handleDisconnected (s : adaptor) (v : Option Val) : adaptor × Ret Val :=
  match v with
  | none => (s, .value s._handleDisconnected)
  | some v => ({ s with _handleDisconnected := v }, .self)

/-- The method `links(x)`; `none` is a call without argument. -/
def adaptor.links (s : adaptor) (x : Option (Nullable (List Link))) :
    adaptor × Ret (Nullable (List Link)) :=
  match x with
  | none => (s, .value s._links)
  | some x => ({ s with _links := x }, .self)

/-- The method `constraints(c)`; `none` is a call without argument. -/
def adaptor.constraints (s : adaptor) (c : Option (Nullable (List Val))) :
    adaptor × Ret (Nullable (List Val)) :=
  match c with
  | none => (s, .value s._constraints)
  | some c => ({ s with _constraints := c }, .self)

/-- The method `distanceMatrix(d)`; `none` is a call without argument. -/
def adaptor.distanceMatrix (s : adaptor) (d : Option (Nullable (List (List ℚ)))) :
    adaptor × Ret (Nullable (List (List ℚ))) :=
  match d with
  | none => (s, .value s._distanceMatrix)
  | some d => ({ s with _distanceMatrix := d }, .self)

/-- The method `size(x)`: `x` defaults to `null`, and `!x` holds exactly of the
missing argument, an array being truthy. -/
def adaptor.size (s : adaptor) (x : Option (List ℚ)) : adaptor × Ret (List ℚ) :=
  match x with
  | none => (s, .value s._canvasSize)
  | some x => ({ s with _canvasSize := x }, .self)

/-- The method `defaultNodeSize(x)`: `x` defaults to `null`, and `!x` holds of
the missing argument and of the number 0. -/
def adaptor.defaultNodeSize (s : adaptor) (x : Option ℚ) : adaptor × Ret ℚ :=
  match x with
  | none => (s, .value s._defaultNodeSize)
  | some q =>
    if q = 0 then (s, .value s._defaultNodeSize)
    else ({ s with _defaultNodeSize := q }, .self)

/-- The method `linkDistance(x)`: `x` defaults to `null`, and `!x` holds of
the missing argument and of the number 0, a function being truthy.  A
function is stored as it is, a number as `+x`, and the link-length calculator
is reset. -/
def adaptor.linkDistance (s : adaptor) (x : Option (FnOr ℚ)) : adaptor × Ret (FnOr ℚ) :=
  match x with
  | none => (s, .value s._linkDistance)
  | some (.fn f) => ({ s with _linkDistance := .fn f, _linkLengthCalculator := none }, .self)
  | some (.val q) =>
    if q = 0 then (s, .value s._linkDistance)
    else ({ s with _linkDistance := .val q, _linkLengthCalculator := none }, .self)

/-- The method `convergenceThreshold(x)`: `x` defaults to `null`, and `!x`
holds of the missing argument and of the number 0, a function being truthy.
A function is stored as it is, a number as `+x`. -/
def adaptor.convergenceThreshold (s : adaptor) (x : Option (FnOr ℚ)) :
    adaptor × Ret (FnOr ℚ) :=
  match x with
  | none => (s, .value s._threshold)
  | some (.fn f) => ({ s with _threshold := .fn f }, .self)
  | some (.val q) =>
    if q = 0 then (s, .value s._threshold)
    else ({ s with _threshold := .val q }, .self)

/-- The method `linkType(f)`: it stores its argument, `undefined` when the
call has none, and returns the layout. -/
def adaptor.linkType (s : adaptor) (f : Option (FnOr Val)) : adaptor × Ret (FnOr Val) :=
  match f with
  | none => ({ s with _linkType := .val .undefined }, .self)
  | some f => ({ s with _linkType := f }, .self)

/-- The method `getLinkType(link)`; `call id link` is the result of calling
the function `id` on `link`. -/
def adaptor.getLinkType (call : Nat → Link → Val) (s : adaptor) (link : Link) : Val :=
  match s._linkType with
  | .fn id => call id link
  | .val _ => .num 0

/-! ## The node list -/

/-- The numeric reading of a link endpoint: the number itself, `NaN` (`none`)
for a node object. -/
def Endpoint.toNumber : Endpoint → Option ℚ
  | .index q => some q
  | .node _ => none
  | .undefined => none

/-- The function `Math.max(n, a, b)`: `NaN` as soon as one argument is. -/
def mathMax (n a b : Option ℚ) : Option ℚ :=
  match n, a, b with
  | some n, some a, some b => some (max n (max a b))
  | _, _, _ => none

/-- The array length `new Array(len)` accepts: an integer from 0 to 2^32 - 1;
any other number raises a RangeError. -/
def newArrayLength (len : Option ℚ) : Except JSError Nat :=
  match len with
  | none => .error .rangeError
  | some q =>
    if q.den = 1 ∧ 0 ≤ q.num ∧ q.num < 2 ^ 32 then .ok q.num.toNat else .error .rangeError

/-- The method `nodes(v)`: `v` defaults to `null`, and `!v` holds exactly of
the missing argument.  Without argument, and with no nodes but some links, a
list of `1 + max` empty node objects is made first. -/
def adaptor.nodes (s : adaptor) (v : Option (List Node)) :
    Except JSError (adaptor × Ret (List Node)) :=
  match v with
  | some v => .ok ({ s with _nodes := v }, .self)
  | none =>
    if s._nodes.length = 0 then
      match s._links with
      | .undefined => .error .typeError
      | .null => .error .typeError
      | .val ls =>
        if 0 < ls.length then
          let n := ls.foldl (fun n l => mathMax n l.source.toNumber l.target.toNumber) (some 0)
          match newArrayLength (n.map (fun q => q + 1)) with
          | .error e => .error e
          | .ok len =>
            let ns : List Node := List.replicate len {}
            .ok ({ s with _nodes := ns }, .value ns)
        else .ok (s, .value s._nodes)
    else .ok (s, .value s._nodes)

/-! ## Groups -/

/-- The array read `list[v]` of a list of length `len`: the position read, or
`none` when the read gives `undefined` (a key that is no index below the
length: a fraction, a negative number, an object). -/
def arrayIndex (len : Nat) : Endpoint → Option Nat
  | .index q => if q.den = 1 ∧ 0 ≤ q.num ∧ q.num.toNat < len then some q.num.toNat else none
  | .node _ => none
  | .undefined => none

/-- The loop over `g.leaves` for the group at position `k`: every leaf is
replaced by the node it denotes, whose parent becomes the group; setting
`parent` on `undefined` raises a TypeError. -/
def adaptor.groupsLeaves (k : Nat) : List Endpoint → List Node →
    Except JSError (List Endpoint × List Node)
  | [], ns => .ok ([], ns)
  | v :: rest, ns =>
    match arrayIndex ns.length v with
    | none => .error .typeError
    | some j =>
      match adaptor.groupsLeaves k rest (ns.modify (fun o => { o with parent := some k }) j) with
      | .error e => .error e
      | .ok r => .ok (.node j :: r.1, r.2)

/-- The loop over `g.groups` for the group at position `k`: every entry is
replaced by the group it denotes, whose parent becomes the group. -/
def adaptor.groupsNested (k : Nat) : List Endpoint → List Group →
    Except JSError (List Endpoint × List Group)
  | [], gs => .ok ([], gs)
  | gi :: rest, gs =>
    match arrayIndex gs.length gi with
    | none => .error .typeError
    | some j =>
      match adaptor.groupsNested k rest (gs.modify (fun g => { g with parent := some k }) j) with
      | .error e => .error e
      | .ok r => .ok (.node j :: r.1, r.2)

/-- The body of `this._groups.forEach` for the group at position `k`. -/
def adaptor.groupsStep (st : List Node × List Group) (k : Nat) :
    Except JSError (List Node × List Group) :=
  match st.2.get? k with
  | none => .ok st
  | some g =>
    let gs1 := if g.padding.isUndefined then
      st.2.modify (fun g => { g with padding := .num 1 }) k else st.2
    match (match g.leaves with
           | none => Except.ok (st.1, gs1)
           | some ls =>
             match adaptor.groupsLeaves k ls st.1 with
             | .error e => .error e
             | .ok r => .ok (r.2, gs1.modify (fun g => { g with leaves := some r.1 }) k)) with
    | .error e => .error e
    | .ok st2 =>
      match g.groups with
      | none => .ok st2
      | some es =>
        match adaptor.groupsNested k es st2.2 with
        | .error e => .error e
        | .ok r => .ok (st2.1, r.2.modify (fun g => { g with groups := some r.1 }) k)

/-- The positions of the entries of a list that satisfy `p`. -/
def positionsWhere {α : Type} (p : α → Bool) (xs : List α) : List Nat :=
  (List.range xs.length).filter (fun i => (xs.get? i).any p)

/-- The method `groups(x)`: `x` defaults to `null`, and `!x` holds exactly of
the missing argument. -/
def adaptor.groups (s : adaptor) (x : Option (List Group)) :
    Except JSError (adaptor × Ret (List Group)) :=
  match x with
  | none => .ok (s, .value s._groups)
  | some x =>
    match (List.range x.length).foldlM adaptor.groupsStep (s._nodes, x) with
    | .error e => .error e
    | .ok st =>
      .ok ({ s with
              _nodes := st.1
              _groups := st.2
              _rootGroup := some
                { leaves := some (positionsWhere (fun v => v.parent.isNone) st.1)
                  groups := some (positionsWhere (fun g => g.parent.isNone) st.2) } },
           .self)

/-! ## The animation loop -/

/-- The comparison `this._alpha < this._threshold`: false when alpha is
`undefined` (it reads as `NaN`) or `NaN`, and when the threshold is a function
(its source text reads as `NaN`). -/
def belowThreshold (alpha : Option Num) (threshold : FnOr ℚ) : Bool :=
  match alpha, threshold with
  | some (.num a), .val t => decide (a < t)
  | some .negInf, .val _ => true
  | _, _ => false

/-- The first loop of `tick`, over the nodes from index `i` on: a fixed node
gets `px`, `py` defaulted to `x`, `y` when either is `undefined`, and is
locked at `[px, py]`. -/
def adaptor.tickLocks : List Node → Nat → Locks → List Node × Locks
  | [], _, L => ([], L)
  | o :: rest, i, L =>
    if o.fixed.truthy then
      let o1 : Node :=
        if o.px.isUndefined || o.py.isUndefined then { o with px := o.x, py := o.y } else o
      let r := adaptor.tickLocks rest (i + 1) (L.add i [o1.px, o1.py])
      (o1 :: r.1, r.2)
    else
      let r := adaptor.tickLocks rest (i + 1) L
      (o :: r.1, r.2)

/-- The second loop of `tick`, over the nodes from index `i` on: a fixed node
is put back at `(px, py)`, any other node at the descent coordinates; reading
an array past its end gives `undefined`. -/
def adaptor.tickWrite (x : List Val × List Val) : List Node → Nat → List Node
  | [], _ => []
  | o :: rest, i =>
    (if o.fixed.truthy then { o with x := o.px, y := o.py }
     else { o with x := x.1.getD i .undefined, y := x.2.getD i .undefined })
      :: adaptor.tickWrite x rest (i + 1)

/-- The descent engine as `tick` hands it to `rungeKutta`: its locks cleared,
then rebuilt by the first loop. -/
def adaptor.tickDescent (s : adaptor) (d : Descent) : Descent :=
  { d with locks := (adaptor.tickLocks s._nodes 0 d.locks.clear).2 }

/-- The alpha a non-terminal `tick` leaves, from the stress `s1` of its step. -/
def adaptor.tickAlpha (s : adaptor) (s1 : Num) : Option Num :=
  if s1 = .num 0 then some (.num 0)
  else if s._lastStress.isSome then some s1
  else s._alpha

/-- The method `tick()`.  `rungeKutta` is `Descent.rungeKutta` (`descent.ts`
is not among the sources): from the descent state it gives the stress it
returns and the descent state it leaves.  Past the threshold test, links that
are `null` or `undefined` raise a TypeError at `this._links.length`, and a
layout without descent engine raises one at `this._descent.locks`. -/
def adaptor.tick (rungeKutta : Descent → Num × Descent) (s : adaptor) :
    Except JSError (adaptor × Val) :=
  if belowThreshold s._alpha s._threshold then
    .ok ({ s with
            _running := false
            _alpha := some (.num 0)
            events := s.events ++
              [{ type := .end_, alpha := some (.num 0), stress := s._lastStress }] },
         .bool true)
  else
    match s._links with
    | .undefined => .error .typeError
    | .null => .error .typeError
    | .val _ =>
      match s._descent with
      | none => .error .typeError
      | some d =>
        let k := rungeKutta (s.tickDescent d)
        let alpha := s.tickAlpha k.1
        .ok ({ s with
                _nodes := adaptor.tickWrite k.2.x (adaptor.tickLocks s._nodes 0 d.locks.clear).1 0
                _descent := some k.2
                _alpha := alpha
                _lastStress := some k.1
                events := s.events ++ [{ type := .tick, alpha := alpha, stress := some k.1 }] },
             .undefined)

/-- The method `alpha(x)`; `none` is a call without argument.  The host
callbacks are recorded: `trigger` appends its event, `kick` is counted. -/
def adaptor.alpha (s : adaptor) (x : Option ℚ) : adaptor × Ret (Option Num) :=
  match x with
  | none => (s, .value s._alpha)
  | some x =>
    if numTruthy s._alpha then
      if 0 < x then ({ s with _alpha := some (.num x) }, .self)
      else ({ s with _alpha := some (.num 0) }, .self)
    else if 0 < x then
      if !s._running then
        ({ s with
            _running := true
            _alpha := some (.num x)
            events := s.events ++ [{ type := .start, alpha := some (.num x), stress := none }]
            kicks := s.kicks + 1 },
         .self)
      else (s, .self)
    else (s, .self)

/-- The method `resume()`. -/
def adaptor.resume (s : adaptor) : adaptor × Ret (Option Num) :=
  s.alpha (some (1 / 10))

/-- The method `stop()`. -/
def adaptor.stop (s : adaptor) : adaptor × Ret (Option Num) :=
  s.alpha (some 0)

/-! ## Starting the layout: what `start` calls -/

/-- The method `flowLayout(axis, minSeparation)`.  `none` is a call without
arguments, which selects the axis `'y'` and leaves the separation
`undefined`; in `some (axis, m)`, `m = none` is a separation left out.  A
number is wrapped into the function that returns it (`FnOr.val`), anything
else is stored as it is. -/
def adaptor.flowLayout (s : adaptor) (args : Option (Val × Option (FnOr ℚ))) :
    adaptor × Ret Val :=
  match args with
  | none =>
    ({ s with _directedLinkConstraints := some { axis := .str "y", getMinSeparation := none } },
     .self)
  | some a =>
    ({ s with _directedLinkConstraints := some { axis := a.1, getMinSeparation := a.2 } },
     .self)

/-- The index an endpoint denotes: the endpoint itself when it is a number,
the property `index` of the node it refers to otherwise (`undefined` for an
object that is no node of the list); reading `index` of `undefined` raises a
TypeError. -/
def adaptor.endpointIndex (nodes : List Node) : Endpoint → Except JSError Val
  | .index q => .ok (.num q)
  | .node ref => .ok ((nodes[ref]?.map (fun v => v.index)).getD .undefined)
  | .undefined => .error .typeError

/-- The static function `adaptor.getSourceIndex(e)`; `nodes` are the node
objects that references point to. -/
def adaptor.getSourceIndex (nodes : List Node) (e : Link) : Except JSError Val :=
  adaptor.endpointIndex nodes e.source

/-- The static function `adaptor.getTargetIndex(e)`. -/
def adaptor.getTargetIndex (nodes : List Node) (e : Link) : Except JSError Val :=
  adaptor.endpointIndex nodes e.target

/-- The method `getLinkLength(link)`; `linkDistance f link` is the number
`+(f(link))` for the function `f`. -/
def adaptor.getLinkLength (linkDistance : Nat → Link → Val) (s : adaptor) (link : Link) : Val :=
  match s._linkDistance with
  | .fn f => linkDistance f link
  | .val q => .num q

/-- The object `linkAccessor` as `start` hands it on: the two index functions
and `getMinSeparation`, which is `undefined` (`none`) when no separation was
given to `flowLayout`. -/
structure LinkAccessor where
  getSourceIndex : Link → Except JSError Val
  getTargetIndex : Link → Except JSError Val
  getMinSeparation : Option (Link → Val)

/-- The parts of the library that `start` calls and that are not among the
sources, and the user's functions, which are known by their identity only.

* `linkDistance f link` is `+(f(link))` for a link-distance function `f`;
* `minSeparation f link` is `f(link)` for a separation function `f`;
* `linkLengths c nodes links i` is the length that the link-length calculator
  `c` (`symmetricDiffLinkLengths` or `jaccardLinkLengths`, through
  `setLength`) gives to the link at position `i`;
* `DistanceMatrix N links getSourceIndex getTargetIndex getLength` is
  `new cola.shortestpaths.Calculator(...).DistanceMatrix()`;
* `generateDirectedEdgeConstraints n links axis linkAccessor` is the function
  of that name;
* `run d iterations` is the coordinates that `Descent.run(iterations)` leaves
  in the descent engine `d`, whose other properties it does not write;
* `applyPacking nodes links w h nodeSize i` is the position that
  `separateGraphs` followed by `applyPacking` gives to the node at position
  `i`. -/
structure Library where
  linkDistance : Nat → Link → Val
  minSeparation : Nat → Link → Val
  linkLengths : Nat → List Node → List Link → Nat → Val
  DistanceMatrix : Nat → List Link → (Link → Except JSError Val) →
    (Link → Except JSError Val) → (Link → Val) → Except JSError (List (List Val))
  generateDirectedEdgeConstraints : Nat → List Link → Val → LinkAccessor →
    Except JSError (List Val)
  run : Descent → ℚ → List Val × List Val
  applyPacking : List Node → List Link → Option ℚ → Option ℚ → ℚ → Nat → Val × Val

/-- A loop `list.forEach(function (a, i) {...})` that replaces every entry,
run from index `i` on. -/
def mapAt {α β : Type} (f : Nat → α → β) : List α → Nat → List β
  | [], _ => []
  | a :: rest, i => f i a :: mapAt f rest (i + 1)

/-- The quotient `w / 2` for a canvas dimension; a missing dimension reads as
`undefined` and gives `NaN`. -/
def halfOf : Option ℚ → Val
  | some q => .num (q / 2)
  | none => .nan

/-- The body of the first loop of `start` for the node at index `i`: the index
is recorded, and a node without `x` is put at the midpoint `(mx, my)`. -/
def adaptor.startNode (mx my : Val) (i : Nat) (v : Node) : Node :=
  if v.x.isUndefined then { v with index := .num i, x := mx, y := my }
  else { v with index := .num i }

/-- Modelled from the spec: `cola.Descent.createSquareMatrix(n, f)`, the
`n` by `n` matrix whose entry `(i, j)` is `f(i, j)` (`descent.ts` is not among
the sources). -/
def createSquareMatrix {α : Type} (n : Nat) (f : Nat → Nat → α) : List (List α) :=
  (List.range n).map (fun i => (List.range n).map (fun j => f i j))

/-- The assignment `M[i][j] = v` in a matrix that has the row `i` and, in it,
the column `j`. -/
def matrixSet {α : Type} (M : List (List α)) (i j : Nat) (v : α) : List (List α) :=
  M.modify (fun row => row.set j v) i

/-- The read `M[i][j]`, `undefined` past the end of the row. -/
def matrixEntry (M : List (List Val)) (i j : Nat) : Val :=
  (M.getD i []).getD j .undefined

/-- The row of a matrix of `N` rows that a value denotes as key `G[u]`:
`none` when the read gives `undefined`. -/
def rowIndex (N : Nat) : Val → Option Nat
  | .num q => if q.den = 1 ∧ 0 ≤ q.num ∧ q.num.toNat < N then some q.num.toNat else none
  | _ => none

/-- The loop `this._links.forEach` that marks the linked pairs in `G`:
`G[u][v] = G[v][u] = 1`, a TypeError when `G[u]` or `G[v]` is `undefined`. -/
def adaptor.startWeights (nodes : List Node) (N : Nat) :
    List Link → List (List Val) → Except JSError (List (List Val))
  | [], G => .ok G
  | e :: rest, G =>
    match adaptor.getSourceIndex nodes e with
    | .error err => .error err
    | .ok u =>
      match adaptor.getTargetIndex nodes e with
      | .error err => .error err
      | .ok v =>
        match rowIndex N u, rowIndex N v with
        | some u, some v =>
          adaptor.startWeights nodes N rest (matrixSet (matrixSet G v u (.num 1)) u v (.num 1))
        | _, _ => .error .typeError

/-- The matrices and coordinates that the loop over the groups writes; the
weights `G` are `null` (`none`) when the user supplied the distances. -/
structure GroupVariables where
  G : Option (List (List Val))
  D : List (List Val)
  x : List Val
  y : List Val

/-- The loop `this._groups.forEach` of `start`, from the variable `i` on: each
group takes the variables `i` and `i + 1`, with weight `1e-6` and ideal
distance `0.1` between them, both at the origin; with `G` `null`, the first
group raises a TypeError at `G[i][i + 1]`. -/
def adaptor.startGroups : List Group → Nat → GroupVariables → Except JSError GroupVariables
  | [], _, V => .ok V
  | _ :: rest, i, V =>
    match V.G with
    | none => .error .typeError
    | some G =>
      adaptor.startGroups rest (i + 2)
        { G := some (matrixSet (matrixSet G (i + 1) i (.num (1 / 1000000))) i (i + 1)
            (.num (1 / 1000000)))
          D := matrixSet (matrixSet V.D (i + 1) i (.num (1 / 10))) i (i + 1) (.num (1 / 10))
          x := (V.x.set i (.num 0)).set (i + 1) (.num 0)
          y := (V.y.set i (.num 0)).set (i + 1) (.num 0) }

/-- The value of `a || []` for a list `a` that may be `null` or `undefined`. -/
def Nullable.orEmpty {α : Type} : Nullable (List α) → List α
  | .val a => a
  | _ => []

/-- The separation accessor that `start` copies into `linkAccessor`. -/
def DirectedLinkConstraints.accessor (minSeparation : Nat → Link → Val)
    (c : DirectedLinkConstraints) : Option (Link → Val) :=
  match c.getMinSeparation with
  | none => none
  | some (.val q) => some (fun _ => .num q)
  | some (.fn f) => some (minSeparation f)

/-! ## Starting the layout: the preparation -/

/-- The ideal distances and weights `start` works from: the user's matrix and
no weights, or the matrix of the shortest-path calculator and the weights 2,
with 1 between linked nodes. -/
def adaptor.startDistances (lib : Library) (s : adaptor) (nodes : List Node) (N : Nat)
    (links : List Link) : Except JSError (List (List Val) × Option (List (List Val))) :=
  match s._distanceMatrix with
  | .val M => .ok (M.map (fun row => row.map Val.num), none)
  | _ =>
    match lib.DistanceMatrix N links (adaptor.getSourceIndex nodes)
        (adaptor.getTargetIndex nodes) (adaptor.getLinkLength lib.linkDistance s) with
    | .error e => .error e
    | .ok distances =>
      match adaptor.startWeights nodes N links (createSquareMatrix N (fun _ _ => .num 2)) with
      | .error e => .error e
      | .ok G => .ok (distances, some G)

/-- The matrix `D` of `start`, the copy `(i, j) ↦ distances[i][j]` of the
distances for `N` variables; reading an entry of a row that is missing raises
a TypeError. -/
def adaptor.startIdealDistances (N : Nat) (distances : List (List Val)) :
    Except JSError (List (List Val)) :=
  if distances.length < N then .error .typeError
  else .ok (createSquareMatrix N (fun i j => matrixEntry distances i j))

/-- The test `this._rootGroup && typeof this._rootGroup.groups !== 'undefined'`. -/
def adaptor.hasRootGroups (s : adaptor) : Bool :=
  match s._rootGroup with
  | some r => r.groups.isSome
  | none => false

/-- The constraints `start` projects on: the user's, then those generated
for the directed links when `flowLayout` was called. -/
def adaptor.startConstraints (lib : Library) (s : adaptor) (nodes : List Node)
    (links : List Link) : Except JSError (List Val) :=
  match s._directedLinkConstraints with
  | none => .ok s._constraints.orEmpty
  | some c =>
    match lib.generateDirectedEdgeConstraints nodes.length links c.axis
        { getSourceIndex := adaptor.getSourceIndex nodes
          getTargetIndex := adaptor.getTargetIndex nodes
          getMinSeparation := c.accessor lib.minSeparation } with
    | .error e => .error e
    | .ok cs => .ok (s._constraints.orEmpty ++ cs)

/-- What `start` has in hand when it builds the descent engine: the layout
(its nodes indexed and placed, its links measured, its root group made), the
links, the starting coordinates `x` and `y`, the matrices `D` and `G`, the
saved setting `ao` and the constraints. -/
structure Prepared where
  layout : adaptor
  links : List Link
  x : List Val
  y : List Val
  D : List (List Val)
  G : Option (List (List Val))
  ao : Val
  curConstraints : List Val

/-- The number `N` of descent variables: one for each node and two for each
group. -/
def adaptor.variableCount (s : adaptor) : Nat :=
  s._nodes.length + 2 * s._groups.length

/-- The links after the call `this._linkLengthCalculator()`, if there is a
calculator: it gives every link its length. -/
def adaptor.measuredLinks (lib : Library) (s : adaptor) (links : List Link) : List Link :=
  match s._linkLengthCalculator with
  | none => links
  | some c => mapAt (fun i l => { l with length := lib.linkLengths c s._nodes links i }) links 0

/-- The nodes after the first loop of `start`, with `w` and `h` the two
dimensions of the canvas. -/
def adaptor.placedNodes (s : adaptor) : List Node :=
  mapAt (adaptor.startNode (halfOf s._canvasSize[0]?) (halfOf s._canvasSize[1]?)) s._nodes 0

/-- The method `start()` up to the construction of the descent engine
(`adaptor.js` 229-276). -/
def adaptor.startPrepare (lib : Library) (s : adaptor) : Except JSError Prepared :=
  match s.nodes none with
  | .error e => .error e
  | .ok r =>
    match r.1._links with
    | .undefined => .error .typeError
    | .null => .error .typeError
    | .val links0 =>
      let n := r.1._nodes.length
      let N := r.1.variableCount
      let links := r.1.measuredLinks lib links0
      let nodes := r.1.placedNodes
      let x := nodes.map (fun v => v.x) ++ List.replicate (N - n) Val.undefined
      let y := nodes.map (fun v => v.y) ++ List.replicate (N - n) Val.undefined
      match adaptor.startDistances lib r.1 nodes N links with
      | .error e => .error e
      | .ok dg =>
        match adaptor.startIdealDistances N dg.1 with
        | .error e => .error e
        | .ok D =>
          match (if r.1.hasRootGroups then
                   adaptor.startGroups r.1._groups n { G := dg.2, D := D, x := x, y := y }
                 else .ok { G := dg.2, D := D, x := x, y := y }) with
          | .error e => .error e
          | .ok gv =>
            match adaptor.startConstraints lib r.1 nodes links with
            | .error e => .error e
            | .ok cur =>
              .ok { layout :=
                      { r.1 with
                        _nodes := nodes
                        _links := .val links
                        _rootGroup :=
                          if r.1.hasRootGroups then r.1._rootGroup
                          else some { leaves := some (List.range n), groups := some [] } }
                    links := links
                    x := gv.x
                    y := gv.y
                    D := gv.D
                    G := gv.G
                    ao := r.1._avoidOverlaps
                    curConstraints := cur }

/-! ## Starting the layout: the iterations -/

/-- The loop of `start` that pins the fixed nodes, run from index `i` on:
`px`, `py` take the values of `x`, `y`, and the node is locked at `[x, y]`. -/
def adaptor.startLocks : List Node → Nat → Locks → List Node × Locks
  | [], _, L => ([], L)
  | o :: rest, i, L =>
    if o.fixed.truthy then
      let r := adaptor.startLocks rest (i + 1) (L.add i [o.x, o.y])
      ({ o with px := o.x, py := o.y } :: r.1, r.2)
    else
      let r := adaptor.startLocks rest (i + 1) L
      (o :: r.1, r.2)

/-- The loop `this._nodes.forEach(function (v, i) { v.x = x[i], v.y = y[i]; })`;
reading an array past its end gives `undefined`. -/
def readCoordinates (x : List Val × List Val) (nodes : List Node) : List Node :=
  mapAt (fun i v => { v with x := x.1.getD i .undefined, y := x.2.getD i .undefined }) nodes 0

/-- The loop `this._nodes.forEach(function (v, i) { x[i] = v.x, y[i] = v.y; })`
on the coordinate rows: the entries of the nodes are written, the others
stay. -/
def writeCoordinates (nodes : List Node) (x : List Val × List Val) : List Val × List Val :=
  (nodes.map (fun v => v.x) ++ x.1.drop nodes.length,
   nodes.map (fun v => v.y) ++ x.2.drop nodes.length)

/-- The loop of `start` over the links that replaces a numeric endpoint by
the node at that index, `undefined` when there is none. -/
def resolveEndpoint (n : Nat) (e : Endpoint) : Endpoint :=
  match e with
  | .index q =>
    match arrayIndex n (.index q) with
    | some j => .node j
    | none => .undefined
  | e => e

/-- Where `start` stands after its third run and after it has resolved the
link endpoints and copied the coordinates to the nodes (`adaptor.js` 277-313):
the nodes, the links, the descent engine, and the calls of `Descent.run` it
made, each with the engine as it was at the call and the iterations asked
for; `overlaps` is the value of `_avoidOverlaps` at each of these calls. -/
structure Iterated where
  nodes : List Node
  links : List Link
  descent : Descent
  ao : Val
  runs : List (Descent × ℚ)
  overlaps : List Val

/-- The method `start()` from the reading of its arguments to the copy of the
coordinates to the nodes (`adaptor.js` 277-313); `args` are the arguments of
the call. -/
def adaptor.startIterate (lib : Library) (p : Prepared) (args : List ℚ) : Iterated :=
  let initialUnconstrainedIterations := if 0 < args.length then args.getD 0 0 else 0
  let initialUserConstraintIterations := if 1 < args.length then args.getD 1 0 else 0
  let initialAllConstraintsIterations := if 2 < args.length then args.getD 2 0 else 0
  let off := (p.layout.avoidOverlaps (some (.bool false))).1
  let pinned := adaptor.startLocks p.layout._nodes 0 (Locks.clear {})
  let d0 : Descent :=
    { x := (p.x, p.y), D := p.D, locks := pinned.2, threshold := some p.layout._threshold }
  let d1 : Descent := { d0 with x := lib.run d0 initialUnconstrainedIterations }
  let userProjection : Projection :=
    { nodes := pinned.1, groups := p.layout._groups, rootGroup := p.layout._rootGroup,
      constraints := p.curConstraints, avoidOverlaps := false }
  let d1p : Descent :=
    if 0 < p.curConstraints.length then { d1 with project := some userProjection } else d1
  let d2 : Descent := { d1p with x := lib.run d1p initialUserConstraintIterations }
  let restored := (off.avoidOverlaps (some p.ao)).1
  let placed := if p.ao.truthy then readCoordinates d2.x pinned.1 else pinned.1
  let overlapProjection : Projection :=
    { nodes := placed, groups := p.layout._groups, rootGroup := p.layout._rootGroup,
      constraints := p.curConstraints, avoidOverlaps := true }
  let d2p : Descent :=
    if p.ao.truthy then
      { d2 with project := some overlapProjection, x := writeCoordinates placed d2.x }
    else d2
  let d2g : Descent := { d2p with G := p.G }
  let d3 : Descent := { d2g with x := lib.run d2g initialAllConstraintsIterations }
  { nodes := readCoordinates d3.x placed
    links := p.links.map (fun l =>
      { l with source := resolveEndpoint placed.length l.source
               target := resolveEndpoint placed.length l.target })
    descent := d3
    ao := p.ao
    runs := [(d0, initialUnconstrainedIterations), (d1p, initialUserConstraintIterations),
             (d2g, initialAllConstraintsIterations)]
    overlaps := [off._avoidOverlaps, off._avoidOverlaps, restored._avoidOverlaps] }

/-- What `start` returns with: the layout, the calls of `Descent.run` it made,
and the value of `_avoidOverlaps` at each of them. -/
structure Started where
  layout : adaptor
  runs : List (Descent × ℚ)
  overlaps : List Val

/-- The end of the method `start()` (`adaptor.js` 314-321): with no distance
matrix and `handleDisconnected` on, the components are packed and the packed
positions copied to the descent engine; then `resume()`. -/
def adaptor.startFinish (lib : Library) (p : Prepared) (it : Iterated) : Started :=
  let packs := !p.layout._distanceMatrix.truthy && p.layout._handleDisconnected.truthy
  let nodes :=
    if packs then
      mapAt (fun i v =>
        { v with
          x := (lib.applyPacking it.nodes it.links p.layout._canvasSize[0]?
                  p.layout._canvasSize[1]? p.layout._defaultNodeSize i).1
          y := (lib.applyPacking it.nodes it.links p.layout._canvasSize[0]?
                  p.layout._canvasSize[1]? p.layout._defaultNodeSize i).2 }) it.nodes 0
    else it.nodes
  let descent : Descent :=
    if packs then { it.descent with x := writeCoordinates nodes it.descent.x } else it.descent
  { layout :=
      (adaptor.resume
        { p.layout with
          _avoidOverlaps := it.ao
          _nodes := nodes
          _links := .val it.links
          _descent := some descent }).1
    runs := it.runs
    overlaps := it.overlaps }

/-- The method `start(...)`; `args` are the arguments of the call. -/
def adaptor.start (lib : Library) (s : adaptor) (args : List ℚ) : Except JSError Started :=
  match adaptor.startPrepare lib s with
  | .error e => .error e
  | .ok p => .ok (adaptor.startFinish lib p (adaptor.startIterate lib p args))

/-! ## The interaction handlers -/

/-- The conversion `ToInt32` of a number: the number is truncated toward zero
and reduced modulo `2^32` to the range from `-2^31` to `2^31 - 1`. -/
def toInt32 (q : ℚ) : Int :=
  (q.num.tdiv (q.den : Int) + 2 ^ 31) % 2 ^ 32 - 2 ^ 31

/-- The 32-bit integer that a value reads as in a bitwise operation
(`ToInt32` of its numeric reading): `undefined`, `NaN` and the infinities read
as 0, `true` as 1.  `text v` is the number that a string, an array or an
object `v` converts to, `none` when that is `NaN` or infinite. -/
def Val.toInt32 (text : Val → Option ℚ) : Val → Int
  | .undefined => 0
  | .null => 0
  | .bool b => if b then 1 else 0
  | .num q => cola.toInt32 q
  | .nan => 0
  | .posInf => 0
  | .negInf => 0
  | v => (text v).elim 0 cola.toInt32

/-- The bit pattern of a 32-bit integer, in two's complement: its residue
modulo `2^32`. -/
def bits32 (z : Int) : Nat :=
  (z % 2 ^ 32).toNat

/-- The 32-bit integer of a bit pattern below `2^32`: a pattern from `2^31` on
is a negative number. -/
def ofBits32 (b : Nat) : Int :=
  if b < 2 ^ 31 then (b : Int) else (b : Int) - 2 ^ 32

/-- The operator `a | b` on 32-bit integers. -/
def bitOr32 (a b : Int) : Int :=
  ofBits32 (bits32 a ||| bits32 b)

/-- The operator `a & b` on 32-bit integers. -/
def bitAnd32 (a b : Int) : Int :=
  ofBits32 (bits32 a &&& bits32 b)

/-- The operator `~a` on a 32-bit integer: every bit of the pattern is
flipped. -/
def bitNot32 (a : Int) : Int :=
  ofBits32 (2 ^ 32 - 1 - bits32 a)

/-- The function `colaDragstart(d)`: `d.fixed |= 2`, then `d.px = d.x` and
`d.py = d.y`. -/
def colaDragstart (text : Val → Option ℚ) (d : Node) : Node :=
  { d with fixed := .num (bitOr32 (d.fixed.toInt32 text) 2), px := d.x, py := d.y }

/-- The function `colaDragend(d)`: `d.fixed &= ~6`. -/
def colaDragend (text : Val → Option ℚ) (d : Node) : Node :=
  { d with fixed := .num (bitAnd32 (d.fixed.toInt32 text) (bitNot32 6)) }

/-- The function `colaMouseover(d)`: `d.fixed |= 4`, then `d.px = d.x` and
`d.py = d.y`. -/
def colaMouseover (text : Val → Option ℚ) (d : Node) : Node :=
  { d with fixed := .num (bitOr32 (d.fixed.toInt32 text) 4), px := d.x, py := d.y }

/-- The function `colaMouseout(d)`: `d.fixed &= ~4`. -/
def colaMouseout (text : Val → Option ℚ) (d : Node) : Node :=
  { d with fixed := .num (bitAnd32 (d.fixed.toInt32 text) (bitNot32 4)) }

/-! ## Shortest paths -/

/-- Modelled from the spec: the class `cola.shortestpaths.Calculator`
(`shortestpaths.ts` is not among the sources; `index.d.ts` declares its
constructor and its methods): the number `n` of nodes, the edges `es`, and the
accessors that give the source index, the target index and the length of an
edge. -/
structure Calculator (α : Type) where
  n : Nat
  es : List α
  getSourceIndex : α → Nat
  getTargetIndex : α → Nat
  getLength : α → ℚ

/-- Modelled from the spec: the neighbours of the node `u`, each with the
length of the edge that leads to it.  An edge joins its two ends both ways:
the distances of the specification are symmetric. -/
def Calculator.neighbours {α : Type} (c : Calculator α) (u : Nat) : List (Nat × ℚ) :=
  c.es.filterMap (fun e =>
    if c.getSourceIndex e = u then some (c.getTargetIndex e, c.getLength e)
    else if c.getTargetIndex e = u then some (c.getSourceIndex e, c.getLength e)
    else none)

/-- Modelled from the spec: the node that Dijkstra's algorithm scans next,
with its distance: among the nodes not yet scanned that have been reached,
the first one of the least tentative distance.  In `dist`, `none` is a node
not reached (infinite distance). -/
def Calculator.closest (dist : List (Option ℚ)) (scanned : List Nat) : Option (Nat × ℚ) :=
  (List.range dist.length).foldl
    (fun best i =>
      if i ∈ scanned then best
      else
        match dist.getD i none, best with
        | some d, none => some (i, d)
        | some d, some b => if d < b.2 then some (i, d) else best
        | none, _ => best)
    none

/-- Modelled from the spec: the relaxation of one edge out of a node scanned
at distance `du`: the neighbour takes the distance through that node when it
is shorter than the one it has. -/
def Calculator.relax (du : ℚ) (dist : List (Option ℚ)) (nb : Nat × ℚ) : List (Option ℚ) :=
  match dist.getD nb.1 none with
  | some dv => if du + nb.2 < dv then dist.set nb.1 (some (du + nb.2)) else dist
  | none => dist.set nb.1 (some (du + nb.2))

/-- Modelled from the spec: the scan of Dijkstra's algorithm, for at most
`rounds` nodes: the closest node not yet scanned is scanned and its edges are
relaxed, until no reached node is left. -/
def Calculator.scan {α : Type} (c : Calculator α) :
    Nat → List (Option ℚ) → List Nat → List (Option ℚ)
  | 0, dist, _ => dist
  | rounds + 1, dist, scanned =>
    match Calculator.closest dist scanned with
    | none => dist
    | some (u, du) =>
      c.scan rounds ((c.neighbours u).foldl (Calculator.relax du) dist) (u :: scanned)

/-- Modelled from the spec: `dijkstraNeighbours(start)`, Dijkstra's algorithm
from the node `start`: the distance from `start` to every node, `none` for a
node that cannot be reached.  The scan makes at most `n` rounds, one for each
node. -/
def Calculator.dijkstraNeighbours {α : Type} (c : Calculator α) (start : Nat) :
    List (Option ℚ) :=
  c.scan c.n ((List.replicate c.n none).set start (some 0)) []

/-- Modelled from the spec: `DistancesFromNode(start)`, the shortest distances
from one node. -/
def Calculator.DistancesFromNode {α : Type} (c : Calculator α) (start : Nat) :
    List (Option ℚ) :=
  c.dijkstraNeighbours start

/-- Modelled from the spec: `DistanceMatrix()`, Dijkstra's algorithm from every
node; row `i` holds the distances from node `i`, infinite for a node that
cannot be reached from it. -/
def Calculator.DistanceMatrix {α : Type} (c : Calculator α) : List (List Val) :=
  (List.range c.n).map (fun i =>
    (c.dijkstraNeighbours i).map (fun d =>
      match d with
      | some q => Val.num q
      | none => Val.posInf))

/-! ## Events and concrete layouts used in the statements -/

/-- The event a terminal tick fires. -/
def endEvent (s : adaptor) : Event :=
  { type := .end_, alpha := some (.num 0), stress := s._lastStress }

/-- The event `alpha(x)` fires when it starts the layout. -/
def startEvent (x : ℚ) : Event :=
  { type := .start, alpha := some (.num x), stress := none }

/-- A layout state used as concrete input: a new layout whose alpha has been
brought to 0. -/
def idleLayout : adaptor :=
  { adaptor.new with _alpha := some (.num 0) }

/-- A layout state used as concrete input: a new layout after `resume()`. -/
def runningLayout : adaptor :=
  adaptor.new.resume.1

/-- A layout state used as concrete input: a new layout after `resume()` and
then `stop()`, not yet ticked. -/
def stoppedLayout : adaptor :=
  runningLayout.stop.1

/-- A link used as concrete input. -/
def sampleLink : Link :=
  { source := .index 0, target := .index 1 }

/-- A layout state used as concrete input: a new layout after
`linkType(f)`, for a function `f`. -/
def typedLayout : adaptor :=
  (adaptor.new.linkType (some (.fn 0))).1

/-- The position at which the first loop of `tick` locks a fixed node:
`[px, py]`, after `px`, `py` took the values of `x`, `y` if one of them was
`undefined`. -/
def lockPosition (o : Node) : List Val :=
  if o.px.isUndefined || o.py.isUndefined then [o.x, o.y] else [o.px, o.py]

/-- A descent step used as concrete input: it moves nothing and returns the
stress 1. -/
def idleStep (d : Descent) : Num × Descent :=
  (.num 1, d)

/-- A descent engine used as concrete input: two nodes, and a lock left over
for the second. -/
def steppingDescent : Descent :=
  { x := ([.num 1, .num 5], [.num 2, .num 6])
    locks := { locks := [(1, [.num 3, .num 4])] } }

/-- A layout state used as concrete input: running, with a fixed node that has
no `px`, `py` yet, a free node, and the descent engine `steppingDescent`. -/
def steppingLayout : adaptor :=
  { adaptor.new with
    _alpha := some (.num (1 / 10))
    _running := true
    _nodes := [{ x := .num 1, y := .num 2, fixed := .bool true }, { x := .num 3, y := .num 4 }]
    _descent := some steppingDescent }

/-- A layout state used as concrete input: a new layout given one link, from
node 0 to node 2, and no nodes. -/
def linkedLayout : adaptor :=
  (adaptor.new.links (some (.val [{ source := .index 0, target := .index 2 }]))).1

/-- The distances of `N` nodes without links: 0 from a node to itself, and
infinite to any other (§4.4 of the specification: disconnected nodes get
infinite distance). -/
def isolatedDistances (N : Nat) : List (List Val) :=
  createSquareMatrix N (fun i j => if i = j then .num 0 else .posInf)

/-- A library used as concrete input, for layouts without links or with
distances of their own: the shortest-path calculator gives the distances of
isolated nodes, every user function and every link length is 1, no
directed-edge constraint is generated, a run moves nothing and the packing
leaves every node where it is. -/
def sampleLibrary : Library :=
  { linkDistance := fun _ _ => .num 1
    minSeparation := fun _ _ => .num 1
    linkLengths := fun _ _ _ _ => .num 1
    DistanceMatrix := fun N _ _ _ _ => .ok (isolatedDistances N)
    generateDirectedEdgeConstraints := fun _ _ _ _ => .ok []
    run := fun d _ => d.x
    applyPacking := fun nodes _ _ _ _ i =>
      ((nodes[i]?.map (fun v => v.x)).getD .undefined,
       (nodes[i]?.map (fun v => v.y)).getD .undefined) }

/-- A layout state used as concrete input: a new layout given two nodes, the
second with a position, and `avoidOverlaps` on. -/
def twoNodeLayout : adaptor :=
  { adaptor.new with
    _nodes := [{}, { x := .num 3, y := .num 4 }]
    _avoidOverlaps := .bool true }

/-- The pairs of variables `(a, b)` that are the two synthetic variables of
one of `g` groups, the first of which starts at variable `n`. -/
def groupPair (n g a b : Nat) : Prop :=
  ∃ k : Nat, k < g ∧
    ((a = n + 2 * k ∧ b = n + 2 * k + 1) ∨ (a = n + 2 * k + 1 ∧ b = n + 2 * k))

/-- A layout state used as concrete input: a new layout after `groups([{}])`,
one empty group. -/
def groupedLayout : adaptor :=
  { adaptor.new with
    _groups := [{ padding := .num 1 }]
    _rootGroup := some { leaves := some [], groups := some [0] } }

/-- A layout state used as concrete input: a new layout given one node that
has a `y` and no `x`. -/
def yOnlyLayout : adaptor :=
  { adaptor.new with _nodes := [{ y := .num 5 }] }

/-- A layout state used as concrete input: a new layout after
`flowLayout('x', 20)`. -/
def flowingLayout : adaptor :=
  (adaptor.new.flowLayout (some (.str "x", some (.val 20)))).1

/-- A constraint used as concrete input: a separation constraint between
the variables 5 and 7. -/
def danglingConstraint : Val :=
  .obj [("axis", .str "x"), ("left", .num 5), ("right", .num 7), ("gap", .num 1)]

/-- The nodes of a list each carry their position as `index`. -/
def Indexed (ns : List Node) : Prop :=
  ∀ (i : Nat) (v : Node), ns[i]? = some v → v.index = .num i

/-- A layout state used as concrete input: a new layout given two nodes, a
link between them by their indices, and a distance matrix. -/
def matrixLayout : adaptor :=
  { adaptor.new with
    _nodes := [{}, {}]
    _links := .val [{ source := .index 0, target := .index 1 }]
    _distanceMatrix := .val [[0, 1], [1, 0]] }

/-- A layout state used as concrete input: a new layout given a fixed node at
`(1, 2)` and a free node at `(3, 4)`. -/
def pinnedLayout : adaptor :=
  { adaptor.new with
    _nodes := [{ x := .num 1, y := .num 2, fixed := .bool true }, { x := .num 3, y := .num 4 }] }

/-- A constraint used as concrete input: node 1 at least 20 to the right of
node 0. -/
def flowConstraint : Val :=
  .obj [("axis", .str "x"), ("left", .num 0), ("right", .num 1), ("gap", .num 20)]

/-- A constraint used as concrete input: node 1 at least 5 below node 0. -/
def userConstraint : Val :=
  .obj [("axis", .str "y"), ("left", .num 0), ("right", .num 1), ("gap", .num 5)]

/-- A library used as concrete input: the sample library, with a generator
that returns the constraint `flowConstraint` at every call. -/
def flowLibrary : Library :=
  { sampleLibrary with generateDirectedEdgeConstraints := fun _ _ _ _ => .ok [flowConstraint] }

/-- A layout state used as concrete input: a new layout given two nodes, a
link between them and the constraint `userConstraint`, after
`flowLayout('x', 20)`. -/
def constrainedLayout : adaptor :=
  { flowingLayout with
    _nodes := [{}, {}]
    _links := .val [{ source := .index 0, target := .index 1 }]
    _constraints := .val [userConstraint] }

/-- A layout state used as concrete input: the layout of one group, given a
distance matrix for its two variables. -/
def groupedMatrixLayout : adaptor :=
  { groupedLayout with _distanceMatrix := .val [[0, 1], [1, 0]] }

/-- A matrix of `N` rows of `N` entries. -/
def IsSquare (N : Nat) (M : List (List Val)) : Prop :=
  M.length = N ∧ ∀ row ∈ M, row.length = N

/-- The two synthetic variables of the `k`-th group (from 0) of a layout of
`n` nodes, as the loop over the groups in `start` takes them. -/
def groupVariables (n k : Nat) : Nat × Nat :=
  (n + 2 * k, n + 2 * k + 1)

/-- The bit `k` of an integer in two's complement; bit 0 has the value 1. -/
def bitOf (z : Int) (k : Nat) : Bool :=
  decide (z / 2 ^ k % 2 = 1)

/-- A conversion of strings, arrays and objects to numbers used as concrete
input: every such value converts to `NaN`. -/
def noText (_v : Val) : Option ℚ :=
  none

/-- A node used as concrete input: its flag `fixed` is `2^32`. -/
def wideNode : Node :=
  { x := .num 1, y := .num 2, fixed := .num 4294967296 }

/-- A node used as concrete input: its flag `fixed` is 1, the mark of a node
fixed by the caller. -/
def markedNode : Node :=
  { x := .num 1, y := .num 2, fixed := .num 1 }

/-- The index `j` is among the entries of a list of leaves or of nested
groups, when there is such a list. -/
def Listed (o : Option (List Endpoint)) (j : Nat) : Prop :=
  ∃ ls : List Endpoint, o = some ls ∧ Endpoint.index (j : ℚ) ∈ ls

/-- Every entry of a list of leaves or of nested groups, when there is such a
list, is an index below `n`. -/
def ValidIndices (o : Option (List Endpoint)) (n : Nat) : Prop :=
  ∀ ls : List Endpoint, o = some ls → ∀ e ∈ ls, ∃ i : ℕ, e = .index i ∧ i < n

/-- The group at position `k` of `x` lists the node `j` among its leaves. -/
def listsLeaf (x : List Group) (k j : Nat) : Prop :=
  ∃ g : Group, x[k]? = some g ∧ Listed g.leaves j

/-- The group at position `k` of `x` lists the group `j` among its nested
groups. -/
def listsGroup (x : List Group) (k j : Nat) : Prop :=
  ∃ g : Group, x[k]? = some g ∧ Listed g.groups j

/-- The position `k` is the last one below `m` that satisfies `P`. -/
def LastBelow (m : Nat) (P : Nat → Prop) (k : Nat) : Prop :=
  k < m ∧ P k ∧ ∀ k' : Nat, k < k' → k' < m → ¬ P k'

/-- The state of the loop of `groups(x)` once the groups below position `m`
have been processed, on the nodes `ns0`: the groups below `m` have their
padding, leaves and nested groups, the others are as in `x`; and the parent of
a node or group is the last group below `m` that lists it. -/
def GroupsProcessed (ns0 : List Node) (x : List Group) (m : Nat)
    (st : List Node × List Group) : Prop :=
  st.1.length = ns0.length ∧ st.2.length = x.length ∧
  (∀ (j : ℕ) (v : Node), ns0[j]? = some v →
    ∃ v' : Node, st.1[j]? = some v' ∧ v' = { v with parent := v'.parent } ∧
      ∀ k : Nat, v'.parent = some k ↔ LastBelow m (fun k => listsLeaf x k j) k) ∧
  (∀ (j : ℕ) (h : Group), x[j]? = some h →
    ∃ h' : Group, st.2[j]? = some h' ∧
      (j < m →
        h'.padding = (if h.padding.isUndefined then .num 1 else h.padding) ∧
        h'.leaves = h.leaves.map (List.map (resolveEndpoint ns0.length)) ∧
        h'.groups = h.groups.map (List.map (resolveEndpoint x.length))) ∧
      (m ≤ j → h'.padding = h.padding ∧ h'.leaves = h.leaves ∧ h'.groups = h.groups) ∧
      ∀ k : Nat, h'.parent = some k ↔ LastBelow m (fun k => listsGroup x k j) k)

/-- A layout state used as concrete input: a new layout given one node. -/
def oneNodeLayout : adaptor :=
  { adaptor.new with _nodes := [{}] }

/-- Groups used as concrete input: two groups that both list node 0. -/
def sharingGroups : List Group :=
  [{ leaves := some [.index 0] }, { leaves := some [.index 0] }]

/-- A layout state used as concrete input: a new layout given three nodes. -/
def threeNodeLayout : adaptor :=
  { adaptor.new with _nodes := [{}, {}, {}] }

/-- Groups used as concrete input: a group of the nodes 0 and 1, nested in a
group that has the padding 5 and no leaf. -/
def nestedGroups : List Group :=
  [{ leaves := some [.index 0, .index 1] }, { padding := .num 5, groups := some [.index 0] }]

/-- The graph of the specification's test: the cycle on four nodes, 0 - 1 -
2 - 3 - 0, every edge of length 1. -/
def cycle4 : Calculator (Nat × Nat) :=
  { n := 4
    es := [(0, 1), (1, 2), (2, 3), (3, 0)]
    getSourceIndex := Prod.fst
    getTargetIndex := Prod.snd
    getLength := fun _ => 1 }

/-- The number that a distance holds, 0 for a value that is no number. -/
def Val.toRat : Val → ℚ
  | .num q => q
  | _ => 0

/-- A descent step used as concrete input: it moves nothing and returns `NaN`
as the stress. -/
def nanStep (d : Descent) : Num × Descent :=
  (.nan, d)

/-- A layout state used as concrete input: a new layout given two nodes, the
first with an `x` and no `y`, which `start` hands to the descent engine as it
is, the second with a position. -/
def halfPlacedLayout : adaptor :=
  { adaptor.new with _nodes := [{ x := .num 1 }, { x := .num 3, y := .num 4 }] }

/-! # Properties -/

/-! ## Convergence: the terminal tick -/

/-- The test of `tick` succeeds exactly when the threshold is a number and
alpha is a number less than it, or minus infinity. -/
theorem belowThreshold_iff (alpha : Option Num) (threshold : FnOr ℚ) :
    belowThreshold alpha threshold = true ↔
      ∃ t : ℚ, threshold = .val t ∧
        ((∃ a : ℚ, alpha = some (.num a) ∧ a < t) ∨ alpha = some .negInf) := by
  cases alpha with
  | none => simp [belowThreshold]
  | some a =>
    cases threshold with
    | fn f => simp [belowThreshold]
    | val t => cases a <;> simp [belowThreshold]

/-- A tick below the threshold, as an equation. -/
theorem adaptor.tick_of_below (rungeKutta : Descent → Num × Descent) (s : adaptor)
    (h : belowThreshold s._alpha s._threshold = true) :
    s.tick rungeKutta =
      .ok ({ s with _running := false, _alpha := some (.num 0),
                    events := s.events ++ [endEvent s] },
           .bool true) := by
  simp [adaptor.tick, h, endEvent]

/-- C1: in every layout state whose alpha is below the convergence threshold,
`tick()` returns `true` whatever the descent step would do (so no step is
taken), leaves alpha 0 and the layout not running, fires exactly one event,
`end` with alpha 0 and the last recorded stress, and changes neither the nodes
nor the descent engine. -/
theorem tick_converged (s : adaptor) (h : belowThreshold s._alpha s._threshold = true) :
    ∃ s' : adaptor,
      (∀ rungeKutta, s.tick rungeKutta = .ok (s', .bool true)) ∧
      s'._alpha = some (.num 0) ∧ s'._running = false ∧
      s'.events = s.events ++ [endEvent s] ∧
      s'._nodes = s._nodes ∧ s'._descent = s._descent ∧ s'.kicks = s.kicks := by
  refine ⟨{ s with _running := false, _alpha := some (.num 0),
                   events := s.events ++ [endEvent s] },
    ?_, rfl, rfl, rfl, rfl, rfl, rfl⟩
  intro rungeKutta
  exact adaptor.tick_of_below rungeKutta s h

/-- C1 at a concrete input: a layout with alpha 0 and the default threshold. -/
theorem tick_converged_witness :
    belowThreshold idleLayout._alpha idleLayout._threshold = true ∧
    ∃ s' : adaptor,
      (∀ rungeKutta, idleLayout.tick rungeKutta = .ok (s', .bool true)) ∧
      s'._alpha = some (.num 0) ∧ s'._running = false ∧
      s'.events = idleLayout.events ++ [endEvent idleLayout] ∧
      s'._nodes = idleLayout._nodes ∧ s'._descent = idleLayout._descent ∧
      s'.kicks = idleLayout.kicks :=
  ⟨by simp [belowThreshold, idleLayout, adaptor.new],
   tick_converged idleLayout (by simp [belowThreshold, idleLayout, adaptor.new])⟩

/-! ## Stopping and resuming -/

/-- What `alpha(x)` does to a layout whose alpha is truthy. -/
theorem adaptor.alpha_of_hot (s : adaptor) (x : ℚ) (h : numTruthy s._alpha = true) :
    s.alpha (some x) =
      (if 0 < x then ({ s with _alpha := some (.num x) }, .self)
       else ({ s with _alpha := some (.num 0) }, .self)) := by
  simp [adaptor.alpha, h]

/-- What `alpha(x)` does to a layout whose alpha is falsy. -/
theorem adaptor.alpha_of_cold (s : adaptor) (x : ℚ) (h : numTruthy s._alpha = false) :
    s.alpha (some x) =
      (if 0 < x ∧ s._running = false then
        ({ s with
            _running := true
            _alpha := some (.num x)
            events := s.events ++ [startEvent x]
            kicks := s.kicks + 1 }, .self)
       else (s, .self)) := by
  by_cases hx : 0 < x <;> cases hr : s._running <;> simp [adaptor.alpha, h, hx, hr, startEvent]

/-- C4: on a running layout (alpha > 0: a positive number or plus infinity)
with a positive numeric threshold, `stop()` returns the layout with alpha 0
and nothing else changed, so no event is fired; the next `tick()` then
returns `true`, takes no step and fires exactly the event `end`. -/
theorem stop_then_tick (s : adaptor) (t : ℚ)
    (ha : (∃ a : ℚ, s._alpha = some (.num a) ∧ 0 < a) ∨ s._alpha = some .posInf)
    (ht : s._threshold = .val t) (htpos : 0 < t) :
    s.stop = ({ s with _alpha := some (.num 0) }, .self) ∧
    s.stop.1.events = s.events ∧ s.stop.1.kicks = s.kicks ∧
    ∃ s' : adaptor,
      (∀ rungeKutta, s.stop.1.tick rungeKutta = .ok (s', .bool true)) ∧
      s'.events = s.events ++ [endEvent s] ∧ s'._alpha = some (.num 0) ∧
      s'._running = false := by
  have hot : numTruthy s._alpha = true := by
    rcases ha with ⟨a, ha, hpos⟩ | ha
    · simp [numTruthy, ha, hpos.ne']
    · simp [numTruthy, ha]
  have hstop : s.stop = ({ s with _alpha := some (.num 0) }, .self) := by
    simp [adaptor.stop, adaptor.alpha_of_hot s 0 hot]
  refine ⟨hstop, by rw [hstop], by rw [hstop], ?_⟩
  refine ⟨{ s with _running := false, _alpha := some (.num 0),
                   events := s.events ++ [endEvent s] },
    ?_, rfl, rfl, rfl⟩
  intro rungeKutta
  rw [hstop]
  have hb : belowThreshold (some (.num 0)) s._threshold = true := by
    simp [belowThreshold, ht, htpos]
  exact adaptor.tick_of_below rungeKutta { s with _alpha := some (.num 0) } hb

/-- C4 at a concrete input: a new layout after `resume()`. -/
theorem stop_then_tick_witness :
    runningLayout._alpha = some (.num (1 / 10)) ∧
    runningLayout._threshold = .val (1 / 100) ∧
    runningLayout.stop = ({ runningLayout with _alpha := some (.num 0) }, .self) ∧
    runningLayout.stop.1.events = runningLayout.events ∧
    runningLayout.stop.1.kicks = runningLayout.kicks ∧
    ∃ s' : adaptor,
      (∀ rungeKutta, runningLayout.stop.1.tick rungeKutta = .ok (s', .bool true)) ∧
      s'.events = runningLayout.events ++ [endEvent runningLayout] ∧
      s'._alpha = some (.num 0) ∧ s'._running = false :=
  have ha : runningLayout._alpha = some (.num (1 / 10)) := by
    simp [runningLayout, adaptor.resume, adaptor.alpha, adaptor.new, numTruthy]
  have ht : runningLayout._threshold = .val (1 / 100) := by
    simp [runningLayout, adaptor.resume, adaptor.alpha, adaptor.new, numTruthy]
  ⟨ha, ht,
   stop_then_tick runningLayout (1 / 100) (Or.inl ⟨1 / 10, ha, by norm_num⟩) ht (by norm_num)⟩

/-- A falsy alpha is 0, unset or `NaN`. -/
theorem numTruthy_eq_false_iff (a : Option Num) :
    numTruthy a = false ↔ a = some (.num 0) ∨ a = none ∨ a = some .nan := by
  cases a with
  | none => simp [numTruthy]
  | some q => cases q <;> simp [numTruthy]

/-- The stopped layout is still marked running, with alpha 0. -/
theorem stoppedLayout_state :
    stoppedLayout._alpha = some (.num 0) ∧ stoppedLayout._running = true := by
  simp [stoppedLayout, runningLayout, adaptor.stop, adaptor.resume, adaptor.alpha, adaptor.new,
    numTruthy]

/-- C5, as stated, fails: on a layout stopped by `stop()` and not yet ticked,
`resume()` leaves alpha at 0, so `alpha()` does not return 0.1. -/
theorem resume_after_stop_keeps_zero :
    (stoppedLayout.resume.1.alpha none).2 = Ret.value (some (.num 0)) ∧
    (stoppedLayout.resume.1.alpha none).2 ≠ Ret.value (some (.num (1 / 10))) := by
  obtain ⟨ha, hr⟩ := stoppedLayout_state
  have hcold : numTruthy stoppedLayout._alpha = false := by simp [ha, numTruthy]
  have h : stoppedLayout.resume = (stoppedLayout, .self) := by
    unfold adaptor.resume
    rw [adaptor.alpha_of_cold stoppedLayout (1 / 10) hcold]
    simp [hr]
  rw [h]
  simp [adaptor.alpha, ha]

/-- C5, amended: after `resume()`, `alpha()` returns 0.1 in every layout state
except one that is still marked running while its alpha is falsy, that is 0
(a layout stopped by `stop()` and not yet ticked), unset or `NaN` (a running
layout whose step returned `NaN`); in that state `resume()` changes nothing
and `alpha()` returns what it returned before.  In both cases `resume()`
returns the layout. -/
theorem resume_alpha (s : adaptor) :
    (¬ (s._running = true ∧
          (s._alpha = some (.num 0) ∨ s._alpha = none ∨ s._alpha = some .nan)) →
      (s.resume.1.alpha none).2 = Ret.value (some (.num (1 / 10)))) ∧
    (s._running = true ∧
        (s._alpha = some (.num 0) ∨ s._alpha = none ∨ s._alpha = some .nan) →
      s.resume.1 = s ∧ (s.resume.1.alpha none).2 = Ret.value s._alpha) ∧
    s.resume.2 = .self := by
  unfold adaptor.resume
  cases hα : numTruthy s._alpha
  · have hz := (numTruthy_eq_false_iff s._alpha).1 hα
    rw [adaptor.alpha_of_cold s (1 / 10) hα]
    cases hr : s._running <;> simp [adaptor.alpha, hz]
  · have hnz : ¬ (s._alpha = some (.num 0) ∨ s._alpha = none ∨ s._alpha = some .nan) := by
      intro h
      have := (numTruthy_eq_false_iff s._alpha).2 h
      simp [hα] at this
    rw [adaptor.alpha_of_hot s (1 / 10) hα]
    simp [adaptor.alpha, hnz]

/-! ## The start event -/

/-- C6, amended: `alpha(x)` fires `start` carrying alpha `x`, sets the running
flag, stores `x` and calls `kick` once if and only if `x > 0`, the current
alpha is falsy (0, unset or `NaN`), and the layout is not running; in every
other case it fires no event and does not call `kick`. -/
theorem alpha_fires_start_iff (s : adaptor) (x : ℚ) :
    (((s.alpha (some x)).1.events = s.events ++ [startEvent x] ∧
      (s.alpha (some x)).1._running = true ∧
      (s.alpha (some x)).1._alpha = some (.num x) ∧
      (s.alpha (some x)).1.kicks = s.kicks + 1) ↔
     (0 < x ∧ (s._alpha = some (.num 0) ∨ s._alpha = none ∨ s._alpha = some .nan) ∧
      s._running = false)) ∧
    ((0 < x ∧ (s._alpha = some (.num 0) ∨ s._alpha = none ∨ s._alpha = some .nan) ∧
      s._running = false) ∨
     ((s.alpha (some x)).1.events = s.events ∧ (s.alpha (some x)).1.kicks = s.kicks)) := by
  cases hα : numTruthy s._alpha
  · have hz := (numTruthy_eq_false_iff s._alpha).1 hα
    rw [adaptor.alpha_of_cold s x hα]
    by_cases hc : 0 < x ∧ s._running = false
    · simp [hc, hz]
    · rw [if_neg hc]
      have hc' : ¬ (0 < x ∧
          (s._alpha = some (.num 0) ∨ s._alpha = none ∨ s._alpha = some .nan) ∧
          s._running = false) :=
        fun h => hc ⟨h.1, h.2.2⟩
      simp [hc']
  · have hnz : ¬ (s._alpha = some (.num 0) ∨ s._alpha = none ∨ s._alpha = some .nan) := by
      intro h
      have := (numTruthy_eq_false_iff s._alpha).2 h
      simp [hα] at this
    rw [adaptor.alpha_of_hot s x hα]
    by_cases hx : 0 < x <;> simp [hx, hnz]

/-! ## Accessors -/

/-- C7: for each of `links`, `constraints`, `distanceMatrix`, `avoidOverlaps`
and `handleDisconnected` and every argument `v` (falsy ones included), `X(v)`
returns the layout, a following `X()` returns `v`, and `X()` changes
nothing. -/
theorem accessor_set_get :
    (∀ (s : adaptor) (v : Nullable (List Link)),
      (s.links (some v)).2 = .self ∧ ((s.links (some v)).1.links none).2 = .value v ∧
      (s.links none).1 = s) ∧
    (∀ (s : adaptor) (v : Nullable (List Val)),
      (s.constraints (some v)).2 = .self ∧
      ((s.constraints (some v)).1.constraints none).2 = .value v ∧
      (s.constraints none).1 = s) ∧
    (∀ (s : adaptor) (v : Nullable (List (List ℚ))),
      (s.distanceMatrix (some v)).2 = .self ∧
      ((s.distanceMatrix (some v)).1.distanceMatrix none).2 = .value v ∧
      (s.distanceMatrix none).1 = s) ∧
    (∀ (s : adaptor) (v : Val),
      (s.avoidOverlaps (some v)).2 = .self ∧
      ((s.avoidOverlaps (some v)).1.avoidOverlaps none).2 = .value v ∧
      (s.avoidOverlaps none).1 = s) ∧
    (∀ (s : adaptor) (v : Val),
      (s.handleDisconnected (some v)).2 = .self ∧
      ((s.handleDisconnected (some v)).1.handleDisconnected none).2 = .value v ∧
      (s.handleDisconnected none).1 = s) :=
  ⟨fun _ _ => ⟨rfl, rfl, rfl⟩, fun _ _ => ⟨rfl, rfl, rfl⟩, fun _ _ => ⟨rfl, rfl, rfl⟩,
   fun _ _ => ⟨rfl, rfl, rfl⟩, fun _ _ => ⟨rfl, rfl, rfl⟩⟩

/-- A numeric accessor called with a number other than 0 sets it and returns
the layout. -/
theorem numeric_accessor_nonzero (s : adaptor) (x : ℚ) (hx : x ≠ 0) :
    s.defaultNodeSize (some x) = ({ s with _defaultNodeSize := x }, .self) ∧
    s.linkDistance (some (.val x)) =
      ({ s with _linkDistance := .val x, _linkLengthCalculator := none }, .self) ∧
    s.convergenceThreshold (some (.val x)) = ({ s with _threshold := .val x }, .self) := by
  simp [adaptor.defaultNodeSize, adaptor.linkDistance, adaptor.convergenceThreshold, hx]

/-- C8, the code at the failing input 0: `defaultNodeSize(0)`, `linkDistance(0)`
and `convergenceThreshold(0)` take the argument 0 for a missing one; each
returns the current value, not the layout, and sets nothing. -/
theorem numeric_accessor_zero (s : adaptor) :
    s.defaultNodeSize (some 0) = (s, .value s._defaultNodeSize) ∧
    s.linkDistance (some (.val 0)) = (s, .value s._linkDistance) ∧
    s.convergenceThreshold (some (.val 0)) = (s, .value s._threshold) := by
  simp [adaptor.defaultNodeSize, adaptor.linkDistance, adaptor.convergenceThreshold]

/-- C9, as stated, fails: on a layout whose link type is a function that gives
1, `linkType()` returns the layout, not the function, and `getLinkType` gives
0 afterwards where it gave 1 before. -/
theorem linkType_no_argument_resets :
    (typedLayout.linkType none).2 = Ret.self ∧
    (typedLayout.linkType none).2 ≠ Ret.value (FnOr.fn 0) ∧
    adaptor.getLinkType (fun _ _ => .num 1) typedLayout sampleLink = .num 1 ∧
    adaptor.getLinkType (fun _ _ => .num 1) (typedLayout.linkType none).1 sampleLink = .num 0 ∧
    adaptor.getLinkType (fun _ _ => .num 1) (typedLayout.linkType none).1 sampleLink ≠
      adaptor.getLinkType (fun _ _ => .num 1) typedLayout sampleLink := by
  simp [typedLayout, adaptor.linkType, adaptor.getLinkType]

/-- C9, amended: `linkType` is a setter only.  `linkType(f)` stores `f`,
changes nothing else and returns the layout, after which `getLinkType(link)`
is `f(link)` when `f` is a function and 0 otherwise; called with no argument
it stores `undefined` and returns the layout, after which `getLinkType` gives
0 for every link. -/
theorem linkType_sets (call : Nat → Link → Val) (s : adaptor) (link : Link) :
    (∀ f : FnOr Val, s.linkType (some f) = ({ s with _linkType := f }, .self)) ∧
    (∀ id : Nat, adaptor.getLinkType call (s.linkType (some (.fn id))).1 link = call id link) ∧
    (∀ v : Val, adaptor.getLinkType call (s.linkType (some (.val v))).1 link = .num 0) ∧
    s.linkType none = ({ s with _linkType := .val .undefined }, .self) ∧
    adaptor.getLinkType call (s.linkType none).1 link = .num 0 :=
  ⟨fun _ => rfl, fun _ => rfl, fun _ => rfl, rfl, rfl⟩

/-! ## Defaults -/

/-- C10: a new layout reports the documented defaults: no nodes, links, groups
or constraints, no distance matrix, `avoidOverlaps` false,
`handleDisconnected` true, link distance 20, default node size 10,
convergence threshold 0.01 and size `[1, 1]`. -/
theorem new_defaults :
    adaptor.new.nodes none = .ok (adaptor.new, .value []) ∧
    (adaptor.new.links none).2 = .value (.val []) ∧
    adaptor.new.groups none = .ok (adaptor.new, .value []) ∧
    (adaptor.new.constraints none).2 = .value (.val []) ∧
    (adaptor.new.distanceMatrix none).2 = .value .null ∧
    (adaptor.new.avoidOverlaps none).2 = .value (.bool false) ∧
    (adaptor.new.handleDisconnected none).2 = .value (.bool true) ∧
    (adaptor.new.linkDistance none).2 = .value (.val 20) ∧
    (adaptor.new.defaultNodeSize none).2 = .value 10 ∧
    (adaptor.new.convergenceThreshold none).2 = .value (.val (1 / 100)) ∧
    (adaptor.new.size none).2 = .value [1, 1] :=
  ⟨rfl, rfl, rfl, rfl, rfl, rfl, rfl, rfl, rfl, rfl, rfl⟩

/-! ## The descent step of a tick -/

/-- Reading a lock just added, or another one. -/
theorem Locks.get_add (L : Locks) (i j : Nat) (p : List Val) :
    (L.add i p).get j = if j = i then some p else L.get j := by
  obtain ⟨l⟩ := L
  simp only [Locks.add, Locks.get]
  induction l with
  | nil =>
    by_cases h : j = i
    · subst h; simp
    · have h' : ¬ i = j := fun e => h e.symm
      simp [h, h']
  | cons e rest ih =>
    by_cases he : e.1 = i
    · have hf : List.filter (fun e => decide (e.1 ≠ i)) (e :: rest) =
          List.filter (fun e => decide (e.1 ≠ i)) rest := by
        simp [List.filter_cons, he]
      rw [hf, ih]
      by_cases h : j = i
      · simp [h]
      · have hej : ¬ e.1 = j := fun e' => h (e'.symm.trans he)
        simp [h, List.find?_cons, hej]
    · have hf : List.filter (fun e => decide (e.1 ≠ i)) (e :: rest) =
          e :: List.filter (fun e => decide (e.1 ≠ i)) rest := by
        simp [List.filter_cons, he]
      rw [hf, List.cons_append, List.find?_cons]
      by_cases hej : e.1 = j
      · have h : ¬ j = i := fun e' => he (hej.trans e')
        simp [hej, h, List.find?_cons]
      · simp only [hej, decide_False]
        rw [ih]
        simp [List.find?_cons, hej]

/-- No lock is held after `clear`. -/
theorem Locks.get_clear (L : Locks) (j : Nat) : L.clear.get j = none := by
  simp [Locks.clear, Locks.get]

/-- The locks after the first loop of `tick` run from index `i0`: a fixed node
of the list is locked at its lock position, and any other index keeps the
lock it had. -/
theorem adaptor.tickLocks_get (ns : List Node) (i0 : Nat) (L : Locks) (j : Nat) :
    (adaptor.tickLocks ns i0 L).2.get j =
      match (if i0 ≤ j then ns[j - i0]? else none) with
      | some o => if o.fixed.truthy then some (lockPosition o) else L.get j
      | none => L.get j := by
  induction ns generalizing i0 L with
  | nil => simp [adaptor.tickLocks]
  | cons o rest ih =>
    have key : ∀ L' : Locks,
        (match (if i0 + 1 ≤ j then rest[j - (i0 + 1)]? else none) with
          | some o' => if o'.fixed.truthy then some (lockPosition o') else L'.get j
          | none => L'.get j) =
        if j = i0 then L'.get j else
          match (if i0 ≤ j then (o :: rest)[j - i0]? else none) with
          | some o' => if o'.fixed.truthy then some (lockPosition o') else L'.get j
          | none => L'.get j := by
      intro L'
      by_cases hj : j = i0
      · subst hj; simp
      · by_cases hle : i0 ≤ j
        · have h1 : i0 + 1 ≤ j := by omega
          have h2 : j - i0 = (j - (i0 + 1)) + 1 := by omega
          simp only [hj, hle, h1, if_true, if_false]
          rw [h2, List.getElem?_cons_succ]
        · have h1 : ¬ i0 + 1 ≤ j := by omega
          simp [hj, hle, h1]
    by_cases hf : o.fixed.truthy = true
    · have hstep : adaptor.tickLocks (o :: rest) i0 L =
          ((if o.px.isUndefined || o.py.isUndefined then { o with px := o.x, py := o.y } else o)
              :: (adaptor.tickLocks rest (i0 + 1) (L.add i0 (lockPosition o))).1,
            (adaptor.tickLocks rest (i0 + 1) (L.add i0 (lockPosition o))).2) := by
        simp only [adaptor.tickLocks, hf, if_true, lockPosition]
        by_cases hu : (o.px.isUndefined || o.py.isUndefined) = true <;> simp [hu]
      rw [hstep]
      simp only []
      rw [ih, key, Locks.get_add]
      by_cases hj : j = i0
      · subst hj; simp [hf]
      · simp [hj]
    · have hstep : adaptor.tickLocks (o :: rest) i0 L =
          (o :: (adaptor.tickLocks rest (i0 + 1) L).1, (adaptor.tickLocks rest (i0 + 1) L).2) := by
        simp [adaptor.tickLocks, hf]
      rw [hstep]
      simp only []
      rw [ih, key]
      by_cases hj : j = i0
      · subst hj; simp [hf]
      · simp [hj]

/-- The nodes after the first loop of `tick`: a fixed node with `px` or `py`
`undefined` has them set from `x`, `y`; every other node is as it was. -/
theorem adaptor.tickLocks_nodes (ns : List Node) (i0 : Nat) (L : Locks) :
    (adaptor.tickLocks ns i0 L).1 =
      ns.map (fun o =>
        if o.fixed.truthy && (o.px.isUndefined || o.py.isUndefined)
        then { o with px := o.x, py := o.y } else o) := by
  induction ns generalizing i0 L with
  | nil => simp [adaptor.tickLocks]
  | cons o rest ih =>
    by_cases hf : o.fixed.truthy = true
    · simp only [adaptor.tickLocks, hf, if_true, List.map_cons, Bool.true_and]
      rw [ih]
    · simp only [adaptor.tickLocks, hf, if_false, List.map_cons, Bool.false_eq_true]
      rw [ih]
      simp [hf]

/-- The nodes after the second loop of `tick` run from index `i0`. -/
theorem adaptor.tickWrite_getElem? (x : List Val × List Val) (ns : List Node) (i0 k : Nat) :
    (adaptor.tickWrite x ns i0)[k]? =
      ns[k]?.map (fun o =>
        if o.fixed.truthy then { o with x := o.px, y := o.py }
        else { o with x := x.1.getD (i0 + k) .undefined, y := x.2.getD (i0 + k) .undefined }) := by
  induction ns generalizing i0 k with
  | nil => simp [adaptor.tickWrite]
  | cons o rest ih =>
    cases k with
    | zero => simp [adaptor.tickWrite]
    | succ k =>
      simp only [adaptor.tickWrite, List.getElem?_cons_succ]
      rw [ih]
      have : i0 + 1 + k = i0 + (k + 1) := by omega
      rw [this]

/-- The second loop of `tick` keeps the number of nodes. -/
theorem adaptor.tickWrite_length (x : List Val × List Val) (ns : List Node) (i0 : Nat) :
    (adaptor.tickWrite x ns i0).length = ns.length := by
  induction ns generalizing i0 with
  | nil => simp [adaptor.tickWrite]
  | cons o rest ih => simp [adaptor.tickWrite, ih]

/-- A tick not below the threshold, on a layout whose links are a list and
which has a descent engine, as an equation. -/
theorem adaptor.tick_of_step (rungeKutta : Descent → Num × Descent) (s : adaptor) (d : Descent)
    (ls : List Link) (h : belowThreshold s._alpha s._threshold = false)
    (hl : s._links = .val ls) (hd : s._descent = some d) :
    s.tick rungeKutta =
      .ok ({ s with
              _nodes := adaptor.tickWrite (rungeKutta (s.tickDescent d)).2.x
                (adaptor.tickLocks s._nodes 0 d.locks.clear).1 0
              _descent := some (rungeKutta (s.tickDescent d)).2
              _alpha := s.tickAlpha (rungeKutta (s.tickDescent d)).1
              _lastStress := some (rungeKutta (s.tickDescent d)).1
              events := s.events ++
                [{ type := .tick, alpha := s.tickAlpha (rungeKutta (s.tickDescent d)).1,
                   stress := some (rungeKutta (s.tickDescent d)).1 }] },
           .undefined) := by
  simp [adaptor.tick, h, hl, hd]

/-- A tick not below the threshold raises a TypeError on a layout without
descent engine, and on one whose links are `null` or `undefined`. -/
theorem adaptor.tick_raises (rungeKutta : Descent → Num × Descent) (s : adaptor)
    (h : belowThreshold s._alpha s._threshold = false)
    (hn : s._descent = none ∨ s._links = .null ∨ s._links = .undefined) :
    s.tick rungeKutta = .error .typeError := by
  rcases hn with hd | hl | hl
  · cases hl : s._links <;> simp [adaptor.tick, h, hl, hd]
  · simp [adaptor.tick, h, hl]
  · simp [adaptor.tick, h, hl]

/-- The layout `steppingLayout` is not below its threshold, its links are a
list and it has the descent engine `steppingDescent`. -/
theorem steppingLayout_state :
    belowThreshold steppingLayout._alpha steppingLayout._threshold = false ∧
    steppingLayout._links = .val [] ∧
    steppingLayout._descent = some steppingDescent := by
  refine ⟨?_, rfl, rfl⟩
  simp [belowThreshold, steppingLayout, adaptor.new]
  norm_num

/-- C2: a `tick()` not below the threshold, on a layout that can take a
descent step (its links are a list and it has a descent engine), returns
after one step; afterwards every node is still marked fixed or not as before.
A fixed node has been put back at its locked position: `px`, `py` are what
they were, or the `x`, `y` the node had if one of them was `undefined`, and
`x = px`, `y = py`.  Any other node `i` has `x = descent.x[0][i]` and
`y = descent.x[1][i]`, and its `px`, `py` as before.  Exactly one event has
been fired, `tick`, carrying the new alpha and the stress the step returned;
the running flag and the count of kicks are unchanged. -/
theorem tick_step (rungeKutta : Descent → Num × Descent) (s : adaptor) (d : Descent)
    (ls : List Link) (h : belowThreshold s._alpha s._threshold = false)
    (hl : s._links = .val ls) (hd : s._descent = some d) :
    ∃ (s' : adaptor) (d' : Descent) (s1 : Num),
      s.tick rungeKutta = .ok (s', .undefined) ∧
      rungeKutta (s.tickDescent d) = (s1, d') ∧
      s'._descent = some d' ∧
      s'._nodes.length = s._nodes.length ∧
      (∀ (i : Nat) (o : Node), s._nodes[i]? = some o →
        ∃ o' : Node, s'._nodes[i]? = some o' ∧ o'.fixed = o.fixed ∧
          (o.fixed.truthy = true → o'.x = o'.px ∧ o'.y = o'.py) ∧
          (o.fixed.truthy = false →
            o'.x = d'.x.1.getD i .undefined ∧ o'.y = d'.x.2.getD i .undefined) ∧
          (o.fixed.truthy = true →
            [o'.px, o'.py] = lockPosition o ∧ [o'.x, o'.y] = lockPosition o) ∧
          (o.fixed.truthy = false → o'.px = o.px ∧ o'.py = o.py) ∧
          o'.index = o.index ∧ o'.parent = o.parent) ∧
      s'.events = s.events ++ [{ type := .tick, alpha := s'._alpha, stress := some s1 }] ∧
      s'._alpha = s.tickAlpha s1 ∧ s'._lastStress = some s1 ∧
      s'._running = s._running ∧ s'.kicks = s.kicks := by
  refine ⟨_, (rungeKutta (s.tickDescent d)).2, (rungeKutta (s.tickDescent d)).1,
    adaptor.tick_of_step rungeKutta s d ls h hl hd, rfl, rfl, ?_, ?_, rfl, rfl, rfl, rfl, rfl⟩
  · simp [adaptor.tickWrite_length, adaptor.tickLocks_nodes]
  · intro i o ho
    simp only [adaptor.tickWrite_getElem?, adaptor.tickLocks_nodes, List.getElem?_map, ho,
      Option.map_some', Nat.zero_add]
    refine ⟨_, rfl, ?_, ?_, ?_, ?_, ?_, ?_, ?_⟩
    · by_cases hf : o.fixed.truthy = true <;>
        by_cases hu : (o.px.isUndefined || o.py.isUndefined) = true <;> simp [hf, hu]
    · intro hf
      by_cases hu : (o.px.isUndefined || o.py.isUndefined) = true <;> simp [hf, hu]
    · intro hf
      simp [hf]
    · intro hf
      by_cases hu : (o.px.isUndefined || o.py.isUndefined) = true <;>
        simp [hf, hu, lockPosition]
    · intro hf
      simp [hf]
    · by_cases hf : o.fixed.truthy = true <;>
        by_cases hu : (o.px.isUndefined || o.py.isUndefined) = true <;> simp [hf, hu]
    · by_cases hf : o.fixed.truthy = true <;>
        by_cases hu : (o.px.isUndefined || o.py.isUndefined) = true <;> simp [hf, hu]

/-- C2 at a concrete input: the layout `steppingLayout` and a step that moves
nothing. -/
theorem tick_step_witness :
    belowThreshold steppingLayout._alpha steppingLayout._threshold = false ∧
    steppingLayout._links = .val [] ∧
    steppingLayout._descent = some steppingDescent ∧
    ∃ (s' : adaptor) (d' : Descent) (s1 : Num),
      steppingLayout.tick idleStep = .ok (s', .undefined) ∧
      idleStep (steppingLayout.tickDescent steppingDescent) = (s1, d') ∧
      s'._descent = some d' ∧
      s'._nodes.length = steppingLayout._nodes.length ∧
      (∀ (i : Nat) (o : Node), steppingLayout._nodes[i]? = some o →
        ∃ o' : Node, s'._nodes[i]? = some o' ∧ o'.fixed = o.fixed ∧
          (o.fixed.truthy = true → o'.x = o'.px ∧ o'.y = o'.py) ∧
          (o.fixed.truthy = false →
            o'.x = d'.x.1.getD i .undefined ∧ o'.y = d'.x.2.getD i .undefined) ∧
          (o.fixed.truthy = true →
            [o'.px, o'.py] = lockPosition o ∧ [o'.x, o'.y] = lockPosition o) ∧
          (o.fixed.truthy = false → o'.px = o.px ∧ o'.py = o.py) ∧
          o'.index = o.index ∧ o'.parent = o.parent) ∧
      s'.events =
        steppingLayout.events ++ [{ type := .tick, alpha := s'._alpha, stress := some s1 }] ∧
      s'._alpha = steppingLayout.tickAlpha s1 ∧ s'._lastStress = some s1 ∧
      s'._running = steppingLayout._running ∧ s'.kicks = steppingLayout.kicks :=
  ⟨steppingLayout_state.1, steppingLayout_state.2.1, steppingLayout_state.2.2,
   tick_step idleStep steppingLayout steppingDescent [] steppingLayout_state.1
     steppingLayout_state.2.1 steppingLayout_state.2.2⟩

/-- C3: in a `tick()` not below the threshold that takes its Runge-Kutta step
(the links are a list and there is a descent engine), the descent engine
handed to the step has the coordinates it had, and holds a lock for index `i`
exactly when node `i` is marked fixed, at `[px, py]`, where `px`, `py` were
first defaulted to `x`, `y` if one of them was `undefined`; whatever locks
the engine held before are gone. -/
theorem tick_rebuilds_locks (rungeKutta : Descent → Num × Descent) (s : adaptor) (d : Descent)
    (ls : List Link) (h : belowThreshold s._alpha s._threshold = false)
    (hl : s._links = .val ls) (hd : s._descent = some d) :
    (∃ s' : adaptor, s.tick rungeKutta = .ok (s', .undefined) ∧
      s'._descent = some (rungeKutta (s.tickDescent d)).2 ∧
      s'._lastStress = some (rungeKutta (s.tickDescent d)).1) ∧
    (s.tickDescent d).x = d.x ∧
    ∀ (i : Nat) (p : List Val),
      (s.tickDescent d).locks.get i = some p ↔
        ∃ o : Node, s._nodes[i]? = some o ∧ o.fixed.truthy = true ∧ p = lockPosition o := by
  refine ⟨⟨_, adaptor.tick_of_step rungeKutta s d ls h hl hd, rfl, rfl⟩, rfl, ?_⟩
  intro i p
  simp only [adaptor.tickDescent, adaptor.tickLocks_get, Nat.zero_le, if_true, Nat.sub_zero,
    Locks.get_clear]
  cases ho : s._nodes[i]? with
  | none => simp
  | some o =>
    by_cases hf : o.fixed.truthy = true
    · simp only [hf, if_true, Option.some.injEq]
      constructor
      · intro hp; exact ⟨o, rfl, hf, hp.symm⟩
      · rintro ⟨o', ho', -, hp⟩
        cases ho'
        exact hp.symm
    · simp only [hf, if_false, Bool.false_eq_true]
      constructor
      · intro hp; cases hp
      · rintro ⟨o', ho', hf', -⟩
        cases ho'
        exact absurd hf' hf

/-- C3 at a concrete input: the layout `steppingLayout`, whose engine held a
lock for the free node. -/
theorem tick_rebuilds_locks_witness :
    belowThreshold steppingLayout._alpha steppingLayout._threshold = false ∧
    steppingLayout._links = .val [] ∧
    steppingLayout._descent = some steppingDescent ∧
    (∃ s' : adaptor, steppingLayout.tick idleStep = .ok (s', .undefined) ∧
      s'._descent = some (idleStep (steppingLayout.tickDescent steppingDescent)).2 ∧
      s'._lastStress = some (idleStep (steppingLayout.tickDescent steppingDescent)).1) ∧
    (steppingLayout.tickDescent steppingDescent).x = steppingDescent.x ∧
    ∀ (i : Nat) (p : List Val),
      (steppingLayout.tickDescent steppingDescent).locks.get i = some p ↔
        ∃ o : Node, steppingLayout._nodes[i]? = some o ∧ o.fixed.truthy = true ∧
          p = lockPosition o :=
  ⟨steppingLayout_state.1, steppingLayout_state.2.1, steppingLayout_state.2.2,
   tick_rebuilds_locks idleStep steppingLayout steppingDescent [] steppingLayout_state.1
     steppingLayout_state.2.1 steppingLayout_state.2.2⟩

/-! ## The node list made from the links -/

/-- The largest endpoint of links whose endpoints are natural numbers, as
the loop of `nodes()` computes it from the start value `c`. -/
theorem foldl_mathMax_nat (ls : List Link) (c : ℕ)
    (h : ∀ l ∈ ls, ∃ a b : ℕ, l.source = .index a ∧ l.target = .index b) :
    ∃ M : ℕ,
      ls.foldl (fun n l => mathMax n l.source.toNumber l.target.toNumber) (some (c : ℚ)) =
        some (M : ℚ) ∧
      c ≤ M ∧
      (∀ l ∈ ls, ∀ a b : ℕ, l.source = .index a → l.target = .index b → a ≤ M ∧ b ≤ M) ∧
      (M = c ∨ ∃ l ∈ ls, l.source = .index M ∨ l.target = .index M) := by
  induction ls generalizing c with
  | nil => exact ⟨c, rfl, le_refl c, by simp, Or.inl rfl⟩
  | cons l rest ih =>
    obtain ⟨a, b, ha, hb⟩ := h l (List.mem_cons_self l rest)
    have hstep : mathMax (some (c : ℚ)) l.source.toNumber l.target.toNumber =
        some ((max c (max a b) : ℕ) : ℚ) := by
      simp [mathMax, ha, hb, Endpoint.toNumber, Nat.cast_max]
    obtain ⟨M, hM, hc, hall, hatt⟩ :=
      ih (max c (max a b)) (fun l' hl' => h l' (List.mem_cons_of_mem l hl'))
    refine ⟨M, ?_, ?_, ?_, ?_⟩
    · rw [List.foldl_cons, hstep, hM]
    · exact le_trans (le_max_left _ _) hc
    · intro l' hl' a' b' ha' hb'
      rcases List.mem_cons.1 hl' with rfl | hmem
      · have ea : a' = a := by
          rw [ha] at ha'
          exact_mod_cast (Endpoint.index.inj ha').symm
        have eb : b' = b := by
          rw [hb] at hb'
          exact_mod_cast (Endpoint.index.inj hb').symm
        subst ea eb
        exact ⟨le_trans (le_trans (le_max_left _ _) (le_max_right _ _)) hc,
               le_trans (le_trans (le_max_right _ _) (le_max_right _ _)) hc⟩
      · exact hall l' hmem a' b' ha' hb'
    · rcases hatt with hMc | ⟨l', hl', hl''⟩
      · rcases max_choice c (max a b) with h1 | h1
        · exact Or.inl (hMc.trans h1)
        · rcases max_choice a b with h2 | h2
          · refine Or.inr ⟨l, List.mem_cons_self l rest, Or.inl ?_⟩
            rw [ha, hMc, h1, h2]
          · refine Or.inr ⟨l, List.mem_cons_self l rest, Or.inr ?_⟩
            rw [hb, hMc, h1, h2]
      · exact Or.inr ⟨l', List.mem_cons_of_mem l hl', hl''⟩

/-- The array length `new Array(m + 1)` is accepted for a natural number `m`
with `m + 1 < 2^32`. -/
theorem newArrayLength_succ (m : ℕ) (h : m + 1 < 2 ^ 32) :
    newArrayLength ((some (m : ℚ)).map (fun q => q + 1)) = .ok (m + 1) := by
  have e : ((m : ℚ) + 1) = ((m + 1 : ℕ) : ℚ) := by push_cast; ring
  simp only [Option.map_some', newArrayLength, e, Rat.den_natCast, Rat.num_natCast]
  have h' : ((m + 1 : ℕ) : ℤ) < 2 ^ 32 := by exact_mod_cast h
  simp [h']
  omega

/-- C11: if no nodes have been set and the links, at least one, have natural
numbers below `2^32 - 1` (array indices) as endpoints, `nodes()` makes and
returns a list of `m + 1` empty node objects, where `m` is the largest of
the endpoints, so that every one of them is an index into the list; a later
call returns the same list and changes nothing. -/
theorem nodes_instantiated (s : adaptor) (ls : List Link) (hn : s._nodes = [])
    (hl : s._links = .val ls) (hne : ls ≠ [])
    (hidx : ∀ l ∈ ls, ∃ a b : ℕ,
      l.source = .index a ∧ l.target = .index b ∧ a + 1 < 2 ^ 32 ∧ b + 1 < 2 ^ 32) :
    ∃ (m : ℕ) (s' : adaptor),
      (∀ l ∈ ls, ∀ a b : ℕ, l.source = .index a → l.target = .index b → a ≤ m ∧ b ≤ m) ∧
      (∃ l ∈ ls, l.source = .index m ∨ l.target = .index m) ∧
      s' = { s with _nodes := List.replicate (m + 1) {} } ∧
      s.nodes none = .ok (s', .value s'._nodes) ∧
      s'._nodes.length = m + 1 ∧
      (∀ v ∈ s'._nodes, v = ({} : Node)) ∧
      (∀ l ∈ ls, ∀ a b : ℕ, l.source = .index a → l.target = .index b →
        a < s'._nodes.length ∧ b < s'._nodes.length) ∧
      s'.nodes none = .ok (s', .value s'._nodes) := by
  obtain ⟨M, hM, -, hall, hatt⟩ := foldl_mathMax_nat ls 0
    (fun l h => by obtain ⟨a, b, ha, hb, -, -⟩ := hidx l h; exact ⟨a, b, ha, hb⟩)
  have hatt' : ∃ l ∈ ls, l.source = .index M ∨ l.target = .index M := by
    rcases hatt with h0 | h
    · obtain ⟨l, rest, rfl⟩ := List.exists_cons_of_ne_nil hne
      obtain ⟨a, b, ha, hb, -, -⟩ := hidx l (List.mem_cons_self l rest)
      have := (hall l (List.mem_cons_self l rest) a b ha hb).1
      have ha0 : a = M := by omega
      exact ⟨l, List.mem_cons_self l rest, Or.inl (by rw [ha, ha0])⟩
    · exact h
  have hbound : M + 1 < 2 ^ 32 := by
    obtain ⟨l, hmem, hl'⟩ := hatt'
    obtain ⟨a, b, ha, hb, ha', hb'⟩ := hidx l hmem
    rcases hl' with h | h
    · rw [ha] at h
      have : a = M := by exact_mod_cast Endpoint.index.inj h
      omega
    · rw [hb] at h
      have : b = M := by exact_mod_cast Endpoint.index.inj h
      omega
  have hpos : 0 < ls.length := List.length_pos.2 hne
  have hlen := newArrayLength_succ M hbound
  have hM' : ls.foldl (fun n l => mathMax n l.source.toNumber l.target.toNumber) (some 0) =
      some (M : ℚ) := by simpa using hM
  refine ⟨M, { s with _nodes := List.replicate (M + 1) {} }, hall, hatt', rfl, ?_, ?_, ?_, ?_, ?_⟩
  · simp only [adaptor.nodes, hn, hl, List.length_nil, if_true, hpos, hM', hlen]
  · simp
  · intro v hv
    exact List.eq_of_mem_replicate hv
  · intro l hmem a b ha hb
    have := hall l hmem a b ha hb
    simp only [List.length_replicate]
    omega
  · simp [adaptor.nodes]

/-- C11 at a concrete input: a new layout given one link from node 0 to
node 2. -/
theorem nodes_instantiated_witness :
    linkedLayout._nodes = [] ∧
    ∃ (m : ℕ) (s' : adaptor),
      (∀ l ∈ [({ source := .index 0, target := .index 2 } : Link)], ∀ a b : ℕ,
        l.source = .index a → l.target = .index b → a ≤ m ∧ b ≤ m) ∧
      (∃ l ∈ [({ source := .index 0, target := .index 2 } : Link)],
        l.source = .index m ∨ l.target = .index m) ∧
      s' = { linkedLayout with _nodes := List.replicate (m + 1) {} } ∧
      linkedLayout.nodes none = .ok (s', .value s'._nodes) ∧
      s'._nodes.length = m + 1 ∧
      (∀ v ∈ s'._nodes, v = ({} : Node)) ∧
      (∀ l ∈ [({ source := .index 0, target := .index 2 } : Link)], ∀ a b : ℕ,
        l.source = .index a → l.target = .index b →
        a < s'._nodes.length ∧ b < s'._nodes.length) ∧
      s'.nodes none = .ok (s', .value s'._nodes) :=
  ⟨rfl, nodes_instantiated linkedLayout [{ source := .index 0, target := .index 2 }] rfl rfl
    (by simp)
    (by
      intro l hl
      rw [List.mem_singleton] at hl
      subst hl
      exact ⟨0, 2, by simp, by simp, by norm_num, by norm_num⟩)⟩

/-! ## Starting the layout: the runs of the descent engine -/

/-- The entries of a list rewritten by a loop over its indices. -/
theorem mapAt_getElem? {α β : Type} (f : Nat → α → β) (l : List α) (i0 k : Nat) :
    (mapAt f l i0)[k]? = l[k]?.map (f (i0 + k)) := by
  induction l generalizing i0 k with
  | nil => simp [mapAt]
  | cons a rest ih =>
    cases k with
    | zero => simp [mapAt]
    | succ k =>
      simp only [mapAt, List.getElem?_cons_succ]
      rw [ih]
      have : i0 + 1 + k = i0 + (k + 1) := by omega
      rw [this]

/-- A loop over the indices of a list keeps its length. -/
theorem mapAt_length {α β : Type} (f : Nat → α → β) (l : List α) (i0 : Nat) :
    (mapAt f l i0).length = l.length := by
  induction l generalizing i0 with
  | nil => simp [mapAt]
  | cons a rest ih => simp [mapAt, ih]

/-- The method `nodes()` writes no property of the layout but `_nodes`. -/
theorem adaptor.nodes_none_fields (s : adaptor) (r : adaptor × Ret (List Node))
    (h : s.nodes none = .ok r) : r.1 = { s with _nodes := r.1._nodes } := by
  unfold adaptor.nodes at h
  simp only at h
  split at h
  · split at h
    · cases h
    · cases h
    · split at h
      · split at h
        · cases h
        · cases h; rfl
      · cases h; rfl
  · cases h; rfl

/-- The method `nodes()` returns the nodes a layout has, when it has some. -/
theorem adaptor.nodes_none_of_ne_nil (s : adaptor) (h : s._nodes ≠ []) :
    s.nodes none = .ok (s, .value s._nodes) := by
  have : ¬ s._nodes.length = 0 := fun e => h (List.length_eq_zero.1 e)
  simp [adaptor.nodes, this]

/-- The method `alpha(x)` writes no property of the layout but `_alpha`,
`_running` and the record of the host callbacks. -/
theorem adaptor.alpha_fields (s : adaptor) (x : ℚ) :
    (s.alpha (some x)).1 =
      { s with
        _alpha := (s.alpha (some x)).1._alpha
        _running := (s.alpha (some x)).1._running
        events := (s.alpha (some x)).1.events
        kicks := (s.alpha (some x)).1.kicks } := by
  unfold adaptor.alpha
  simp only
  split
  · split <;> rfl
  · split
    · split <;> rfl
    · rfl

/-- The method `start` returns exactly when its preparation does, and with
what its iterations and its end make of that. -/
theorem adaptor.start_eq_ok (lib : Library) (s : adaptor) (args : List ℚ) (r : Started) :
    s.start lib args = .ok r ↔
      ∃ p : Prepared, s.startPrepare lib = .ok p ∧
        r = adaptor.startFinish lib p (adaptor.startIterate lib p args) := by
  unfold adaptor.start
  cases hp : s.startPrepare lib with
  | error e => simp
  | ok p =>
    constructor
    · intro h
      exact ⟨p, rfl, by cases h; rfl⟩
    · rintro ⟨p', hp', rfl⟩
      cases hp'
      rfl

/-- The steps of a preparation of `start` that succeeds: the layout `s0` that
`nodes()` leaves, its links, the distances and weights, the matrix `D`,
what the loop over the groups leaves, and the constraints. -/
theorem adaptor.startPrepare_ok (lib : Library) (s : adaptor) (p : Prepared)
    (h : s.startPrepare lib = .ok p) :
    ∃ (s0 : adaptor) (links0 : List Link) (dg : List (List Val) × Option (List (List Val)))
      (D : List (List Val)) (gv : GroupVariables) (cur : List Val),
      s0 = { s with _nodes := s0._nodes } ∧
      s.nodes none = .ok (s0, .value s0._nodes) ∧
      s0._links = .val links0 ∧
      adaptor.startDistances lib s0 s0.placedNodes s0.variableCount
        (s0.measuredLinks lib links0) = .ok dg ∧
      adaptor.startIdealDistances s0.variableCount dg.1 = .ok D ∧
      (if s0.hasRootGroups then
          adaptor.startGroups s0._groups s0._nodes.length
            { G := dg.2, D := D
              x := s0.placedNodes.map (fun v => v.x) ++
                List.replicate (s0.variableCount - s0._nodes.length) Val.undefined
              y := s0.placedNodes.map (fun v => v.y) ++
                List.replicate (s0.variableCount - s0._nodes.length) Val.undefined }
        else .ok
            { G := dg.2, D := D
              x := s0.placedNodes.map (fun v => v.x) ++
                List.replicate (s0.variableCount - s0._nodes.length) Val.undefined
              y := s0.placedNodes.map (fun v => v.y) ++
                List.replicate (s0.variableCount - s0._nodes.length) Val.undefined }) = .ok gv ∧
      adaptor.startConstraints lib s0 s0.placedNodes (s0.measuredLinks lib links0) = .ok cur ∧
      p = { layout :=
              { s0 with
                _nodes := s0.placedNodes
                _links := .val (s0.measuredLinks lib links0)
                _rootGroup :=
                  if s0.hasRootGroups then s0._rootGroup
                  else some { leaves := some (List.range s0._nodes.length), groups := some [] } }
            links := s0.measuredLinks lib links0
            x := gv.x
            y := gv.y
            D := gv.D
            G := gv.G
            ao := s0._avoidOverlaps
            curConstraints := cur } := by
  unfold adaptor.startPrepare at h
  cases hn : s.nodes none with
  | error e => simp [hn] at h
  | ok r =>
    have hf := adaptor.nodes_none_fields s r hn
    have hr : s.nodes none = .ok (r.1, .value r.1._nodes) := by
      rw [hn]
      unfold adaptor.nodes at hn
      simp only at hn
      split at hn
      · split at hn
        · cases hn
        · cases hn
        · split at hn
          · split at hn
            · cases hn
            · cases hn; rfl
          · cases hn; rfl
      · cases hn; rfl
    simp only [hn] at h
    cases hl : r.1._links with
    | undefined => simp [hl] at h
    | null => simp [hl] at h
    | val links0 =>
      simp only [hl] at h
      cases hd : adaptor.startDistances lib r.1 r.1.placedNodes r.1.variableCount
          (r.1.measuredLinks lib links0) with
      | error e => simp [hd] at h
      | ok dg =>
        simp only [hd] at h
        cases hD : adaptor.startIdealDistances r.1.variableCount dg.1 with
        | error e => simp [hD] at h
        | ok D =>
          simp only [hD] at h
          split at h
          · cases h
          · rename_i gv hgv
            cases hc : adaptor.startConstraints lib r.1 r.1.placedNodes
                (r.1.measuredLinks lib links0) with
            | error e => simp [hc] at h
            | ok cur =>
              simp only [hc] at h
              cases h
              exact ⟨r.1, links0, dg, D, gv, cur, hf, hn.symm.trans hr, hl, hd, hD, hgv, hc, rfl⟩

/-- The preparation of `start` keeps the settings of the layout. -/
theorem adaptor.startPrepare_settings (lib : Library) (s : adaptor) (p : Prepared)
    (h : s.startPrepare lib = .ok p) :
    p.ao = s._avoidOverlaps ∧ p.layout._avoidOverlaps = s._avoidOverlaps ∧
    p.layout._distanceMatrix = s._distanceMatrix ∧
    p.layout._handleDisconnected = s._handleDisconnected ∧
    p.layout._groups = s._groups ∧ p.layout._canvasSize = s._canvasSize ∧
    p.layout._defaultNodeSize = s._defaultNodeSize ∧ p.layout._threshold = s._threshold ∧
    p.layout._lastStress = s._lastStress := by
  obtain ⟨s0, links0, dg, D, gv, cur, hf, -, -, -, -, -, -, rfl⟩ :=
    adaptor.startPrepare_ok lib s p h
  rw [hf]
  exact ⟨rfl, rfl, rfl, rfl, rfl, rfl, rfl, rfl, rfl⟩

/-- An argument left out of a call of `start` reads as 0. -/
theorem argument_default (args : List ℚ) (k : Nat) :
    (if k < args.length then args.getD k 0 else 0) = args.getD k 0 := by
  by_cases h : k < args.length
  · simp [h]
  · simp only [h, if_false]
    exact (List.getD_eq_default _ _ (not_lt.1 h)).symm

/-- C13, the code on a call with a fourth argument: `start(u, c, a, g)` does
what `start(u, c, a)` does, whatever `g` is, and when it returns it has run
the descent engine three times, with no run for the grid snap. -/
theorem start_ignores_fourth_argument (lib : Library) (s : adaptor) (u c a g : ℚ) :
    s.start lib [u, c, a, g] = s.start lib [u, c, a] ∧
    (∀ r : Started, s.start lib [u, c, a, g] = .ok r →
      r.runs.map Prod.snd = [u, c, a]) := by
  constructor
  · unfold adaptor.start
    cases s.startPrepare lib with
    | error e => rfl
    | ok p => simp [adaptor.startIterate]
  · intro r h
    obtain ⟨p, -, rfl⟩ := (adaptor.start_eq_ok lib s [u, c, a, g] r).1 h
    simp [adaptor.startFinish, adaptor.startIterate]

/-! ## Starting the layout: the ideal distances -/

/-- An assignment to a matrix entry leaves the other entries. -/
theorem matrixEntry_matrixSet_ne (M : List (List Val)) (i j a b : Nat) (v : Val)
    (h : ¬ (a = i ∧ b = j)) : matrixEntry (matrixSet M i j v) a b = matrixEntry M a b := by
  simp only [matrixEntry, matrixSet, List.getD_eq_getElem?_getD, List.getElem?_modify]
  cases hM : M[a]? with
  | none => simp
  | some row =>
    by_cases hi : i = a
    · subst hi
      have hb : ¬ j = b := fun e => h ⟨rfl, e.symm⟩
      simp [List.getElem?_set, hb]
    · simp [hi]

/-- The entries of a square matrix made from a function. -/
theorem matrixEntry_createSquareMatrix (N : Nat) (f : Nat → Nat → Val) (a b : Nat)
    (ha : a < N) (hb : b < N) : matrixEntry (createSquareMatrix N f) a b = f a b := by
  simp [matrixEntry, createSquareMatrix, List.getD_eq_getElem?_getD, List.getElem?_range, ha, hb]

/-- The loop over the groups writes `D` only between the two variables of a
group. -/
theorem adaptor.startGroups_D (gs : List Group) (i : Nat) (V V' : GroupVariables)
    (h : adaptor.startGroups gs i V = .ok V') (a b : Nat)
    (hab : ¬ groupPair i gs.length a b) : matrixEntry V'.D a b = matrixEntry V.D a b := by
  induction gs generalizing i V with
  | nil =>
    simp only [adaptor.startGroups] at h
    cases h
    rfl
  | cons g rest ih =>
    simp only [adaptor.startGroups] at h
    cases hG : V.G with
    | none => simp [hG] at h
    | some G =>
      simp only [hG] at h
      have hrest : ¬ groupPair (i + 2) rest.length a b := by
        rintro ⟨k, hk, hk'⟩
        exact hab ⟨k + 1, by simp only [List.length_cons]; omega, by omega⟩
      have h0 : ¬ (a = i ∧ b = i + 1) := fun e =>
        hab ⟨0, by simp, Or.inl (by omega)⟩
      have h1 : ¬ (a = i + 1 ∧ b = i) := fun e =>
        hab ⟨0, by simp, Or.inr (by omega)⟩
      rw [ih (i + 2) _ h hrest]
      simp only
      rw [matrixEntry_matrixSet_ne _ _ _ _ _ _ h0, matrixEntry_matrixSet_ne _ _ _ _ _ _ h1]

/-- The loop over the groups raises an error on the first group when the
weights are `null`: it returns only if there is no group. -/
theorem adaptor.startGroups_of_null (gs : List Group) (i : Nat) (V V' : GroupVariables)
    (hG : V.G = none) (h : adaptor.startGroups gs i V = .ok V') : gs = [] ∧ V' = V := by
  cases gs with
  | nil =>
    simp only [adaptor.startGroups] at h
    cases h
    exact ⟨rfl, rfl⟩
  | cons g rest => simp [adaptor.startGroups, hG] at h

/-- The descent engine of every run of `start` has the matrix `D` of the
preparation. -/
theorem adaptor.startIterate_D (lib : Library) (p : Prepared) (args : List ℚ) :
    ∀ c ∈ (adaptor.startIterate lib p args).runs, c.1.D = p.D := by
  intro c hc
  simp only [adaptor.startIterate, List.mem_cons, List.mem_singleton, List.mem_nil_iff,
    or_false] at hc
  rcases hc with rfl | rfl | rfl
  · rfl
  · by_cases h : 0 < p.curConstraints.length <;> simp [h]
  · by_cases h : 0 < p.curConstraints.length <;> by_cases ht : p.ao.truthy = true <;>
      simp [h, ht]

/-- The layout `groupedLayout` is what `groups([{}])` makes of a new layout. -/
theorem groupedLayout_eq : adaptor.new.groups (some [{}]) = .ok (groupedLayout, .self) := rfl

/-- The distances `start` works from when the user supplied them. -/
theorem adaptor.startDistances_of_matrix (lib : Library) (s : adaptor) (nodes : List Node)
    (N : Nat) (links : List Link) (M : List (List ℚ)) (h : s._distanceMatrix = .val M) :
    adaptor.startDistances lib s nodes N links =
      .ok (M.map (fun row => row.map Val.num), none) := by
  simp [adaptor.startDistances, h]

/-- The distances `start` works from when the user supplied none. -/
theorem adaptor.startDistances_of_none (lib : Library) (s : adaptor) (nodes : List Node)
    (N : Nat) (links : List Link) (dg : List (List Val) × Option (List (List Val)))
    (h : s._distanceMatrix.truthy = false)
    (hd : adaptor.startDistances lib s nodes N links = .ok dg) :
    lib.DistanceMatrix N links (adaptor.getSourceIndex nodes) (adaptor.getTargetIndex nodes)
      (adaptor.getLinkLength lib.linkDistance s) = .ok dg.1 ∧ dg.2.isSome = true := by
  unfold adaptor.startDistances at hd
  cases hM : s._distanceMatrix with
  | val M => simp [hM, Nullable.truthy] at h
  | undefined =>
    simp only [hM] at hd
    split at hd
    · cases hd
    · split at hd
      · cases hd
      · cases hd
        rename_i e1 _ _ _
        exact ⟨e1, rfl⟩
  | null =>
    simp only [hM] at hd
    split at hd
    · cases hd
    · split at hd
      · cases hd
      · cases hd
        rename_i e1 _ _ _
        exact ⟨e1, rfl⟩

/-- C14, as stated, fails: on a layout with one group and neither nodes nor
links, the shortest-path matrix of the two group variables has an infinite
distance between them, and the matrix `D` of every run of the descent engine
has 0.1 there. -/
theorem start_group_distance_differs :
    ∃ r : Started, groupedLayout.start sampleLibrary [] = .ok r ∧
      r.runs.map (fun c => matrixEntry c.1.D 0 1) =
        [.num (1 / 10), .num (1 / 10), .num (1 / 10)] ∧
      sampleLibrary.DistanceMatrix 2 [] (adaptor.getSourceIndex []) (adaptor.getTargetIndex [])
        (adaptor.getLinkLength sampleLibrary.linkDistance groupedLayout) =
          .ok (isolatedDistances 2) ∧
      matrixEntry (isolatedDistances 2) 0 1 = .posInf ∧
      Val.num (1 / 10) ≠ Val.posInf := by
  exact ⟨_, rfl, rfl, rfl, rfl, fun h => Val.noConfusion h⟩

/-- The matrix `D` of `start` for distances with a row for every variable. -/
theorem adaptor.startIdealDistances_ok (N : Nat) (distances D : List (List Val))
    (h : adaptor.startIdealDistances N distances = .ok D) :
    D = createSquareMatrix N (fun i j => matrixEntry distances i j) := by
  unfold adaptor.startIdealDistances at h
  split at h
  · cases h
  · cases h; rfl

/-- C14, amended: the matrix `D` of every run of the descent engine is the
one `start` prepared.  When the user supplied a distance matrix, `D` is that
matrix entry for entry and the shortest-path calculator is not called (the
preparation is the same whatever the calculator is).  Otherwise the calculator
is called on the `N` variables and the links, with `getLinkLength` for the
lengths, and returns; every entry of `D` is the entry of its matrix, except
the entries between the two variables of a group when the loop over the
groups runs.  In both cases `getLinkLength` is the constant `linkDistance`,
or `linkDistance(link)` for a function. -/
theorem start_ideal_distances (lib : Library) (s : adaptor) (p : Prepared)
    (hp : s.startPrepare lib = .ok p) :
    (∀ (args : List ℚ) (r : Started), s.start lib args = .ok r → ∀ c ∈ r.runs, c.1.D = p.D) ∧
    (∀ M : List (List ℚ), s._distanceMatrix = .val M →
      (∀ a b : Nat, a < p.layout.variableCount → b < p.layout.variableCount →
        matrixEntry p.D a b = matrixEntry (M.map (fun row => row.map Val.num)) a b) ∧
      (∀ f, s.startPrepare { lib with DistanceMatrix := f } = .ok p)) ∧
    (s._distanceMatrix.truthy = false →
      ∃ Mc : List (List Val),
        lib.DistanceMatrix p.layout.variableCount p.links
          (adaptor.getSourceIndex p.layout._nodes) (adaptor.getTargetIndex p.layout._nodes)
          (adaptor.getLinkLength lib.linkDistance s) = .ok Mc ∧
        ∀ a b : Nat, a < p.layout.variableCount → b < p.layout.variableCount →
          ¬ (s.hasRootGroups = true ∧ groupPair p.layout._nodes.length s._groups.length a b) →
          matrixEntry p.D a b = matrixEntry Mc a b) ∧
    (∀ link : Link,
      adaptor.getLinkLength lib.linkDistance s link =
        match s._linkDistance with
        | .val q => .num q
        | .fn f => lib.linkDistance f link) := by
  obtain ⟨s0, links0, dg, D, gv, cur, hf, hnodes, hl, hd, hD, hgv, hc, rfl⟩ :=
    adaptor.startPrepare_ok lib s p hp
  have hN : s0.placedNodes.length = s0._nodes.length := mapAt_length _ _ _
  have hm : s0._distanceMatrix = s._distanceMatrix := by rw [hf]
  have hg : s0._groups = s._groups := by rw [hf]
  have hrg : s0.hasRootGroups = s.hasRootGroups := by rw [hf]; rfl
  have hll : adaptor.getLinkLength lib.linkDistance s0 = adaptor.getLinkLength lib.linkDistance s := by
    rw [hf]; rfl
  have hDeq := adaptor.startIdealDistances_ok _ _ _ hD
  have hvc : ∀ x : Nat, x < (adaptor.variableCount
      { s0 with
        _nodes := s0.placedNodes
        _links := .val (s0.measuredLinks lib links0)
        _rootGroup :=
          if s0.hasRootGroups then s0._rootGroup
          else some { leaves := some (List.range s0._nodes.length), groups := some [] } }) →
      x < s0.variableCount := by
    intro x hx
    simp only [adaptor.variableCount, hN] at hx ⊢
    exact hx
  refine ⟨?_, ?_, ?_, ?_⟩
  · intro args r hr c hc'
    obtain ⟨p', hp', rfl⟩ := (adaptor.start_eq_ok lib s args r).1 hr
    rw [hp] at hp'
    cases hp'
    exact adaptor.startIterate_D lib _ args c hc'
  · intro M hM
    have hM0 : s0._distanceMatrix = .val M := hm.trans hM
    have hdg : dg = (M.map (fun row => row.map Val.num), none) := by
      rw [adaptor.startDistances_of_matrix lib s0 _ _ _ M hM0] at hd
      cases hd; rfl
    have hgvD : gv.D = D := by
      split at hgv
      · rw [(adaptor.startGroups_of_null _ _ _ _ (by rw [hdg]) hgv).2]
      · cases hgv; rfl
    constructor
    · intro a b ha hb
      simp only [hgvD, hDeq]
      rw [matrixEntry_createSquareMatrix _ _ _ _ (hvc a ha) (hvc b hb), hdg]
    · intro f
      have hd' : adaptor.startDistances { lib with DistanceMatrix := f } s0 s0.placedNodes
          s0.variableCount (s0.measuredLinks lib links0) = .ok dg := by
        rw [adaptor.startDistances_of_matrix _ s0 _ _ _ M hM0, hdg]
      have hc' : adaptor.startConstraints { lib with DistanceMatrix := f } s0 s0.placedNodes
          (s0.measuredLinks lib links0) = .ok cur := hc
      have hml : adaptor.measuredLinks { lib with DistanceMatrix := f } s0 links0 =
          s0.measuredLinks lib links0 := rfl
      unfold adaptor.startPrepare
      simp only [hnodes, hl, hml, hd', hD, hgv, hc']
  · intro hnone
    have hnone0 : s0._distanceMatrix.truthy = false := by rw [hm]; exact hnone
    obtain ⟨hcalc, -⟩ := adaptor.startDistances_of_none lib s0 _ _ _ dg hnone0 hd
    refine ⟨dg.1, ?_, ?_⟩
    · rw [← hll]
      simp only [adaptor.variableCount, hN]
      exact hcalc
    · intro a b ha hb hpair
      have hgvD : matrixEntry gv.D a b = matrixEntry D a b := by
        split at hgv
        · rename_i hcond
          refine adaptor.startGroups_D _ _ _ _ hgv a b ?_
          intro hgp
          apply hpair
          refine ⟨hrg ▸ hcond, ?_⟩
          simp only [hN]
          rw [← hg]
          exact hgp
        · cases hgv; rfl
      simp only [hgvD, hDeq]
      rw [matrixEntry_createSquareMatrix _ _ _ _ (hvc a ha) (hvc b hb)]
  · intro link
    unfold adaptor.getLinkLength
    cases s._linkDistance <;> rfl

/-- C14, amended, at a concrete input: a layout of two nodes started with the
sample library. -/
theorem start_ideal_distances_witness :
    ∃ p : Prepared, twoNodeLayout.startPrepare sampleLibrary = .ok p ∧
    (∀ (args : List ℚ) (r : Started),
      twoNodeLayout.start sampleLibrary args = .ok r → ∀ c ∈ r.runs, c.1.D = p.D) ∧
    (twoNodeLayout._distanceMatrix.truthy = false →
      ∃ Mc : List (List Val),
        sampleLibrary.DistanceMatrix p.layout.variableCount p.links
          (adaptor.getSourceIndex p.layout._nodes) (adaptor.getTargetIndex p.layout._nodes)
          (adaptor.getLinkLength sampleLibrary.linkDistance twoNodeLayout) = .ok Mc ∧
        ∀ a b : Nat, a < p.layout.variableCount → b < p.layout.variableCount →
          ¬ (twoNodeLayout.hasRootGroups = true ∧
              groupPair p.layout._nodes.length twoNodeLayout._groups.length a b) →
          matrixEntry p.D a b = matrixEntry Mc a b) := by
  have h : ∃ p, twoNodeLayout.startPrepare sampleLibrary = .ok p := ⟨_, rfl⟩
  obtain ⟨p, hp⟩ := h
  have := start_ideal_distances sampleLibrary twoNodeLayout p hp
  exact ⟨p, hp, this.1, this.2.2.1⟩

/-! ## Starting the layout: packing the components -/

/-- The method `resume()` writes no property of the layout but `_alpha`,
`_running` and the record of the host callbacks. -/
theorem adaptor.resume_fields (s : adaptor) :
    s.resume.1._nodes = s._nodes ∧ s.resume.1._links = s._links ∧
    s.resume.1._descent = s._descent ∧ s.resume.1._lastStress = s._lastStress ∧
    s.resume.1._threshold = s._threshold ∧ s.resume.1._avoidOverlaps = s._avoidOverlaps ∧
    s.resume.1._constraints = s._constraints := by
  unfold adaptor.resume
  rw [adaptor.alpha_fields]
  exact ⟨rfl, rfl, rfl, rfl, rfl, rfl, rfl⟩

/-- The coordinates of the nodes, once written to the rows of the descent
engine. -/
theorem writeCoordinates_getElem? (nodes : List Node) (x : List Val × List Val) (i : Nat)
    (v : Node) (h : nodes[i]? = some v) :
    (writeCoordinates nodes x).1[i]? = some v.x ∧ (writeCoordinates nodes x).2[i]? = some v.y := by
  have hi : i < nodes.length := by
    rcases Nat.lt_or_ge i nodes.length with h' | h'
    · exact h'
    · rw [List.getElem?_eq_none h'] at h
      cases h
  have hv : nodes[i] = v := by
    rw [List.getElem?_eq_getElem hi] at h
    exact Option.some.inj h
  simp [writeCoordinates, List.getElem?_append_left, hi, hv]

/-- C15: a `start()` that returns has packed the components exactly when no
distance matrix was supplied and `handleDisconnected` is on.  In that case
every node has the position the packing gave it, and the coordinates of the
descent engine for that node are that position.  In the other case the nodes
and the descent engine are as the iterations left them, and `start` does the
same whatever the packing would do. -/
theorem start_packing (lib : Library) (s : adaptor) (args : List ℚ) (r : Started)
    (h : s.start lib args = .ok r) :
    ∃ p : Prepared, s.startPrepare lib = .ok p ∧
      (s._distanceMatrix.truthy = false ∧ s._handleDisconnected.truthy = true →
        r.layout._nodes.length = (adaptor.startIterate lib p args).nodes.length ∧
        ∀ (i : Nat) (v : Node), (adaptor.startIterate lib p args).nodes[i]? = some v →
          ∃ (v' : Node) (d : Descent),
            r.layout._nodes[i]? = some v' ∧ r.layout._descent = some d ∧
            (v'.x, v'.y) =
              lib.applyPacking (adaptor.startIterate lib p args).nodes
                (adaptor.startIterate lib p args).links s._canvasSize[0]? s._canvasSize[1]?
                s._defaultNodeSize i ∧
            d.x.1[i]? = some v'.x ∧ d.x.2[i]? = some v'.y) ∧
      (¬ (s._distanceMatrix.truthy = false ∧ s._handleDisconnected.truthy = true) →
        r.layout._nodes = (adaptor.startIterate lib p args).nodes ∧
        r.layout._descent = some (adaptor.startIterate lib p args).descent ∧
        ∀ f, s.start { lib with applyPacking := f } args = .ok r) := by
  obtain ⟨p, hp, rfl⟩ := (adaptor.start_eq_ok lib s args r).1 h
  obtain ⟨-, -, hdm, hhd, -, hcs, hns, -, -⟩ := adaptor.startPrepare_settings lib s p hp
  refine ⟨p, hp, ?_, ?_⟩
  · rintro ⟨h1, h2⟩
    have hpacks : (!p.layout._distanceMatrix.truthy && p.layout._handleDisconnected.truthy) =
        true := by
      rw [hdm, hhd, h1, h2]; rfl
    simp only [adaptor.startFinish, hpacks, if_true]
    obtain ⟨hn, -, hd, -⟩ := adaptor.resume_fields
      { p.layout with
        _avoidOverlaps := (adaptor.startIterate lib p args).ao
        _nodes := mapAt (fun i v =>
          { v with
            x := (lib.applyPacking (adaptor.startIterate lib p args).nodes
                    (adaptor.startIterate lib p args).links p.layout._canvasSize[0]?
                    p.layout._canvasSize[1]? p.layout._defaultNodeSize i).1
            y := (lib.applyPacking (adaptor.startIterate lib p args).nodes
                    (adaptor.startIterate lib p args).links p.layout._canvasSize[0]?
                    p.layout._canvasSize[1]? p.layout._defaultNodeSize i).2 })
          (adaptor.startIterate lib p args).nodes 0
        _links := .val (adaptor.startIterate lib p args).links
        _descent := some
          { (adaptor.startIterate lib p args).descent with
            x := writeCoordinates
              (mapAt (fun i v =>
                { v with
                  x := (lib.applyPacking (adaptor.startIterate lib p args).nodes
                          (adaptor.startIterate lib p args).links p.layout._canvasSize[0]?
                          p.layout._canvasSize[1]? p.layout._defaultNodeSize i).1
                  y := (lib.applyPacking (adaptor.startIterate lib p args).nodes
                          (adaptor.startIterate lib p args).links p.layout._canvasSize[0]?
                          p.layout._canvasSize[1]? p.layout._defaultNodeSize i).2 })
                (adaptor.startIterate lib p args).nodes 0)
              (adaptor.startIterate lib p args).descent.x } }
    rw [hn, hd]
    simp only
    refine ⟨mapAt_length _ _ _, ?_⟩
    intro i v hv
    have hget := mapAt_getElem? (fun i v =>
        ({ v with
          x := (lib.applyPacking (adaptor.startIterate lib p args).nodes
                  (adaptor.startIterate lib p args).links p.layout._canvasSize[0]?
                  p.layout._canvasSize[1]? p.layout._defaultNodeSize i).1
          y := (lib.applyPacking (adaptor.startIterate lib p args).nodes
                  (adaptor.startIterate lib p args).links p.layout._canvasSize[0]?
                  p.layout._canvasSize[1]? p.layout._defaultNodeSize i).2 } : Node))
      (adaptor.startIterate lib p args).nodes 0 i
    rw [hv, Option.map_some', Nat.zero_add] at hget
    refine ⟨_, _, hget, rfl, ?_, ?_⟩
    · rw [hcs, hns]
    · exact writeCoordinates_getElem? _ _ i _ hget
  · intro hno
    have hpacks : (!p.layout._distanceMatrix.truthy && p.layout._handleDisconnected.truthy) =
        false := by
      rw [hdm, hhd]
      cases h1 : s._distanceMatrix.truthy <;> cases h2 : s._handleDisconnected.truthy <;>
        simp_all
    have hfin : ∀ lib' : Library, adaptor.startFinish lib' p (adaptor.startIterate lib p args) =
        { layout :=
            (adaptor.resume
              { p.layout with
                _avoidOverlaps := (adaptor.startIterate lib p args).ao
                _nodes := (adaptor.startIterate lib p args).nodes
                _links := .val (adaptor.startIterate lib p args).links
                _descent := some (adaptor.startIterate lib p args).descent }).1
          runs := (adaptor.startIterate lib p args).runs
          overlaps := (adaptor.startIterate lib p args).overlaps } := by
      intro lib'
      simp only [adaptor.startFinish, hpacks, Bool.false_eq_true, if_false]
    rw [hfin lib]
    obtain ⟨hn, -, hd, -⟩ := adaptor.resume_fields
      { p.layout with
        _avoidOverlaps := (adaptor.startIterate lib p args).ao
        _nodes := (adaptor.startIterate lib p args).nodes
        _links := .val (adaptor.startIterate lib p args).links
        _descent := some (adaptor.startIterate lib p args).descent }
    refine ⟨hn, hd, ?_⟩
    intro f
    have hp' : adaptor.startPrepare { lib with applyPacking := f } s = .ok p := hp
    have hit : adaptor.startIterate { lib with applyPacking := f } p args =
        adaptor.startIterate lib p args := rfl
    unfold adaptor.start
    rw [hp']
    simp only
    rw [hit, hfin]

/-- C15 at a concrete input: `start()` on a layout of two nodes, with no
distance matrix and `handleDisconnected` on. -/
theorem start_packing_witness :
    ∃ (r : Started) (p : Prepared),
      twoNodeLayout.start sampleLibrary [] = .ok r ∧
      twoNodeLayout.startPrepare sampleLibrary = .ok p ∧
      (twoNodeLayout._distanceMatrix.truthy = false ∧
          twoNodeLayout._handleDisconnected.truthy = true →
        r.layout._nodes.length = (adaptor.startIterate sampleLibrary p []).nodes.length ∧
        ∀ (i : Nat) (v : Node), (adaptor.startIterate sampleLibrary p []).nodes[i]? = some v →
          ∃ (v' : Node) (d : Descent),
            r.layout._nodes[i]? = some v' ∧ r.layout._descent = some d ∧
            (v'.x, v'.y) =
              sampleLibrary.applyPacking (adaptor.startIterate sampleLibrary p []).nodes
                (adaptor.startIterate sampleLibrary p []).links twoNodeLayout._canvasSize[0]?
                twoNodeLayout._canvasSize[1]? twoNodeLayout._defaultNodeSize i ∧
            d.x.1[i]? = some v'.x ∧ d.x.2[i]? = some v'.y) := by
  have h : ∃ r, twoNodeLayout.start sampleLibrary [] = .ok r := ⟨_, rfl⟩
  obtain ⟨r, hr⟩ := h
  obtain ⟨p, hp, h1, -⟩ := start_packing sampleLibrary twoNodeLayout [] r hr
  exact ⟨r, p, hr, hp, h1⟩

/-! ## Starting the layout: the starting positions -/

/-- The first loop of `start` on one node: a node without `x` is put at the
midpoint, whatever its `y`; a node with an `x` keeps `x` and `y`. -/
theorem adaptor.startNode_coordinates (mx my : Val) (i : Nat) (v : Node) :
    (v.x.isUndefined = true →
      (adaptor.startNode mx my i v).x = mx ∧ (adaptor.startNode mx my i v).y = my) ∧
    (v.x.isUndefined = false →
      (adaptor.startNode mx my i v).x = v.x ∧ (adaptor.startNode mx my i v).y = v.y) ∧
    (adaptor.startNode mx my i v).index = .num i := by
  unfold adaptor.startNode
  cases h : v.x.isUndefined <;> simp

/-- The loop over the groups keeps the coordinates of the variables before
the first group variable. -/
theorem adaptor.startGroups_coordinates (gs : List Group) (i : Nat) (V V' : GroupVariables)
    (h : adaptor.startGroups gs i V = .ok V') (j : Nat) (hj : j < i) :
    V'.x[j]? = V.x[j]? ∧ V'.y[j]? = V.y[j]? := by
  induction gs generalizing i V with
  | nil =>
    simp only [adaptor.startGroups] at h
    cases h
    exact ⟨rfl, rfl⟩
  | cons g rest ih =>
    simp only [adaptor.startGroups] at h
    cases hG : V.G with
    | none => simp [hG] at h
    | some G =>
      simp only [hG] at h
      obtain ⟨hx, hy⟩ := ih (i + 2) _ h (by omega)
      rw [hx, hy]
      have h1 : ¬ i = j := by omega
      have h2 : ¬ i + 1 = j := by omega
      simp [List.getElem?_set, h1, h2]

/-- The starting coordinates that `start` gives to the descent engine for the
nodes are the positions of the nodes after its first loop. -/
theorem adaptor.startPrepare_coordinates (lib : Library) (s : adaptor) (p : Prepared)
    (hp : s.startPrepare lib = .ok p) (i : Nat) (v : Node) (hv : p.layout._nodes[i]? = some v) :
    p.x[i]? = some v.x ∧ p.y[i]? = some v.y := by
  obtain ⟨s0, links0, dg, D, gv, cur, hf, hnodes, hl, hd, hD, hgv, hc, rfl⟩ :=
    adaptor.startPrepare_ok lib s p hp
  simp only at hv ⊢
  have hN : s0.placedNodes.length = s0._nodes.length := mapAt_length _ _ _
  have hi : i < s0.placedNodes.length := by
    rcases Nat.lt_or_ge i s0.placedNodes.length with h' | h'
    · exact h'
    · rw [List.getElem?_eq_none h'] at hv
      cases hv
  have hx0 : (s0.placedNodes.map (fun v => v.x) ++
      List.replicate (s0.variableCount - s0._nodes.length) Val.undefined)[i]? = some v.x := by
    rw [List.getElem?_append_left (by simpa using hi)]
    simp [hv]
  have hy0 : (s0.placedNodes.map (fun v => v.y) ++
      List.replicate (s0.variableCount - s0._nodes.length) Val.undefined)[i]? = some v.y := by
    rw [List.getElem?_append_left (by simpa using hi)]
    simp [hv]
  split at hgv
  · obtain ⟨hx, hy⟩ := adaptor.startGroups_coordinates _ _ _ _ hgv i (by omega)
    rw [hx, hy]
    exact ⟨hx0, hy0⟩
  · cases hgv
    exact ⟨hx0, hy0⟩

/-- C16, the code on a node that has a `y` and no `x`: on a canvas of size
`[1, 1]`, a node `{y: 5}` is given to the descent engine at `(1/2, 1/2)`; its
`y` has been replaced by the midpoint. -/
theorem start_replaces_y_without_x :
    ∃ r : Started, yOnlyLayout.start sampleLibrary [] = .ok r ∧
      yOnlyLayout._canvasSize = [1, 1] ∧
      yOnlyLayout._nodes.map (fun v => (v.x, v.y)) = [(.undefined, .num 5)] ∧
      r.runs.head?.map (fun c => c.1.x) = some ([.num (1 / 2)], [.num (1 / 2)]) :=
  ⟨_, rfl, rfl, rfl, rfl⟩

/-! ## Starting the layout: the flow constraints -/

/-- C17: after `flowLayout(axis, m)`, which returns the layout, a `start()`
whose preparation succeeds has called `generateDirectedEdgeConstraints` with
the nodes, the links, the axis recorded and a separation accessor that gives
`m` for every link when `m` is a number and `m(link)` when `m` is a function,
and has appended what it returned to the user's constraints; `flowLayout()`
without arguments records the axis `'y'`. -/
theorem flowLayout_separation (lib : Library) (s : adaptor) (axis : Val) (m : Option (FnOr ℚ))
    (p : Prepared) (hp : (s.flowLayout (some (axis, m))).1.startPrepare lib = .ok p) :
    (s.flowLayout (some (axis, m))).2 = .self ∧
    (∃ (acc : LinkAccessor) (cs : List Val),
      lib.generateDirectedEdgeConstraints p.layout._nodes.length p.links axis acc = .ok cs ∧
      p.curConstraints = s._constraints.orEmpty ++ cs ∧
      (∀ q : ℚ, m = some (.val q) →
        ∃ g : Link → Val, acc.getMinSeparation = some g ∧ ∀ link, g link = .num q) ∧
      (∀ f : Nat, m = some (.fn f) →
        ∃ g : Link → Val, acc.getMinSeparation = some g ∧
          ∀ link, g link = lib.minSeparation f link)) ∧
    (s.flowLayout none).1._directedLinkConstraints =
      some { axis := .str "y", getMinSeparation := none } ∧
    (s.flowLayout none).2 = .self := by
  refine ⟨rfl, ?_, rfl, rfl⟩
  obtain ⟨s0, links0, dg, D, gv, cur, hf, -, -, -, -, -, hc, rfl⟩ :=
    adaptor.startPrepare_ok lib _ p hp
  have hdlc : s0._directedLinkConstraints = some { axis := axis, getMinSeparation := m } := by
    rw [hf]; rfl
  have hcon : s0._constraints = s._constraints := by rw [hf]; rfl
  unfold adaptor.startConstraints at hc
  simp only [hdlc, hcon] at hc
  split at hc
  · cases hc
  · rename_i cs hcs
    cases hc
    refine ⟨_, cs, hcs, rfl, ?_, ?_⟩
    · intro q hq
      subst hq
      exact ⟨_, rfl, fun _ => rfl⟩
    · intro f hf'
      subst hf'
      exact ⟨_, rfl, fun _ => rfl⟩

/-- C17 at a concrete input: `flowLayout('x', 20)` on a new layout. -/
theorem flowLayout_separation_witness :
    ∃ p : Prepared, flowingLayout.startPrepare sampleLibrary = .ok p ∧
      ∃ (acc : LinkAccessor) (cs : List Val),
        sampleLibrary.generateDirectedEdgeConstraints p.layout._nodes.length p.links (.str "x")
          acc = .ok cs ∧
        p.curConstraints = adaptor.new._constraints.orEmpty ++ cs ∧
        ∃ g : Link → Val, acc.getMinSeparation = some g ∧ ∀ link, g link = .num 20 := by
  have h : ∃ p, flowingLayout.startPrepare sampleLibrary = .ok p := ⟨_, rfl⟩
  obtain ⟨p, hp⟩ := h
  obtain ⟨-, ⟨acc, cs, h1, h2, h3, -⟩, -, -⟩ :=
    flowLayout_separation sampleLibrary adaptor.new (.str "x") (some (.val 20)) p hp
  exact ⟨p, hp, acc, cs, h1, h2, h3 20 rfl⟩

/-! ## Constraints are not checked -/

/-- C19, as stated, fails: on a new layout, which has no node,
`constraints(c)` with a constraint between the variables 5 and 7 raises
nothing; it returns the layout, and `constraints()` then returns `c`. -/
theorem constraints_accepts_unknown_variable :
    adaptor.new._nodes = [] ∧
    (adaptor.new.constraints (some (.val [danglingConstraint]))).2 = .self ∧
    ((adaptor.new.constraints (some (.val [danglingConstraint]))).1.constraints none).2 =
      .value (.val [danglingConstraint]) :=
  ⟨rfl, rfl, rfl⟩

/-- C19, amended: `constraints(c)` checks nothing; whatever `c` holds, it
stores `c`, changes nothing else and returns the layout. -/
theorem constraints_stores_unchecked (s : adaptor) (c : Nullable (List Val)) :
    s.constraints (some c) = ({ s with _constraints := c }, .self) :=
  rfl

/-! ## The alpha of a tick -/

/-- The layout that `start` leaves: it has a descent engine and a list of
links, its threshold and last stress are those it had, and its alpha is 0.1
if the layout was idle. -/
theorem adaptor.start_state (lib : Library) (s : adaptor) (args : List ℚ) (r : Started)
    (h : s.start lib args = .ok r) :
    (∃ d : Descent, r.layout._descent = some d) ∧
    (∃ ls : List Link, r.layout._links = .val ls) ∧
    r.layout._threshold = s._threshold ∧
    r.layout._lastStress = s._lastStress ∧
    (numTruthy s._alpha = false → s._running = false →
      r.layout._alpha = some (.num (1 / 10))) := by
  obtain ⟨p, hp, rfl⟩ := (adaptor.start_eq_ok lib s args r).1 h
  obtain ⟨-, -, -, -, -, -, -, hth, hls⟩ := adaptor.startPrepare_settings lib s p hp
  have hal : p.layout._alpha = s._alpha ∧ p.layout._running = s._running := by
    obtain ⟨s0, links0, dg, D, gv, cur, hf, -, -, -, -, -, -, rfl⟩ :=
      adaptor.startPrepare_ok lib s p hp
    rw [hf]
    exact ⟨rfl, rfl⟩
  simp only [adaptor.startFinish]
  refine ⟨⟨_, (adaptor.resume_fields _).2.2.1⟩, ⟨_, (adaptor.resume_fields _).2.1⟩, ?_, ?_, ?_⟩
  · rw [(adaptor.resume_fields _).2.2.2.2.1]
    exact hth
  · rw [(adaptor.resume_fields _).2.2.2.1]
    exact hls
  · intro ha hr
    unfold adaptor.resume
    rw [adaptor.alpha_of_cold _ _ (by simpa [hal.1] using ha)]
    have hr' : p.layout._running = false := hal.2.trans hr
    simp [hr']

/-- The alpha that a tick leaves when a stress was recorded, when none was,
and when the step returns 0. -/
theorem adaptor.tickAlpha_eq (s : adaptor) (s1 : Num) :
    (s1 = .num 0 → s.tickAlpha s1 = some (.num 0)) ∧
    (s1 ≠ .num 0 → s._lastStress ≠ none → s.tickAlpha s1 = some s1) ∧
    (s1 ≠ .num 0 → s._lastStress = none → s.tickAlpha s1 = s._alpha) := by
  unfold adaptor.tickAlpha
  refine ⟨fun h => by simp [h], fun h h' => ?_, fun h h' => by simp [h, h']⟩
  cases hs : s._lastStress with
  | none => exact absurd hs h'
  | some q => simp [h]

/-- C18, as stated, fails: on the first tick after `start()` on a new layout
of two nodes, the Runge-Kutta step returns 1 and `alpha()` is still 0.1
afterwards. -/
theorem first_tick_keeps_alpha :
    ∃ (r : Started) (s' : adaptor),
      twoNodeLayout.start sampleLibrary [] = .ok r ∧
      r.layout.tick idleStep = .ok (s', .undefined) ∧
      (∀ d : Descent, (idleStep d).1 = .num 1) ∧
      (s'.alpha none).2 = .value (some (.num (1 / 10))) ∧
      (s'.alpha none).2 ≠ .value (some (.num 1)) := by
  have h : ∃ r, twoNodeLayout.start sampleLibrary [] = .ok r := ⟨_, rfl⟩
  obtain ⟨r, hr⟩ := h
  obtain ⟨⟨d, hd⟩, ⟨ls, hl⟩, hth, hls, hal⟩ :=
    adaptor.start_state sampleLibrary twoNodeLayout [] r hr
  have ha : r.layout._alpha = some (.num (1 / 10)) := hal rfl rfl
  have hth' : r.layout._threshold = .val (1 / 100) := hth
  have hls' : r.layout._lastStress = none := hls
  have hb : belowThreshold r.layout._alpha r.layout._threshold = false := by
    rw [ha, hth']
    simp [belowThreshold]
    norm_num
  have h1 : Num.num 1 ≠ Num.num 0 := by
    intro e
    have := Num.num.inj e
    norm_num at this
  refine ⟨r, _, hr, adaptor.tick_of_step idleStep r.layout d ls hb hl hd, fun _ => rfl, ?_, ?_⟩
  · have := (adaptor.tickAlpha_eq r.layout (.num 1)).2.2 h1 hls'
    simp only [adaptor.alpha, idleStep, this, ha]
  · have := (adaptor.tickAlpha_eq r.layout (.num 1)).2.2 h1 hls'
    simp only [adaptor.alpha, idleStep, this, ha]
    intro hcon
    have h2 := Num.num.inj (Option.some.inj (Ret.value.inj hcon))
    norm_num at h2

/-- C18, amended: a `tick()` not below the threshold that takes its step
records the value the step returned as the last stress, and leaves alpha 0
when that value is 0, equal to that value when it is not 0 and an earlier
tick has recorded a stress, and unchanged when it is not 0 and no stress has
been recorded yet (the first tick of a layout). -/
theorem tick_alpha (rungeKutta : Descent → Num × Descent) (s : adaptor) (d : Descent)
    (ls : List Link) (h : belowThreshold s._alpha s._threshold = false)
    (hl : s._links = .val ls) (hd : s._descent = some d) :
    ∃ (s' : adaptor) (s1 : Num),
      s.tick rungeKutta = .ok (s', .undefined) ∧
      s1 = (rungeKutta (s.tickDescent d)).1 ∧
      s'._lastStress = some s1 ∧
      (s1 = .num 0 → (s'.alpha none).2 = .value (some (.num 0))) ∧
      (s1 ≠ .num 0 → s._lastStress ≠ none → (s'.alpha none).2 = .value (some s1)) ∧
      (s1 ≠ .num 0 → s._lastStress = none → (s'.alpha none).2 = .value s._alpha) := by
  obtain ⟨h0, h1, h2⟩ := adaptor.tickAlpha_eq s (rungeKutta (s.tickDescent d)).1
  refine ⟨_, _, adaptor.tick_of_step rungeKutta s d ls h hl hd, rfl, rfl, ?_, ?_, ?_⟩
  · intro e
    simp only [adaptor.alpha, h0 e]
  · intro e e'
    simp only [adaptor.alpha, h1 e e']
  · intro e e'
    simp only [adaptor.alpha, h2 e e']

/-- C18, amended, at a concrete input: the layout `steppingLayout`, which has
recorded no stress, and a step that returns 1. -/
theorem tick_alpha_witness :
    ∃ (s' : adaptor) (s1 : Num),
      steppingLayout.tick idleStep = .ok (s', .undefined) ∧
      s1 = (idleStep (steppingLayout.tickDescent steppingDescent)).1 ∧
      s'._lastStress = some s1 ∧
      (s1 = .num 0 → (s'.alpha none).2 = .value (some (.num 0))) ∧
      (s1 ≠ .num 0 → steppingLayout._lastStress ≠ none →
        (s'.alpha none).2 = .value (some s1)) ∧
      (s1 ≠ .num 0 → steppingLayout._lastStress = none →
        (s'.alpha none).2 = .value steppingLayout._alpha) :=
  tick_alpha idleStep steppingLayout steppingDescent [] steppingLayout_state.1
    steppingLayout_state.2.1 steppingLayout_state.2.2

/-! ## Link endpoints after `start` -/

/-- A loop over the nodes that does not write `index` keeps the nodes
indexed. -/
theorem Indexed.mapAt (f : Nat → Node → Node) (hf : ∀ i v, (f i v).index = v.index)
    (ns : List Node) (h : Indexed ns) : Indexed (mapAt f ns 0) := by
  intro i v hv
  rw [mapAt_getElem?] at hv
  cases hn : ns[i]? with
  | none => simp [hn] at hv
  | some v0 =>
    simp only [hn, Option.map_some', Nat.zero_add, Option.some.injEq] at hv
    rw [← hv, hf]
    exact h i v0 hn

/-- A change of every node that does not write `index` keeps the nodes
indexed. -/
theorem Indexed.map (g : Node → Node) (hg : ∀ v, (g v).index = v.index)
    (ns : List Node) (h : Indexed ns) : Indexed (ns.map g) := by
  intro i v hv
  rw [List.getElem?_map] at hv
  cases hn : ns[i]? with
  | none => simp [hn] at hv
  | some v0 =>
    simp only [hn, Option.map_some', Option.some.injEq] at hv
    rw [← hv, hg]
    exact h i v0 hn

/-- The first loop of `start` indexes the nodes. -/
theorem adaptor.placedNodes_indexed (s : adaptor) :
    Indexed s.placedNodes ∧ s.placedNodes.length = s._nodes.length := by
  refine ⟨?_, mapAt_length _ _ _⟩
  intro i v hv
  unfold adaptor.placedNodes at hv
  rw [mapAt_getElem?] at hv
  cases hn : s._nodes[i]? with
  | none => simp [hn] at hv
  | some v0 =>
    simp only [hn, Option.map_some', Nat.zero_add, Option.some.injEq] at hv
    rw [← hv]
    exact (adaptor.startNode_coordinates _ _ i v0).2.2

/-- The nodes after the loop of `start` that pins the fixed nodes. -/
theorem adaptor.startLocks_nodes (ns : List Node) (i0 : Nat) (L : Locks) :
    (adaptor.startLocks ns i0 L).1 =
      ns.map (fun o => if o.fixed.truthy then { o with px := o.x, py := o.y } else o) := by
  induction ns generalizing i0 L with
  | nil => simp [adaptor.startLocks]
  | cons o rest ih =>
    by_cases hf : o.fixed.truthy = true
    · simp only [adaptor.startLocks, hf, if_true, List.map_cons]
      rw [ih]
    · simp only [adaptor.startLocks, hf, if_false, List.map_cons, Bool.false_eq_true]
      rw [ih]

/-- The loop that copies the coordinates to the nodes keeps them indexed and
as many. -/
theorem readCoordinates_indexed (x : List Val × List Val) (ns : List Node) (h : Indexed ns) :
    Indexed (readCoordinates x ns) ∧ (readCoordinates x ns).length = ns.length :=
  ⟨Indexed.mapAt
    (fun i v => { v with x := x.1.getD i .undefined, y := x.2.getD i .undefined })
    (fun _ _ => rfl) ns h, mapAt_length _ _ _⟩

/-- The iterations of `start` keep the nodes indexed and as many, and
resolve the endpoints of the links. -/
theorem adaptor.startIterate_nodes (lib : Library) (p : Prepared) (args : List ℚ)
    (h : Indexed p.layout._nodes) :
    Indexed (adaptor.startIterate lib p args).nodes ∧
    (adaptor.startIterate lib p args).nodes.length = p.layout._nodes.length ∧
    (adaptor.startIterate lib p args).links =
      p.links.map (fun l =>
        { l with source := resolveEndpoint p.layout._nodes.length l.source
                 target := resolveEndpoint p.layout._nodes.length l.target }) := by
  have hpin : Indexed (adaptor.startLocks p.layout._nodes 0 (Locks.clear {})).1 ∧
      (adaptor.startLocks p.layout._nodes 0 (Locks.clear {})).1.length =
        p.layout._nodes.length := by
    rw [adaptor.startLocks_nodes]
    refine ⟨Indexed.map _ (fun v => ?_) _ h, List.length_map _ _⟩
    by_cases hf : v.fixed.truthy = true <;> simp [hf]
  by_cases ht : p.ao.truthy = true
  · simp only [adaptor.startIterate, ht, if_true]
    have h1 := fun x => readCoordinates_indexed x _ hpin.1
    refine ⟨(readCoordinates_indexed _ _ (h1 _).1).1, ?_, ?_⟩
    · rw [(readCoordinates_indexed _ _ (h1 _).1).2, (h1 _).2, hpin.2]
    · rw [(h1 _).2, hpin.2]
  · simp only [adaptor.startIterate, ht, if_false, Bool.false_eq_true]
    refine ⟨(readCoordinates_indexed _ _ hpin.1).1, ?_, ?_⟩
    · rw [(readCoordinates_indexed _ _ hpin.1).2, hpin.2]
    · rw [hpin.2]

/-- The end of `start` keeps the nodes indexed and as many, and stores the
links it is given. -/
theorem adaptor.startFinish_nodes (lib : Library) (p : Prepared) (it : Iterated)
    (h : Indexed it.nodes) :
    Indexed (adaptor.startFinish lib p it).layout._nodes ∧
    (adaptor.startFinish lib p it).layout._nodes.length = it.nodes.length ∧
    (adaptor.startFinish lib p it).layout._links = .val it.links := by
  simp only [adaptor.startFinish]
  rw [(adaptor.resume_fields _).1, (adaptor.resume_fields _).2.1]
  refine ⟨?_, ?_, rfl⟩
  · show Indexed (if _ then _ else _)
    split
    · apply Indexed.mapAt
      · intro _ _; rfl
      · exact h
    · exact h
  · show (if _ then _ else _ : List Node).length = _
    split
    · exact mapAt_length _ _ _
    · rfl

/-- The array read at a natural number below the length. -/
theorem arrayIndex_nat (n i : ℕ) (h : i < n) : arrayIndex n (.index (i : ℚ)) = some i := by
  simp [arrayIndex, h]

/-- The links keep their endpoints when the link-length calculator gives them
their lengths. -/
theorem adaptor.measuredLinks_getElem? (lib : Library) (s : adaptor) (ls : List Link) (k : Nat)
    (l : Link) (h : ls[k]? = some l) :
    ∃ l1 : Link, (s.measuredLinks lib ls)[k]? = some l1 ∧ l1.source = l.source ∧
      l1.target = l.target := by
  unfold adaptor.measuredLinks
  cases s._linkLengthCalculator with
  | none => exact ⟨l, h, rfl, rfl⟩
  | some c =>
    refine ⟨{ l with length := lib.linkLengths c s._nodes ls k }, ?_, rfl, rfl⟩
    simp only [mapAt_getElem?, h, Option.map_some', Nat.zero_add]

/-- The link-length calculator keeps the number of links. -/
theorem adaptor.measuredLinks_length (lib : Library) (s : adaptor) (ls : List Link) :
    (s.measuredLinks lib ls).length = ls.length := by
  unfold adaptor.measuredLinks
  cases s._linkLengthCalculator with
  | none => rfl
  | some c => exact mapAt_length _ _ _

/-- C20: `getSourceIndex` and `getTargetIndex` return the endpoint itself
when it is a number and the `index` of the node referred to otherwise.  A
`start()` that returns leaves every node with its position as `index`, and
has replaced every numeric endpoint that is a position of the node list by
the node at that position, so that for such an endpoint `getSourceIndex` and
`getTargetIndex` return after `start()` what they returned before. -/
theorem start_link_indices (lib : Library) (s : adaptor) (args : List ℚ) (r : Started)
    (ls : List Link) (h : s.start lib args = .ok r) (hl : s._links = .val ls) :
    (∀ (nodes : List Node) (e : Link) (q : ℚ),
      (e.source = .index q → adaptor.getSourceIndex nodes e = .ok (.num q)) ∧
      (e.target = .index q → adaptor.getTargetIndex nodes e = .ok (.num q))) ∧
    (∀ (nodes : List Node) (e : Link) (j : Nat) (v : Node), nodes[j]? = some v →
      (e.source = .node j → adaptor.getSourceIndex nodes e = .ok v.index) ∧
      (e.target = .node j → adaptor.getTargetIndex nodes e = .ok v.index)) ∧
    Indexed r.layout._nodes ∧
    ∃ ls' : List Link, r.layout._links = .val ls' ∧ ls'.length = ls.length ∧
      ∀ (k : Nat) (l : Link), ls[k]? = some l →
        ∃ l' : Link, ls'[k]? = some l' ∧
          (∀ i : ℕ, l.source = .index i → i < r.layout._nodes.length →
            l'.source = .node i ∧
            adaptor.getSourceIndex r.layout._nodes l' = adaptor.getSourceIndex s._nodes l) ∧
          (∀ i : ℕ, l.target = .index i → i < r.layout._nodes.length →
            l'.target = .node i ∧
            adaptor.getTargetIndex r.layout._nodes l' = adaptor.getTargetIndex s._nodes l) := by
  refine ⟨?_, ?_, ?_⟩
  · intro nodes e q
    exact ⟨fun he => by simp [adaptor.getSourceIndex, adaptor.endpointIndex, he],
           fun he => by simp [adaptor.getTargetIndex, adaptor.endpointIndex, he]⟩
  · intro nodes e j v hv
    exact ⟨fun he => by simp [adaptor.getSourceIndex, adaptor.endpointIndex, he, hv],
           fun he => by simp [adaptor.getTargetIndex, adaptor.endpointIndex, he, hv]⟩
  obtain ⟨p, hp, rfl⟩ := (adaptor.start_eq_ok lib s args r).1 h
  obtain ⟨s0, links0, dg, D, gv, cur, hf, -, hl0, -, -, -, -, hpeq⟩ :=
    adaptor.startPrepare_ok lib s p hp
  have hPn : p.layout._nodes = s0.placedNodes := by rw [hpeq]
  have hPl : p.links = s0.measuredLinks lib links0 := by rw [hpeq]
  have hls : links0 = ls := by
    have : s0._links = s._links := by rw [hf]
    rw [this, hl] at hl0
    exact (Nullable.val.inj hl0).symm
  subst hls
  have hPi : Indexed p.layout._nodes := by rw [hPn]; exact (adaptor.placedNodes_indexed s0).1
  obtain ⟨hIi, hIl, hIk⟩ := adaptor.startIterate_nodes lib p args hPi
  obtain ⟨hFi, hFl, hFk⟩ := adaptor.startFinish_nodes lib p (adaptor.startIterate lib p args) hIi
  have hlen : (adaptor.startFinish lib p (adaptor.startIterate lib p args)).layout._nodes.length =
      p.layout._nodes.length := hFl.trans hIl
  refine ⟨hFi, _, hFk, ?_, ?_⟩
  · rw [hIk, List.length_map, hPl, adaptor.measuredLinks_length]
  · intro k l hk
    obtain ⟨l1, hl1, hs1, ht1⟩ := adaptor.measuredLinks_getElem? lib s0 links0 k l hk
    refine ⟨_, by rw [hIk, List.getElem?_map, hPl, hl1]; rfl, ?_, ?_⟩
    · intro i hi hin
      rw [hlen] at hin
      have hres : resolveEndpoint p.layout._nodes.length l1.source = .node i := by
        rw [hs1, hi]
        simp only [resolveEndpoint, arrayIndex_nat _ _ hin]
      have hi' : i < (adaptor.startFinish lib p
          (adaptor.startIterate lib p args)).layout._nodes.length := by rw [hlen]; exact hin
      refine ⟨hres, ?_⟩
      have hv := hFi i _ (List.getElem?_eq_getElem hi')
      simp only [adaptor.getSourceIndex, adaptor.endpointIndex, hres, hi,
        List.getElem?_eq_getElem hi', Option.map_some', Option.getD_some, hv]
    · intro i hi hin
      rw [hlen] at hin
      have hres : resolveEndpoint p.layout._nodes.length l1.target = .node i := by
        rw [ht1, hi]
        simp only [resolveEndpoint, arrayIndex_nat _ _ hin]
      have hi' : i < (adaptor.startFinish lib p
          (adaptor.startIterate lib p args)).layout._nodes.length := by rw [hlen]; exact hin
      refine ⟨hres, ?_⟩
      have hv := hFi i _ (List.getElem?_eq_getElem hi')
      simp only [adaptor.getTargetIndex, adaptor.endpointIndex, hres, hi,
        List.getElem?_eq_getElem hi', Option.map_some', Option.getD_some, hv]

/-- C20 at a concrete input: `start()` on a layout of two nodes with a link
from node 0 to node 1 and a distance matrix. -/
theorem start_link_indices_witness :
    ∃ r : Started, matrixLayout.start sampleLibrary [] = .ok r ∧
      Indexed r.layout._nodes ∧
      ∃ ls' : List Link, r.layout._links = .val ls' ∧
        ls'.length = [({ source := .index 0, target := .index 1 } : Link)].length ∧
        ∀ (k : Nat) (l : Link),
          [({ source := .index 0, target := .index 1 } : Link)][k]? = some l →
          ∃ l' : Link, ls'[k]? = some l' ∧
            (∀ i : ℕ, l.source = .index i → i < r.layout._nodes.length →
              l'.source = .node i ∧
              adaptor.getSourceIndex r.layout._nodes l' =
                adaptor.getSourceIndex matrixLayout._nodes l) ∧
            (∀ i : ℕ, l.target = .index i → i < r.layout._nodes.length →
              l'.target = .node i ∧
              adaptor.getTargetIndex r.layout._nodes l' =
                adaptor.getTargetIndex matrixLayout._nodes l) := by
  have h : ∃ r, matrixLayout.start sampleLibrary [] = .ok r := ⟨_, rfl⟩
  obtain ⟨r, hr⟩ := h
  exact ⟨r, hr, (start_link_indices sampleLibrary matrixLayout [] r _ hr rfl).2.2⟩

/-! ## When `start` returns -/

/-- An entry of a list rewritten by a loop over its indices comes from an
entry of the list. -/
theorem mem_mapAt {α β : Type} (f : Nat → α → β) (l : List α) (i0 : Nat) (b : β)
    (h : b ∈ mapAt f l i0) : ∃ (k : Nat) (a : α), a ∈ l ∧ b = f k a := by
  induction l generalizing i0 with
  | nil => simp [mapAt] at h
  | cons a rest ih =>
    simp only [mapAt, List.mem_cons] at h
    rcases h with rfl | h
    · exact ⟨i0, a, List.mem_cons_self a rest, rfl⟩
    · obtain ⟨k, a', ha', hb⟩ := ih (i0 + 1) h
      exact ⟨k, a', List.mem_cons_of_mem a ha', hb⟩

/-- The row of a matrix that a natural number below the number of rows
denotes. -/
theorem rowIndex_nat (N i : ℕ) (h : i < N) : rowIndex N (.num (i : ℚ)) = some i := by
  simp [rowIndex, h]

/-- The loop that marks the linked pairs returns when every endpoint of a
link is a variable. -/
theorem adaptor.startWeights_ok (nodes : List Node) (N : Nat) (links : List Link)
    (G : List (List Val))
    (h : ∀ l ∈ links, ∃ a b : ℕ, l.source = .index a ∧ l.target = .index b ∧ a < N ∧ b < N) :
    ∃ G' : List (List Val), adaptor.startWeights nodes N links G = .ok G' := by
  induction links generalizing G with
  | nil => exact ⟨G, rfl⟩
  | cons l rest ih =>
    obtain ⟨a, b, ha, hb, haN, hbN⟩ := h l (List.mem_cons_self l rest)
    simp only [adaptor.startWeights, adaptor.getSourceIndex, adaptor.getTargetIndex,
      adaptor.endpointIndex, ha, hb, rowIndex_nat _ _ haN, rowIndex_nat _ _ hbN]
    exact ih _ (fun l' hl' => h l' (List.mem_cons_of_mem l hl'))

/-- The loop over the groups returns when the weights are not `null`. -/
theorem adaptor.startGroups_ok (gs : List Group) (i : Nat) (V : GroupVariables)
    (h : V.G.isSome = true) : ∃ V' : GroupVariables, adaptor.startGroups gs i V = .ok V' := by
  induction gs generalizing i V with
  | nil => exact ⟨V, rfl⟩
  | cons g rest ih =>
    cases hG : V.G with
    | none => simp [hG] at h
    | some G =>
      simp only [adaptor.startGroups, hG]
      exact ih _ _ rfl

/-- A `start` on a layout that has nodes, a list of links, a distance matrix
with a row for every variable, no group, and no flow layout returns. -/
theorem adaptor.start_returns_of_matrix (lib : Library) (s : adaptor) (args : List ℚ)
    (ls : List Link) (M : List (List ℚ)) (hn : s._nodes ≠ []) (hl : s._links = .val ls)
    (hM : s._distanceMatrix = .val M) (hrows : s.variableCount ≤ M.length)
    (hg : s._groups = []) (hflow : s._directedLinkConstraints = none) :
    ∃ r : Started, s.start lib args = .ok r := by
  have hD : adaptor.startIdealDistances s.variableCount (M.map (fun row => row.map Val.num)) =
      .ok (createSquareMatrix s.variableCount
        (fun i j => matrixEntry (M.map (fun row => row.map Val.num)) i j)) := by
    have : ¬ M.length < s.variableCount := by omega
    simp [adaptor.startIdealDistances, this]
  have hgv : ∀ V : GroupVariables,
      (if s.hasRootGroups then adaptor.startGroups s._groups s._nodes.length V else .ok V) =
        .ok V := by
    intro V
    rw [hg]
    split <;> rfl
  have hprep : ∃ p, s.startPrepare lib = .ok p := by
    unfold adaptor.startPrepare
    simp only [adaptor.nodes_none_of_ne_nil s hn, hl,
      adaptor.startDistances_of_matrix lib s _ _ _ M hM, hD, hgv, adaptor.startConstraints, hflow]
    exact ⟨_, rfl⟩
  obtain ⟨p, hp⟩ := hprep
  exact ⟨_, (adaptor.start_eq_ok lib s args _).2 ⟨p, hp, rfl⟩⟩

/-- A `start` on a layout that has nodes, links between variables, no
distance matrix and no flow layout returns when the shortest-path calculator
returns a matrix with a row for every variable. -/
theorem adaptor.start_returns_of_links (lib : Library) (s : adaptor) (args : List ℚ)
    (ls : List Link) (hn : s._nodes ≠ []) (hl : s._links = .val ls)
    (hM : s._distanceMatrix.truthy = false)
    (hends : ∀ l ∈ ls, ∃ a b : ℕ,
      l.source = .index a ∧ l.target = .index b ∧ a < s.variableCount ∧ b < s.variableCount)
    (hcalc : ∀ links getSourceIndex getTargetIndex getLength, ∃ Mc : List (List Val),
      lib.DistanceMatrix s.variableCount links getSourceIndex getTargetIndex getLength = .ok Mc ∧
      s.variableCount ≤ Mc.length)
    (hflow : s._directedLinkConstraints = none) :
    ∃ r : Started, s.start lib args = .ok r := by
  obtain ⟨Mc, hMc, hrows⟩ := hcalc (s.measuredLinks lib ls) (adaptor.getSourceIndex s.placedNodes)
    (adaptor.getTargetIndex s.placedNodes) (adaptor.getLinkLength lib.linkDistance s)
  have hends' : ∀ l ∈ s.measuredLinks lib ls, ∃ a b : ℕ,
      l.source = .index a ∧ l.target = .index b ∧ a < s.variableCount ∧ b < s.variableCount := by
    intro l hmem
    unfold adaptor.measuredLinks at hmem
    cases hc : s._linkLengthCalculator with
    | none =>
      rw [hc] at hmem
      exact hends l hmem
    | some c =>
      rw [hc] at hmem
      obtain ⟨k, l0, hl0, rfl⟩ := mem_mapAt _ _ _ _ hmem
      exact hends l0 hl0
  obtain ⟨G, hG⟩ := adaptor.startWeights_ok s.placedNodes s.variableCount
    (s.measuredLinks lib ls) (createSquareMatrix s.variableCount (fun _ _ => .num 2)) hends'
  have hd : adaptor.startDistances lib s s.placedNodes s.variableCount (s.measuredLinks lib ls) =
      .ok (Mc, some G) := by
    unfold adaptor.startDistances
    cases hdm : s._distanceMatrix with
    | val M => simp [hdm, Nullable.truthy] at hM
    | undefined => simp only [hMc, hG]
    | null => simp only [hMc, hG]
  have hD : adaptor.startIdealDistances s.variableCount Mc =
      .ok (createSquareMatrix s.variableCount (fun i j => matrixEntry Mc i j)) := by
    have : ¬ Mc.length < s.variableCount := by omega
    simp [adaptor.startIdealDistances, this]
  have hgv : ∀ V : GroupVariables, V.G.isSome = true →
      ∃ V', (if s.hasRootGroups then adaptor.startGroups s._groups s._nodes.length V
             else .ok V) = .ok V' := by
    intro V hV
    split
    · exact adaptor.startGroups_ok _ _ V hV
    · exact ⟨V, rfl⟩
  obtain ⟨gv, hgv'⟩ := hgv
    { G := some G
      D := createSquareMatrix s.variableCount (fun i j => matrixEntry Mc i j)
      x := s.placedNodes.map (fun v => v.x) ++
        List.replicate (s.variableCount - s._nodes.length) Val.undefined
      y := s.placedNodes.map (fun v => v.y) ++
        List.replicate (s.variableCount - s._nodes.length) Val.undefined } rfl
  have hprep : ∃ p, s.startPrepare lib = .ok p := by
    unfold adaptor.startPrepare
    simp only [adaptor.nodes_none_of_ne_nil s hn, hl, hd, hD, hgv', adaptor.startConstraints,
      hflow]
    exact ⟨_, rfl⟩
  obtain ⟨p, hp⟩ := hprep
  exact ⟨_, (adaptor.start_eq_ok lib s args _).2 ⟨p, hp, rfl⟩⟩

/-! ## Pinning the fixed nodes -/

/-- The locks after the loop of `start` that pins the fixed nodes, run from
index `i0`: a fixed node of the list is locked at `[x, y]`, and any other
index keeps the lock it had. -/
theorem adaptor.startLocks_get (ns : List Node) (i0 : Nat) (L : Locks) (j : Nat) :
    (adaptor.startLocks ns i0 L).2.get j =
      match (if i0 ≤ j then ns[j - i0]? else none) with
      | some o => if o.fixed.truthy then some [o.x, o.y] else L.get j
      | none => L.get j := by
  induction ns generalizing i0 L with
  | nil => simp [adaptor.startLocks]
  | cons o rest ih =>
    have key : ∀ L' : Locks,
        (match (if i0 + 1 ≤ j then rest[j - (i0 + 1)]? else none) with
          | some o' => if o'.fixed.truthy then some [o'.x, o'.y] else L'.get j
          | none => L'.get j) =
        if j = i0 then L'.get j else
          match (if i0 ≤ j then (o :: rest)[j - i0]? else none) with
          | some o' => if o'.fixed.truthy then some [o'.x, o'.y] else L'.get j
          | none => L'.get j := by
      intro L'
      by_cases hj : j = i0
      · subst hj; simp
      · by_cases hle : i0 ≤ j
        · have h1 : i0 + 1 ≤ j := by omega
          have h2 : j - i0 = (j - (i0 + 1)) + 1 := by omega
          simp only [hj, hle, h1, if_true, if_false]
          rw [h2, List.getElem?_cons_succ]
        · have h1 : ¬ i0 + 1 ≤ j := by omega
          simp [hj, hle, h1]
    by_cases hf : o.fixed.truthy = true
    · simp only [adaptor.startLocks, hf, if_true]
      rw [ih, key, Locks.get_add]
      by_cases hj : j = i0
      · subst hj; simp [hf]
      · simp [hj]
    · simp only [adaptor.startLocks, hf, if_false, Bool.false_eq_true]
      rw [ih, key]
      by_cases hj : j = i0
      · subst hj; simp [hf]
      · simp [hj]

/-- The descent engine of every run of `start` has the locks of the loop that
pins the fixed nodes. -/
theorem adaptor.startIterate_locks (lib : Library) (p : Prepared) (args : List ℚ) :
    ∀ c ∈ (adaptor.startIterate lib p args).runs,
      c.1.locks = (adaptor.startLocks p.layout._nodes 0 (Locks.clear {})).2 := by
  intro c hc
  simp only [adaptor.startIterate, List.mem_cons, List.mem_singleton, List.mem_nil_iff,
    or_false] at hc
  rcases hc with rfl | rfl | rfl
  · rfl
  · by_cases h : 0 < p.curConstraints.length <;> simp [h]
  · by_cases h : 0 < p.curConstraints.length <;> by_cases ht : p.ao.truthy = true <;>
      simp [h, ht]

/-- The nodes that `start` leaves: against the nodes after its first loop,
only the coordinates have been written, and `px`, `py` of the fixed nodes. -/
theorem adaptor.startFinish_getElem? (lib : Library) (p : Prepared) (args : List ℚ) (i : Nat) :
    ((adaptor.startFinish lib p (adaptor.startIterate lib p args)).layout._nodes[i]?).map
        (fun v => (v.px, v.py, v.fixed, v.index, v.parent)) =
      (p.layout._nodes[i]?).map (fun o =>
        (if o.fixed.truthy then o.x else o.px, if o.fixed.truthy then o.y else o.py,
          o.fixed, o.index, o.parent)) := by
  simp only [adaptor.startFinish]
  rw [(adaptor.resume_fields _).1]
  simp only [adaptor.startIterate, readCoordinates, adaptor.startLocks_nodes]
  cases ho : p.layout._nodes[i]? with
  | none =>
    by_cases hpk : (!p.layout._distanceMatrix.truthy && p.layout._handleDisconnected.truthy) = true <;>
      by_cases ht : p.ao.truthy = true <;>
      simp [hpk, ht, mapAt_getElem?, ho]
  | some o =>
    by_cases hpk : (!p.layout._distanceMatrix.truthy && p.layout._handleDisconnected.truthy) = true <;>
      by_cases ht : p.ao.truthy = true <;>
      by_cases hf : o.fixed.truthy = true <;>
      simp [hpk, ht, mapAt_getElem?, ho, hf]

/-- The first loop of `start` keeps what the nodes of the layout have but the
index and, for a node without `x`, the position. -/
theorem adaptor.startPrepare_getElem? (lib : Library) (s : adaptor) (p : Prepared)
    (hp : s.startPrepare lib = .ok p) (i : Nat) (v : Node) (hv : s._nodes[i]? = some v) :
    ∃ o : Node, p.layout._nodes[i]? = some o ∧ o.fixed = v.fixed ∧ o.px = v.px ∧
      o.py = v.py ∧ o.parent = v.parent := by
  obtain ⟨s0, links0, dg, D, gv, cur, hf, hnodes, -, -, -, -, -, rfl⟩ :=
    adaptor.startPrepare_ok lib s p hp
  have hne : s._nodes ≠ [] := by
    intro e
    rw [e] at hv
    cases hv
  rw [adaptor.nodes_none_of_ne_nil s hne] at hnodes
  have hs0 : s0._nodes = s._nodes := by
    cases hnodes
    rfl
  simp only [adaptor.placedNodes, mapAt_getElem?, hs0, hv, Option.map_some', Nat.zero_add]
  refine ⟨_, rfl, ?_⟩
  unfold adaptor.startNode
  split <;> exact ⟨rfl, rfl, rfl, rfl⟩

/-- C23: a `start()` that returns has pinned every node marked fixed at its
starting position before the first run of the descent engine: with `o` the
node at index `i` after the first loop of `start` (which keeps the mark
`fixed` of the node), the engine starts from the position `(o.x, o.y)` for the
descent variable `i`; if `o` is fixed, the engine of every run holds the lock
`(i, [o.x, o.y])` and the node is left with `px = o.x` and `py = o.y`; if it is
not, the engine of no run holds a lock for `i`, and `px`, `py` are as they
were.  No lock is held for an index that is not a node. -/
theorem start_pins_fixed (lib : Library) (s : adaptor) (args : List ℚ) (r : Started)
    (h : s.start lib args = .ok r) :
    ∃ (p : Prepared) (L : Locks) (d0 : Descent),
      s.startPrepare lib = .ok p ∧
      r.runs.head? = some (d0, args.getD 0 0) ∧
      (∀ c ∈ r.runs, c.1.locks = L) ∧
      (∀ (i : Nat) (v : Node), s._nodes[i]? = some v →
        ∃ o : Node, p.layout._nodes[i]? = some o ∧ o.fixed = v.fixed) ∧
      (∀ (i : Nat) (o : Node), p.layout._nodes[i]? = some o →
        d0.x.1[i]? = some o.x ∧ d0.x.2[i]? = some o.y ∧
        ∃ o' : Node, r.layout._nodes[i]? = some o' ∧ o'.fixed = o.fixed ∧
          (o.fixed.truthy = true → L.get i = some [o.x, o.y] ∧ o'.px = o.x ∧ o'.py = o.y) ∧
          (o.fixed.truthy = false → L.get i = none ∧ o'.px = o.px ∧ o'.py = o.py)) ∧
      (∀ i : Nat, p.layout._nodes[i]? = none → L.get i = none) := by
  obtain ⟨p, hp, rfl⟩ := (adaptor.start_eq_ok lib s args r).1 h
  refine ⟨p, (adaptor.startLocks p.layout._nodes 0 (Locks.clear {})).2,
    { x := (p.x, p.y), D := p.D,
      locks := (adaptor.startLocks p.layout._nodes 0 (Locks.clear {})).2,
      threshold := some p.layout._threshold }, hp, ?_, ?_, ?_, ?_, ?_⟩
  · simp only [adaptor.startFinish, adaptor.startIterate, argument_default, List.head?_cons]
  · exact adaptor.startIterate_locks lib p args
  · intro i v hv
    obtain ⟨o, ho, hfx, -⟩ := adaptor.startPrepare_getElem? lib s p hp i v hv
    exact ⟨o, ho, hfx⟩
  · intro i o ho
    have hfin := adaptor.startFinish_getElem? lib p args i
    rw [ho, Option.map_some'] at hfin
    obtain ⟨hx, hy⟩ := adaptor.startPrepare_coordinates lib s p hp i o ho
    refine ⟨hx, hy, ?_⟩
    cases ho' : (adaptor.startFinish lib p (adaptor.startIterate lib p args)).layout._nodes[i]? with
    | none => simp [ho'] at hfin
    | some o' =>
      simp only [ho', Option.map_some', Option.some.injEq, Prod.mk.injEq] at hfin
      obtain ⟨hpx, hpy, hfx, -, -⟩ := hfin
      refine ⟨o', rfl, hfx, ?_, ?_⟩
      · intro hf
        simp only [hf, if_true] at hpx hpy
        refine ⟨?_, hpx, hpy⟩
        simp [adaptor.startLocks_get, ho, hf]
      · intro hf
        simp only [hf, if_false, Bool.false_eq_true] at hpx hpy
        refine ⟨?_, hpx, hpy⟩
        simp [adaptor.startLocks_get, ho, hf, Locks.get_clear]
  · intro i hi
    simp [adaptor.startLocks_get, hi, Locks.get_clear]

/-- C23 at a concrete input: `start()` on a layout of a fixed node at `(1, 2)`
and a free node at `(3, 4)`. -/
theorem start_pins_fixed_witness :
    ∃ r : Started, pinnedLayout.start sampleLibrary [] = .ok r ∧
      ∃ (p : Prepared) (L : Locks) (d0 : Descent),
        pinnedLayout.startPrepare sampleLibrary = .ok p ∧
        r.runs.head? = some (d0, ([] : List ℚ).getD 0 0) ∧
        (∀ c ∈ r.runs, c.1.locks = L) ∧
        (∀ (i : Nat) (v : Node), pinnedLayout._nodes[i]? = some v →
          ∃ o : Node, p.layout._nodes[i]? = some o ∧ o.fixed = v.fixed) ∧
        (∀ (i : Nat) (o : Node), p.layout._nodes[i]? = some o →
          d0.x.1[i]? = some o.x ∧ d0.x.2[i]? = some o.y ∧
          ∃ o' : Node, r.layout._nodes[i]? = some o' ∧ o'.fixed = o.fixed ∧
            (o.fixed.truthy = true → L.get i = some [o.x, o.y] ∧ o'.px = o.x ∧ o'.py = o.y) ∧
            (o.fixed.truthy = false → L.get i = none ∧ o'.px = o.px ∧ o'.py = o.py)) ∧
        (∀ i : Nat, p.layout._nodes[i]? = none → L.get i = none) := by
  have h : ∃ r, pinnedLayout.start sampleLibrary [] = .ok r := ⟨_, rfl⟩
  obtain ⟨r, hr⟩ := h
  exact ⟨r, hr, start_pins_fixed sampleLibrary pinnedLayout [] r hr⟩

/-! ## The setting `avoidOverlaps` across `start` -/

/-- C26: a `start()` that returns leaves `avoidOverlaps()` returning what it
returned before the call, whatever that value is (`true` and `false` among
them); the setting was `false` at the first and at the second run of the
descent engine, neither of which has a projection that avoids overlaps, and
the value of before the call again at the third. -/
theorem start_restores_avoidOverlaps (lib : Library) (s : adaptor) (args : List ℚ) (r : Started)
    (h : s.start lib args = .ok r) :
    (r.layout.avoidOverlaps none).2 = (s.avoidOverlaps none).2 ∧
    r.overlaps = [.bool false, .bool false, s._avoidOverlaps] ∧
    r.runs.length = 3 ∧
    (∀ c ∈ r.runs.take 2, ∀ P : Projection, c.1.project = some P → P.avoidOverlaps = false) := by
  obtain ⟨p, hp, rfl⟩ := (adaptor.start_eq_ok lib s args r).1 h
  have hao := (adaptor.startPrepare_settings lib s p hp).1
  refine ⟨?_, ?_, ?_, ?_⟩
  · simp only [adaptor.avoidOverlaps, adaptor.startFinish]
    rw [(adaptor.resume_fields _).2.2.2.2.2.1]
    simp only [adaptor.startIterate, hao]
  · simp only [adaptor.startFinish, adaptor.startIterate, adaptor.avoidOverlaps, hao]
  · simp only [adaptor.startFinish, adaptor.startIterate, List.length_cons, List.length_nil]
  · intro c hc P hP
    simp only [adaptor.startFinish, adaptor.startIterate, List.take_succ_cons, List.take_zero,
      List.mem_cons, List.mem_nil_iff, or_false] at hc
    rcases hc with rfl | rfl
    · cases hP
    · by_cases hcc : 0 < p.curConstraints.length
      · simp only [hcc, if_true, Option.some.injEq] at hP
        rw [← hP]
      · simp only [hcc, if_false] at hP
        cases hP

/-- C26 at a concrete input: `start()` on a layout of two nodes with
`avoidOverlaps` on. -/
theorem start_restores_avoidOverlaps_witness :
    ∃ r : Started, twoNodeLayout.start sampleLibrary [] = .ok r ∧
      (twoNodeLayout.avoidOverlaps none).2 = .value (.bool true) ∧
      (r.layout.avoidOverlaps none).2 = (twoNodeLayout.avoidOverlaps none).2 ∧
      r.overlaps = [.bool false, .bool false, twoNodeLayout._avoidOverlaps] ∧
      r.runs.length = 3 ∧
      (∀ c ∈ r.runs.take 2, ∀ P : Projection, c.1.project = some P →
        P.avoidOverlaps = false) := by
  have h : ∃ r, twoNodeLayout.start sampleLibrary [] = .ok r := ⟨_, rfl⟩
  obtain ⟨r, hr⟩ := h
  exact ⟨r, hr, rfl, start_restores_avoidOverlaps sampleLibrary twoNodeLayout [] r hr⟩

/-! ## The constraints across `start` -/

/-- The constraints that `start` projects on: the user's when `flowLayout` was
not called, and otherwise the user's followed by what the generator returns at
this call. -/
theorem adaptor.startPrepare_constraints (lib : Library) (s : adaptor) (p : Prepared)
    (hp : s.startPrepare lib = .ok p) :
    (s._directedLinkConstraints = none → p.curConstraints = s._constraints.orEmpty) ∧
    (∀ c : DirectedLinkConstraints, s._directedLinkConstraints = some c →
      ∃ (acc : LinkAccessor) (cs : List Val),
        lib.generateDirectedEdgeConstraints p.layout._nodes.length p.links c.axis acc = .ok cs ∧
        p.curConstraints = s._constraints.orEmpty ++ cs) := by
  obtain ⟨s0, links0, dg, D, gv, cur, hf, -, -, -, -, -, hc, rfl⟩ :=
    adaptor.startPrepare_ok lib s p hp
  have hdlc : s0._directedLinkConstraints = s._directedLinkConstraints := by rw [hf]
  have hcon : s0._constraints = s._constraints := by rw [hf]
  unfold adaptor.startConstraints at hc
  rw [hdlc, hcon] at hc
  constructor
  · intro hnone
    rw [hnone] at hc
    cases hc
    rfl
  · intro c hsome
    rw [hsome] at hc
    simp only at hc
    split at hc
    · cases hc
    · rename_i cs hcs
      cases hc
      exact ⟨_, cs, hcs, rfl⟩

/-- The method `start` writes neither the constraints of the layout nor the
record of `flowLayout`. -/
theorem adaptor.start_constraints (lib : Library) (s : adaptor) (args : List ℚ) (r : Started)
    (h : s.start lib args = .ok r) :
    r.layout._constraints = s._constraints ∧
    r.layout._directedLinkConstraints = s._directedLinkConstraints := by
  obtain ⟨p, hp, rfl⟩ := (adaptor.start_eq_ok lib s args r).1 h
  obtain ⟨s0, links0, dg, D, gv, cur, hf, -, -, -, -, -, -, rfl⟩ :=
    adaptor.startPrepare_ok lib s p hp
  simp only [adaptor.startFinish, adaptor.resume]
  rw [adaptor.alpha_fields, hf]
  exact ⟨rfl, rfl⟩

/-- C27: a `start()` that returns leaves `constraints()` returning the list it
returned before.  The constraints it projects on are the user's, followed,
with `flowLayout` configured, by those the generator returns at this call;
and a second `start()` that returns again leaves `constraints()` as it was and
projects on the user's constraints followed by those the generator returns at
the second call, those of the first not among them. -/
theorem start_keeps_constraints (lib : Library) (s : adaptor) (args : List ℚ) (r : Started)
    (h : s.start lib args = .ok r) :
    (r.layout.constraints none).2 = (s.constraints none).2 ∧
    (∃ p : Prepared, s.startPrepare lib = .ok p ∧
      (s._directedLinkConstraints = none → p.curConstraints = s._constraints.orEmpty) ∧
      (∀ c : DirectedLinkConstraints, s._directedLinkConstraints = some c →
        ∃ (acc : LinkAccessor) (cs : List Val),
          lib.generateDirectedEdgeConstraints p.layout._nodes.length p.links c.axis acc =
            .ok cs ∧
          p.curConstraints = s._constraints.orEmpty ++ cs)) ∧
    (∀ (args' : List ℚ) (r' : Started), r.layout.start lib args' = .ok r' →
      (r'.layout.constraints none).2 = (s.constraints none).2 ∧
      ∃ p' : Prepared, r.layout.startPrepare lib = .ok p' ∧
        (s._directedLinkConstraints = none → p'.curConstraints = s._constraints.orEmpty) ∧
        (∀ c : DirectedLinkConstraints, s._directedLinkConstraints = some c →
          ∃ (acc : LinkAccessor) (cs' : List Val),
            lib.generateDirectedEdgeConstraints p'.layout._nodes.length p'.links c.axis acc =
              .ok cs' ∧
            p'.curConstraints = s._constraints.orEmpty ++ cs')) := by
  obtain ⟨hcon, hdlc⟩ := adaptor.start_constraints lib s args r h
  obtain ⟨p, hp, -⟩ := (adaptor.start_eq_ok lib s args r).1 h
  refine ⟨?_, ⟨p, hp, adaptor.startPrepare_constraints lib s p hp⟩, ?_⟩
  · simp only [adaptor.constraints, hcon]
  · intro args' r' h'
    obtain ⟨hcon', -⟩ := adaptor.start_constraints lib r.layout args' r' h'
    obtain ⟨p', hp', -⟩ := (adaptor.start_eq_ok lib r.layout args' r').1 h'
    have h2 := adaptor.startPrepare_constraints lib r.layout p' hp'
    rw [hcon, hdlc] at h2
    refine ⟨?_, p', hp', h2⟩
    simp only [adaptor.constraints, hcon', hcon]

/-- C27 at a concrete input: `start()` twice on a layout with one constraint of
the user and a flow layout whose generator returns one constraint: each
`start()` projects on the two, and `constraints()` returns the user's one
after both. -/
theorem start_keeps_constraints_witness :
    ∃ (r r' : Started) (p p' : Prepared),
      constrainedLayout.start flowLibrary [] = .ok r ∧
      r.layout.start flowLibrary [] = .ok r' ∧
      constrainedLayout.startPrepare flowLibrary = .ok p ∧
      r.layout.startPrepare flowLibrary = .ok p' ∧
      (constrainedLayout.constraints none).2 = .value (.val [userConstraint]) ∧
      (r.layout.constraints none).2 = (constrainedLayout.constraints none).2 ∧
      (r'.layout.constraints none).2 = (constrainedLayout.constraints none).2 ∧
      p.curConstraints = [userConstraint, flowConstraint] ∧
      p'.curConstraints = [userConstraint, flowConstraint] := by
  have h : ∃ r, constrainedLayout.start flowLibrary [] = .ok r := ⟨_, rfl⟩
  obtain ⟨r, hr⟩ := h
  have h' : ∃ r', r.layout.start flowLibrary [] = .ok r' := by
    obtain ⟨p, hp, rfl⟩ := (adaptor.start_eq_ok _ _ _ r).1 hr
    cases hp
    simp only [adaptor.startFinish, adaptor.resume]
    rw [adaptor.alpha_fields]
    exact ⟨_, rfl⟩
  obtain ⟨r', hr'⟩ := h'
  obtain ⟨h1, ⟨p, hp, -, h2⟩, h3⟩ := start_keeps_constraints flowLibrary constrainedLayout [] r hr
  obtain ⟨h4, p', hp', -, h5⟩ := h3 [] r' hr'
  obtain ⟨acc, cs, hcs, hcur⟩ := h2 _ rfl
  obtain ⟨acc', cs', hcs', hcur'⟩ := h5 _ rfl
  cases hcs
  cases hcs'
  exact ⟨r, r', p, p', hr, hr', hp, hp', rfl, h1, h4, hcur, hcur'⟩

/-! ## The projection installed by `start` -/

/-- The projection of the descent engine after the iterations of `start`:
one that avoids overlaps when the saved setting `ao` is on, else one that does
not when there is a constraint, else none. -/
theorem adaptor.startIterate_project (lib : Library) (p : Prepared) (args : List ℚ) :
    (p.ao.truthy = true → ∃ ns : List Node,
      (adaptor.startIterate lib p args).descent.project =
        some { nodes := ns, groups := p.layout._groups, rootGroup := p.layout._rootGroup,
               constraints := p.curConstraints, avoidOverlaps := true }) ∧
    (p.ao.truthy = false → 0 < p.curConstraints.length → ∃ ns : List Node,
      (adaptor.startIterate lib p args).descent.project =
        some { nodes := ns, groups := p.layout._groups, rootGroup := p.layout._rootGroup,
               constraints := p.curConstraints, avoidOverlaps := false }) ∧
    (p.ao.truthy = false → ¬ 0 < p.curConstraints.length →
      (adaptor.startIterate lib p args).descent.project = none) := by
  refine ⟨fun ht => ?_, fun ht hc => ?_, fun ht hc => ?_⟩
  · simp only [adaptor.startIterate, ht, if_true]
    exact ⟨_, rfl⟩
  · simp only [adaptor.startIterate, ht, hc, if_true, if_false, Bool.false_eq_true]
    exact ⟨_, rfl⟩
  · simp only [adaptor.startIterate, ht, hc, if_false, Bool.false_eq_true]

/-- The end of `start` keeps the projection of the descent engine. -/
theorem adaptor.startFinish_project (lib : Library) (p : Prepared) (it : Iterated) :
    ∃ d : Descent, (adaptor.startFinish lib p it).layout._descent = some d ∧
      d.project = it.descent.project := by
  simp only [adaptor.startFinish]
  rw [(adaptor.resume_fields _).2.2.1]
  refine ⟨_, rfl, ?_⟩
  split <;> rfl

/-- The descent engine of a run of `start` has no projection when there is no
constraint and the saved setting `ao` is off. -/
theorem adaptor.startIterate_unprojected (lib : Library) (p : Prepared) (args : List ℚ)
    (hc : p.curConstraints = []) (ht : p.ao.truthy = false) :
    ∀ c ∈ (adaptor.startIterate lib p args).runs, c.1.project = none := by
  intro c hmem
  simp only [adaptor.startIterate, hc, ht, List.length_nil, lt_irrefl, if_false,
    Bool.false_eq_true, List.mem_cons, List.mem_singleton, List.mem_nil_iff, or_false] at hmem
  rcases hmem with rfl | rfl | rfl <;> rfl

/-- C28: a `start()` that returns leaves a descent engine that has a projection
if and only if there is at least one constraint, among the user's and those
generated for `flowLayout`, or `avoidOverlaps` is on; a projection it has is
made from the groups and these constraints.  In particular, with no
constraint and `avoidOverlaps` off, no run of the descent engine has a
projection, whatever groups the layout has. -/
theorem start_projection (lib : Library) (s : adaptor) (args : List ℚ) (r : Started)
    (h : s.start lib args = .ok r) :
    ∃ (p : Prepared) (d : Descent),
      s.startPrepare lib = .ok p ∧ r.layout._descent = some d ∧
      (s._directedLinkConstraints = none → p.curConstraints = s._constraints.orEmpty) ∧
      (∀ c : DirectedLinkConstraints, s._directedLinkConstraints = some c →
        ∃ (acc : LinkAccessor) (cs : List Val),
          lib.generateDirectedEdgeConstraints p.layout._nodes.length p.links c.axis acc =
            .ok cs ∧
          p.curConstraints = s._constraints.orEmpty ++ cs) ∧
      (d.project.isSome = true ↔ (p.curConstraints ≠ [] ∨ s._avoidOverlaps.truthy = true)) ∧
      (∀ P : Projection, d.project = some P →
        P.groups = s._groups ∧ P.constraints = p.curConstraints ∧
        P.avoidOverlaps = s._avoidOverlaps.truthy) ∧
      (p.curConstraints = [] → s._avoidOverlaps.truthy = false →
        ∀ c ∈ r.runs, c.1.project = none) := by
  obtain ⟨p, hp, rfl⟩ := (adaptor.start_eq_ok lib s args r).1 h
  obtain ⟨hao, -, -, -, hg, -⟩ := adaptor.startPrepare_settings lib s p hp
  obtain ⟨hc1, hc2⟩ := adaptor.startPrepare_constraints lib s p hp
  obtain ⟨d, hd, hproj⟩ := adaptor.startFinish_project lib p (adaptor.startIterate lib p args)
  obtain ⟨h1, h2, h3⟩ := adaptor.startIterate_project lib p args
  have hlen : 0 < p.curConstraints.length ↔ p.curConstraints ≠ [] := List.length_pos
  rw [hao] at h1 h2 h3
  refine ⟨p, d, hp, hd, hc1, hc2, ?_, ?_, ?_⟩
  · rw [hproj]
    by_cases ht : s._avoidOverlaps.truthy = true
    · obtain ⟨ns, hns⟩ := h1 ht
      simp [hns, ht]
    · have ht' : s._avoidOverlaps.truthy = false := Bool.eq_false_iff.2 ht
      by_cases hc : 0 < p.curConstraints.length
      · obtain ⟨ns, hns⟩ := h2 ht' hc
        simp [hns, hlen.1 hc]
      · have hnil : p.curConstraints = [] := by
          by_contra hne
          exact hc (hlen.2 hne)
        simp [h3 ht' hc, ht', hnil]
  · intro P hP
    rw [hproj] at hP
    by_cases ht : s._avoidOverlaps.truthy = true
    · obtain ⟨ns, hns⟩ := h1 ht
      rw [hns] at hP
      cases hP
      exact ⟨hg, rfl, ht.symm⟩
    · have ht' : s._avoidOverlaps.truthy = false := Bool.eq_false_iff.2 ht
      by_cases hc : 0 < p.curConstraints.length
      · obtain ⟨ns, hns⟩ := h2 ht' hc
        rw [hns] at hP
        cases hP
        exact ⟨hg, rfl, ht'.symm⟩
      · rw [h3 ht' hc] at hP
        cases hP
  · intro hnil ht
    exact adaptor.startIterate_unprojected lib p args hnil (by rw [hao]; exact ht)

/-- C28 at a concrete input: `start(1, 1, 1)` on a layout of one group, with
no constraint and `avoidOverlaps` off, makes its three runs without
projection. -/
theorem start_projection_witness :
    ∃ r : Started, groupedLayout.start sampleLibrary [1, 1, 1] = .ok r ∧
      groupedLayout._groups.length = 1 ∧
      r.runs.length = 3 ∧
      ∀ c ∈ r.runs, c.1.project = none := by
  have h : ∃ r, groupedLayout.start sampleLibrary [1, 1, 1] = .ok r := ⟨_, rfl⟩
  obtain ⟨r, hr⟩ := h
  obtain ⟨p, d, hp, -, hc, -, -, -, hrun⟩ :=
    start_projection sampleLibrary groupedLayout [1, 1, 1] r hr
  refine ⟨r, hr, rfl, ?_, hrun (hc rfl) rfl⟩
  obtain ⟨p', -, rfl⟩ := (adaptor.start_eq_ok _ _ _ r).1 hr
  rfl

/-! ## A distance matrix together with groups -/

/-- The method `groups(x)`, when it returns, leaves a root group that lists its
groups. -/
theorem adaptor.groups_hasRootGroups (s s' : adaptor) (x : List Group) (ret : Ret (List Group))
    (h : s.groups (some x) = .ok (s', ret)) : s'.hasRootGroups = true := by
  simp only [adaptor.groups] at h
  split at h
  · cases h
  · cases h
    rfl

/-- C29: on a layout that has a distance matrix of the user's and at least one
group (set with `groups(x)`, so that the root group lists its groups),
`start()` raises an error and makes no run of the descent engine: with a
distance matrix the weights `G` are left `null`, and the loop over the groups
raises a TypeError at its first group when it writes `G`. -/
theorem start_matrix_with_groups_raises (lib : Library) (s : adaptor) (args : List ℚ)
    (M : List (List ℚ)) (hM : s._distanceMatrix = .val M) (hg : s._groups ≠ [])
    (hr : s.hasRootGroups = true) :
    (∃ e : JSError, s.start lib args = .error e) ∧
    (∀ (nodes : List Node) (N : Nat) (links : List Link),
      ∃ distances : List (List Val),
        adaptor.startDistances lib s nodes N links = .ok (distances, none)) ∧
    (∀ (i : Nat) (D : List (List Val)) (x y : List Val),
      adaptor.startGroups s._groups i { G := none, D := D, x := x, y := y } =
        .error .typeError) := by
  refine ⟨?_, ?_, ?_⟩
  · cases hs : s.start lib args with
    | error e => exact ⟨e, rfl⟩
    | ok r =>
      exfalso
      obtain ⟨p, hp, -⟩ := (adaptor.start_eq_ok lib s args r).1 hs
      obtain ⟨s0, links0, dg, D, gv, cur, hf, -, -, hd, -, hgv, -, -⟩ :=
        adaptor.startPrepare_ok lib s p hp
      have hM0 : s0._distanceMatrix = .val M := by rw [hf]; exact hM
      have hg0 : s0._groups = s._groups := by rw [hf]
      have hr0 : s0.hasRootGroups = true := by rw [hf]; exact hr
      rw [adaptor.startDistances_of_matrix lib s0 _ _ _ M hM0] at hd
      cases hd
      rw [hr0, if_pos rfl] at hgv
      exact hg (hg0 ▸ (adaptor.startGroups_of_null _ _ _ _ rfl hgv).1)
  · intro nodes N links
    exact ⟨_, adaptor.startDistances_of_matrix lib s nodes N links M hM⟩
  · intro i D x y
    cases hgs : s._groups with
    | nil => exact absurd hgs hg
    | cons g rest => rfl

/-- C29 at a concrete input: the layout of one group, given a distance
matrix. -/
theorem start_matrix_with_groups_raises_witness :
    groupedMatrixLayout._distanceMatrix = .val [[0, 1], [1, 0]] ∧
    groupedMatrixLayout._groups.length = 1 ∧
    groupedMatrixLayout.start sampleLibrary [] = .error .typeError ∧
    ∃ e : JSError, groupedMatrixLayout.start sampleLibrary [] = .error e :=
  ⟨rfl, rfl, rfl,
   (start_matrix_with_groups_raises sampleLibrary groupedMatrixLayout [] [[0, 1], [1, 0]] rfl
      (by simp [groupedMatrixLayout, groupedLayout]) rfl).1⟩

/-! ## The variables of the groups -/

/-- A matrix made by `createSquareMatrix` is square. -/
theorem createSquareMatrix_isSquare (N : Nat) (f : Nat → Nat → Val) :
    IsSquare N (createSquareMatrix N f) := by
  constructor
  · simp [createSquareMatrix]
  · intro row hrow
    simp only [createSquareMatrix, List.mem_map] at hrow
    obtain ⟨i, -, rfl⟩ := hrow
    simp

/-- An assignment to an entry keeps a matrix square. -/
theorem matrixSet_isSquare (N : Nat) (M : List (List Val)) (i j : Nat) (v : Val)
    (h : IsSquare N M) : IsSquare N (matrixSet M i j v) := by
  constructor
  · simp [matrixSet, h.1]
  · intro row hrow
    obtain ⟨k, hk, hget⟩ := List.getElem_of_mem hrow
    have hget' : (matrixSet M i j v)[k]? = some row := by
      rw [List.getElem?_eq_getElem hk, hget]
    simp only [matrixSet, List.getElem?_modify] at hget'
    cases hM : M[k]? with
    | none => simp [hM] at hget'
    | some row0 =>
      have hrow0 : row0.length = N := h.2 row0 (List.getElem?_mem hM)
      simp only [hM, Option.map_eq_map, Option.map_some', Option.some.injEq] at hget'
      rw [← hget']
      split
      · simp [hrow0]
      · exact hrow0

/-- The entry of a square matrix just assigned. -/
theorem matrixEntry_matrixSet_eq (N : Nat) (M : List (List Val)) (i j : Nat) (v : Val)
    (h : IsSquare N M) (hi : i < N) (hj : j < N) : matrixEntry (matrixSet M i j v) i j = v := by
  have hi' : i < M.length := by rw [h.1]; exact hi
  have hrow : (M[i]).length = N := h.2 _ (List.getElem_mem hi')
  simp [matrixEntry, matrixSet, List.getD_eq_getElem?_getD, List.getElem?_modify,
    List.getElem?_eq_getElem hi', List.getElem?_set, hrow, hj]

/-- The loop that marks the linked pairs keeps the weights square. -/
theorem adaptor.startWeights_isSquare (nodes : List Node) (N : Nat) (links : List Link)
    (G G' : List (List Val)) (h : adaptor.startWeights nodes N links G = .ok G')
    (hG : IsSquare N G) : IsSquare N G' := by
  induction links generalizing G with
  | nil =>
    simp only [adaptor.startWeights] at h
    cases h
    exact hG
  | cons e rest ih =>
    simp only [adaptor.startWeights] at h
    split at h
    · cases h
    · split at h
      · cases h
      · split at h
        · exact ih _ h (matrixSet_isSquare _ _ _ _ _ (matrixSet_isSquare _ _ _ _ _ hG))
        · cases h

/-- The loop over the groups, run from the variable `i` on matrices of `N`
rows and coordinate rows of `N` entries that have room for two variables for
each group: the matrices stay square and the rows as long; the variables
below `i` and the entries between them are kept; and the `k`-th group of the
loop has its two variables at the origin, with `0.1` in `D` and `1e-6` in `G`
between them, both ways. -/
theorem adaptor.startGroups_entries (gs : List Group) (i N : Nat) (V V' : GroupVariables)
    (h : adaptor.startGroups gs i V = .ok V') (hN : i + 2 * gs.length ≤ N)
    (hx : V.x.length = N) (hy : V.y.length = N) (hD : IsSquare N V.D)
    (hG : ∀ G, V.G = some G → IsSquare N G) :
    V'.x.length = N ∧ V'.y.length = N ∧ IsSquare N V'.D ∧
    (∀ G', V'.G = some G' → IsSquare N G') ∧
    (gs ≠ [] → ∃ G', V'.G = some G') ∧
    (∀ a b : Nat, a < i → b < i → ∀ G G', V.G = some G → V'.G = some G' →
      matrixEntry G' a b = matrixEntry G a b) ∧
    (∀ k : Nat, k < gs.length →
      V'.x[(groupVariables i k).1]? = some (.num 0) ∧
      V'.x[(groupVariables i k).2]? = some (.num 0) ∧
      V'.y[(groupVariables i k).1]? = some (.num 0) ∧
      V'.y[(groupVariables i k).2]? = some (.num 0) ∧
      matrixEntry V'.D (groupVariables i k).1 (groupVariables i k).2 = .num (1 / 10) ∧
      matrixEntry V'.D (groupVariables i k).2 (groupVariables i k).1 = .num (1 / 10) ∧
      ∃ G', V'.G = some G' ∧
        matrixEntry G' (groupVariables i k).1 (groupVariables i k).2 = .num (1 / 1000000) ∧
        matrixEntry G' (groupVariables i k).2 (groupVariables i k).1 = .num (1 / 1000000)) := by
  induction gs generalizing i V with
  | nil =>
    simp only [adaptor.startGroups] at h
    cases h
    refine ⟨hx, hy, hD, hG, fun hne => absurd rfl hne, ?_, ?_⟩
    · intro a b _ _ G G' e e'
      rw [e] at e'
      cases e'
      rfl
    · intro k hk
      simp at hk
  | cons g rest ih =>
    simp only [adaptor.startGroups] at h
    cases hVG : V.G with
    | none => simp [hVG] at h
    | some G0 =>
      simp only [hVG] at h
      simp only [List.length_cons] at hN
      have hG0 : IsSquare N G0 := hG G0 hVG
      have hi0 : i < N := by omega
      have hi1 : i + 1 < N := by omega
      have hG1 : IsSquare N (matrixSet (matrixSet G0 (i + 1) i (.num (1 / 1000000))) i (i + 1)
          (.num (1 / 1000000))) :=
        matrixSet_isSquare _ _ _ _ _ (matrixSet_isSquare _ _ _ _ _ hG0)
      have hD1 : IsSquare N (matrixSet (matrixSet V.D (i + 1) i (.num (1 / 10))) i (i + 1)
          (.num (1 / 10))) :=
        matrixSet_isSquare _ _ _ _ _ (matrixSet_isSquare _ _ _ _ _ hD)
      obtain ⟨hx', hy', hD', hG', -, hframe, hent⟩ := ih (i + 2) _ h (by omega)
        (by simp [hx]) (by simp [hy]) hD1
        (by intro G e; cases e; exact hG1)
      obtain ⟨hcx, hcy⟩ := adaptor.startGroups_coordinates rest (i + 2) _ V' h i (by omega)
      obtain ⟨hcx1, hcy1⟩ := adaptor.startGroups_coordinates rest (i + 2) _ V' h (i + 1) (by omega)
      have hnp : ∀ a b : Nat, a < i + 2 → b < i + 2 → ¬ groupPair (i + 2) rest.length a b := by
        rintro a b ha hb ⟨k, -, hk⟩
        omega
      have hGsome : ∃ G', V'.G = some G' := by
        cases hrest : rest with
        | nil =>
          rw [hrest] at h
          simp only [adaptor.startGroups] at h
          cases h
          exact ⟨_, rfl⟩
        | cons g' rest' =>
          obtain ⟨-, -, -, -, hs, -⟩ := ih (i + 2) _ h (by omega)
            (by simp [hx]) (by simp [hy]) hD1 (by intro G e; cases e; exact hG1)
          exact hs (by rw [hrest]; exact List.cons_ne_nil _ _)
      obtain ⟨G', hG'eq⟩ := hGsome
      refine ⟨hx', hy', hD', hG', fun _ => ⟨G', hG'eq⟩, ?_, ?_⟩
      · intro a b ha hb G G'' e e'
        cases e
        rw [hframe a b (by omega) (by omega) _ G'' rfl e']
        rw [matrixEntry_matrixSet_ne _ _ _ _ _ _ (by omega),
          matrixEntry_matrixSet_ne _ _ _ _ _ _ (by omega)]
      · intro k hk
        cases k with
        | zero =>
          simp only [groupVariables, Nat.mul_zero, Nat.add_zero]
          refine ⟨?_, ?_, ?_, ?_, ?_, ?_, G', hG'eq, ?_, ?_⟩
          · rw [hcx]
            simp [List.getElem?_set, hx, hi0, hi1]
          · rw [hcx1]
            simp [List.getElem?_set, hx, hi0, hi1]
          · rw [hcy]
            simp [List.getElem?_set, hy, hi0, hi1]
          · rw [hcy1]
            simp [List.getElem?_set, hy, hi0, hi1]
          · rw [adaptor.startGroups_D rest (i + 2) _ V' h i (i + 1) (hnp _ _ (by omega) (by omega))]
            exact matrixEntry_matrixSet_eq N _ _ _ _ (matrixSet_isSquare _ _ _ _ _ hD) hi0 hi1
          · rw [adaptor.startGroups_D rest (i + 2) _ V' h (i + 1) i (hnp _ _ (by omega) (by omega))]
            simp only
            rw [matrixEntry_matrixSet_ne _ _ _ _ _ _ (by omega)]
            exact matrixEntry_matrixSet_eq N _ _ _ _ hD hi1 hi0
          · rw [hframe i (i + 1) (by omega) (by omega) _ G' rfl hG'eq]
            exact matrixEntry_matrixSet_eq N _ _ _ _ (matrixSet_isSquare _ _ _ _ _ hG0) hi0 hi1
          · rw [hframe (i + 1) i (by omega) (by omega) _ G' rfl hG'eq]
            rw [matrixEntry_matrixSet_ne _ _ _ _ _ _ (by omega)]
            exact matrixEntry_matrixSet_eq N _ _ _ _ hG0 hi1 hi0
        | succ k =>
          have hk' : k < rest.length := by simpa using hk
          have e : groupVariables i (k + 1) = groupVariables (i + 2) k := by
            simp only [groupVariables, Prod.mk.injEq]
            constructor <;> ring
          rw [e]
          exact hent k hk'

/-- The weights that `start` works from are square. -/
theorem adaptor.startDistances_isSquare (lib : Library) (s : adaptor) (nodes : List Node)
    (N : Nat) (links : List Link) (dg : List (List Val) × Option (List (List Val)))
    (h : adaptor.startDistances lib s nodes N links = .ok dg) :
    ∀ G, dg.2 = some G → IsSquare N G := by
  intro G hG
  unfold adaptor.startDistances at h
  split at h
  · cases h
    cases hG
  · split at h
    · cases h
    · split at h
      · cases h
      · rename_i G0 hG0
        cases h
        cases hG
        exact adaptor.startWeights_isSquare _ _ _ _ _ hG0 (createSquareMatrix_isSquare _ _)

/-- The runs of `start`: the first on the coordinates and the matrix `D` of
the preparation, the third with its weights `G`. -/
theorem adaptor.startIterate_runs (lib : Library) (p : Prepared) (args : List ℚ) :
    ∃ d0 d1 d2 : Descent,
      (adaptor.startIterate lib p args).runs =
        [(d0, args.getD 0 0), (d1, args.getD 1 0), (d2, args.getD 2 0)] ∧
      d0.x = (p.x, p.y) ∧ d0.D = p.D ∧ d0.G = none ∧ d1.G = none ∧ d2.G = p.G := by
  by_cases hc : 0 < p.curConstraints.length <;> by_cases ht : p.ao.truthy = true <;>
    simp only [adaptor.startIterate, argument_default, hc, ht, if_true, if_false] <;>
    exact ⟨_, _, _, rfl, rfl, rfl, rfl, rfl, rfl⟩

/-- C24: a `start()` that returns on a layout of `n` nodes and `g` groups (set
with `groups(x)`, so that the root group lists its groups) has laid out
`N = n + 2g` descent variables: the coordinate rows of the first run have `N`
entries and the matrix `D` is `N` by `N`.  The `k`-th group has the variables
`n + 2k` and `n + 2k + 1`: both start at `(0, 0)`, `D` is `0.1` between them
both ways, and the weights `G` handed to the third run are `N` by `N` and
`1e-6` between them both ways.  Two groups share no variable. -/
theorem start_group_variables (lib : Library) (s : adaptor) (args : List ℚ) (r : Started)
    (h : s.start lib args = .ok r) (hr : s.hasRootGroups = true) :
    ∃ (p : Prepared) (d0 d1 d2 : Descent),
      s.startPrepare lib = .ok p ∧
      r.runs = [(d0, args.getD 0 0), (d1, args.getD 1 0), (d2, args.getD 2 0)] ∧
      p.layout.variableCount = p.layout._nodes.length + 2 * s._groups.length ∧
      d0.x.1.length = p.layout.variableCount ∧
      d0.x.2.length = p.layout.variableCount ∧
      IsSquare p.layout.variableCount d0.D ∧
      (∀ k : Nat, k < s._groups.length →
        d0.x.1[(groupVariables p.layout._nodes.length k).1]? = some (.num 0) ∧
        d0.x.1[(groupVariables p.layout._nodes.length k).2]? = some (.num 0) ∧
        d0.x.2[(groupVariables p.layout._nodes.length k).1]? = some (.num 0) ∧
        d0.x.2[(groupVariables p.layout._nodes.length k).2]? = some (.num 0) ∧
        matrixEntry d0.D (groupVariables p.layout._nodes.length k).1
          (groupVariables p.layout._nodes.length k).2 = .num (1 / 10) ∧
        matrixEntry d0.D (groupVariables p.layout._nodes.length k).2
          (groupVariables p.layout._nodes.length k).1 = .num (1 / 10) ∧
        ∃ G : List (List Val), d2.G = some G ∧ IsSquare p.layout.variableCount G ∧
          matrixEntry G (groupVariables p.layout._nodes.length k).1
            (groupVariables p.layout._nodes.length k).2 = .num (1 / 1000000) ∧
          matrixEntry G (groupVariables p.layout._nodes.length k).2
            (groupVariables p.layout._nodes.length k).1 = .num (1 / 1000000)) ∧
      (∀ (n k k' : Nat), k ≠ k' →
        (groupVariables n k).1 ≠ (groupVariables n k').1 ∧
        (groupVariables n k).1 ≠ (groupVariables n k').2 ∧
        (groupVariables n k).2 ≠ (groupVariables n k').1 ∧
        (groupVariables n k).2 ≠ (groupVariables n k').2) := by
  obtain ⟨p, hp, rfl⟩ := (adaptor.start_eq_ok lib s args r).1 h
  obtain ⟨d0, d1, d2, hruns, hx0, hD0, -, -, hG2⟩ := adaptor.startIterate_runs lib p args
  obtain ⟨s0, links0, dg, D, gv, cur, hf, -, -, hd, hD, hgv, -, hpeq⟩ :=
    adaptor.startPrepare_ok lib s p hp
  have hg : s0._groups = s._groups := by rw [hf]
  have hr0 : s0.hasRootGroups = true := by rw [hf]; exact hr
  have hlen : s0.placedNodes.length = s0._nodes.length := mapAt_length _ _ _
  have hpn : p.layout._nodes.length = s0._nodes.length := by rw [hpeq]; exact hlen
  have hpv : p.layout.variableCount = s0.variableCount := by
    rw [hpeq]
    simp only [adaptor.variableCount, hlen]
  have hpx : p.x = gv.x := by rw [hpeq]
  have hpy : p.y = gv.y := by rw [hpeq]
  have hpD : p.D = gv.D := by rw [hpeq]
  have hpG : p.G = gv.G := by rw [hpeq]
  rw [hr0, if_pos rfl] at hgv
  have hDsq : IsSquare s0.variableCount D := by
    rw [adaptor.startIdealDistances_ok _ _ _ hD]
    exact createSquareMatrix_isSquare _ _
  obtain ⟨hx', hy', hD', hG', -, -, hent⟩ :=
    adaptor.startGroups_entries s0._groups s0._nodes.length s0.variableCount _ gv hgv
      (le_of_eq rfl)
      (by simp [hlen, adaptor.variableCount])
      (by simp [hlen, adaptor.variableCount])
      hDsq (adaptor.startDistances_isSquare lib s0 _ _ _ dg hd)
  refine ⟨p, d0, d1, d2, hp, hruns, ?_, ?_, ?_, ?_, ?_, ?_⟩
  · rw [hpv, hpn, ← hg]
    rfl
  · rw [hx0, hpv, hpx]
    exact hx'
  · rw [hx0, hpv, hpy]
    exact hy'
  · rw [hD0, hpv, hpD]
    exact hD'
  · intro k hk
    rw [← hg] at hk
    obtain ⟨e1, e2, e3, e4, e5, e6, G, eG, e7, e8⟩ := hent k hk
    rw [hx0, hD0, hG2, hpn, hpv, hpx, hpy, hpD, hpG]
    exact ⟨e1, e2, e3, e4, e5, e6, G, eG, hG' G eG, e7, e8⟩
  · intro n k k' hkk
    simp only [groupVariables]
    omega

/-- C24 at a concrete input: `start()` on the layout of one group and no
node, which has the two variables 0 and 1. -/
theorem start_group_variables_witness :
    ∃ (r : Started) (p : Prepared) (d0 d1 d2 : Descent),
      groupedLayout.start sampleLibrary [] = .ok r ∧
      groupedLayout.hasRootGroups = true ∧
      groupedLayout.startPrepare sampleLibrary = .ok p ∧
      r.runs = [(d0, 0), (d1, 0), (d2, 0)] ∧
      p.layout.variableCount = p.layout._nodes.length + 2 * groupedLayout._groups.length ∧
      d0.x.1.length = p.layout.variableCount ∧
      d0.x.2.length = p.layout.variableCount ∧
      IsSquare p.layout.variableCount d0.D ∧
      (∀ k : Nat, k < groupedLayout._groups.length →
        d0.x.1[(groupVariables p.layout._nodes.length k).1]? = some (.num 0) ∧
        d0.x.1[(groupVariables p.layout._nodes.length k).2]? = some (.num 0) ∧
        d0.x.2[(groupVariables p.layout._nodes.length k).1]? = some (.num 0) ∧
        d0.x.2[(groupVariables p.layout._nodes.length k).2]? = some (.num 0) ∧
        matrixEntry d0.D (groupVariables p.layout._nodes.length k).1
          (groupVariables p.layout._nodes.length k).2 = .num (1 / 10) ∧
        matrixEntry d0.D (groupVariables p.layout._nodes.length k).2
          (groupVariables p.layout._nodes.length k).1 = .num (1 / 10) ∧
        ∃ G : List (List Val), d2.G = some G ∧ IsSquare p.layout.variableCount G ∧
          matrixEntry G (groupVariables p.layout._nodes.length k).1
            (groupVariables p.layout._nodes.length k).2 = .num (1 / 1000000) ∧
          matrixEntry G (groupVariables p.layout._nodes.length k).2
            (groupVariables p.layout._nodes.length k).1 = .num (1 / 1000000)) := by
  have h : ∃ r, groupedLayout.start sampleLibrary [] = .ok r := ⟨_, rfl⟩
  obtain ⟨r, hr⟩ := h
  obtain ⟨p, d0, d1, d2, hp, hruns, h1, h2, h3, h4, h5, -⟩ :=
    start_group_variables sampleLibrary groupedLayout [] r hr rfl
  exact ⟨r, p, d0, d1, d2, hr, rfl, hp, by simpa using hruns, h1, h2, h3, h4, h5⟩

/-! ## The interaction handlers -/

/-- The conversion `ToInt32` of an integer. -/
theorem toInt32_intCast (z : Int) :
    cola.toInt32 (z : ℚ) = (z + 2 ^ 31) % 2 ^ 32 - 2 ^ 31 := by
  simp [cola.toInt32, Int.tdiv_one]

/-- The bit pattern of the 32-bit reading of an integer. -/
theorem bits32_toInt32 (z : Int) : bits32 (cola.toInt32 (z : ℚ)) = bits32 z := by
  rw [toInt32_intCast]
  unfold bits32
  omega

/-- A bit pattern is below `2^32`. -/
theorem bits32_lt (z : Int) : bits32 z < 2 ^ 32 := by
  unfold bits32
  omega

/-- The 32-bit integer of the bit pattern of an integer is its 32-bit
reading. -/
theorem ofBits32_bits32 (z : Int) : ofBits32 (bits32 z) = cola.toInt32 (z : ℚ) := by
  rw [toInt32_intCast]
  unfold ofBits32 bits32
  split <;> omega

/-- The bit pattern of the 32-bit integer of a bit pattern. -/
theorem bits32_ofBits32 (b : Nat) (h : b < 2 ^ 32) : bits32 (ofBits32 b) = b := by
  unfold ofBits32 bits32
  split <;> omega

/-- Bit 0 of an integer is bit 0 of its bit pattern. -/
theorem bitOf_zero_bits32 (z : Int) : bitOf z 0 = decide (bits32 z % 2 = 1) := by
  unfold bitOf bits32
  simp only [pow_zero, Int.ediv_one]
  congr 1
  apply propext
  constructor <;> intro h <;> omega

/-- Bit 0 of the 32-bit integer of a bit pattern. -/
theorem bitOf_zero_ofBits32 (b : Nat) : bitOf (ofBits32 b) 0 = decide (b % 2 = 1) := by
  unfold bitOf ofBits32
  simp only [pow_zero, Int.ediv_one]
  congr 1
  apply propext
  split <;> constructor <;> intro h <;> omega

/-- The operator `|` with an even number keeps bit 0. -/
theorem lor_even_mod_two (a m : Nat) (hm : m % 2 = 0) : (a ||| m) % 2 = a % 2 := by
  have h := @Nat.or_mod_two_eq_one a m
  rcases Nat.mod_two_eq_zero_or_one (a ||| m) with h1 | h1 <;>
    rcases Nat.mod_two_eq_zero_or_one a with h2 | h2 <;> omega

/-- The operator `&` with an odd number keeps bit 0. -/
theorem land_odd_mod_two (a m : Nat) (hm : m % 2 = 1) : (a &&& m) % 2 = a % 2 := by
  have h := @Nat.and_mod_two_eq_one a m
  rcases Nat.mod_two_eq_zero_or_one (a &&& m) with h1 | h1 <;>
    rcases Nat.mod_two_eq_zero_or_one a with h2 | h2 <;> omega

/-- The bits of the pattern of `~m` for a number `m` below `2^32`. -/
theorem testBit_not32 (m : Nat) (hm : m < 2 ^ 32) (i : Nat) :
    (2 ^ 32 - 1 - m).testBit i = (decide (i < 32) && !m.testBit i) := by
  have e : 2 ^ 32 - 1 - m = 2 ^ 32 - (m + 1) := by omega
  rw [e]
  exact Nat.testBit_two_pow_sub_succ hm i

/-- Setting then clearing bits that were clear gives back the pattern: with
`m` the bits set and `c` the bits cleared, `m` among them. -/
theorem lor_land_not32 (b m c : Nat) (hb : b < 2 ^ 32) (hc : c < 2 ^ 32)
    (hmc : ∀ i, m.testBit i = true → c.testBit i = true)
    (hclear : ∀ i, c.testBit i = true → b.testBit i = false) :
    (b ||| m) &&& (2 ^ 32 - 1 - c) = b := by
  apply Nat.eq_of_testBit_eq
  intro i
  rw [Nat.testBit_and, Nat.testBit_or, testBit_not32 c hc]
  by_cases hi : i < 32
  · cases hci : c.testBit i
    · have hmi : m.testBit i = false := by
        cases hm : m.testBit i
        · rfl
        · rw [hmc i hm] at hci
          cases hci
      simp [hmi, hi]
    · simp [hclear i hci]
  · have hbi : b.testBit i = false :=
      Nat.testBit_lt_two_pow (lt_of_lt_of_le hb (Nat.pow_le_pow_right (by norm_num) (by omega)))
    simp [hi, hbi]

/-- The bits of 2, of 4 and of 6. -/
theorem testBit_two_four_six (i : Nat) :
    Nat.testBit 2 i = decide (i = 1) ∧ Nat.testBit 4 i = decide (i = 2) ∧
    Nat.testBit 6 i = decide (i = 1 ∨ i = 2) := by
  have h2 : Nat.testBit 2 i = decide (i = 1) := by
    have := @Nat.testBit_two_pow 1 i
    simp only [pow_one] at this
    rw [this]
    by_cases h : i = 1 <;> simp [h, eq_comm]
  have h4 : Nat.testBit 4 i = decide (i = 2) := by
    have := @Nat.testBit_two_pow 2 i
    have e : (2 : Nat) ^ 2 = 4 := by norm_num
    rw [e] at this
    rw [this]
    by_cases h : i = 2 <;> simp [h, eq_comm]
  refine ⟨h2, h4, ?_⟩
  have e : (6 : Nat) = 2 ||| 4 := by decide
  rw [e, Nat.testBit_or, h2, h4]
  by_cases h1 : i = 1 <;> by_cases h2' : i = 2 <;> simp [h1, h2']

/-- The bits 1 and 2 of an integer are those of its bit pattern. -/
theorem bitOf_bits32 (z : Int) :
    bitOf z 1 = (bits32 z).testBit 1 ∧ bitOf z 2 = (bits32 z).testBit 2 := by
  rw [Nat.testBit_to_div_mod, Nat.testBit_to_div_mod]
  unfold bitOf bits32
  constructor
  · congr 1
    apply propext
    norm_num
    constructor <;> intro h <;> omega
  · congr 1
    apply propext
    norm_num
    constructor <;> intro h <;> omega

/-- The flag that each handler leaves on a node whose flag is the integer
`z`, from the bit pattern of `z`. -/
theorem handlers_fixed (text : Val → Option ℚ) (d : Node) (z : Int) (hz : d.fixed = .num z) :
    (colaDragstart text d).fixed = .num (ofBits32 (bits32 z ||| 2)) ∧
    (colaDragend text d).fixed = .num (ofBits32 (bits32 z &&& (2 ^ 32 - 1 - 6))) ∧
    (colaMouseover text d).fixed = .num (ofBits32 (bits32 z ||| 4)) ∧
    (colaMouseout text d).fixed = .num (ofBits32 (bits32 z &&& (2 ^ 32 - 1 - 4))) := by
  have h2 : bits32 2 = 2 := by decide
  have h4 : bits32 4 = 4 := by decide
  have h6 : bits32 (bitNot32 6) = 2 ^ 32 - 1 - 6 := by decide
  have h5 : bits32 (bitNot32 4) = 2 ^ 32 - 1 - 4 := by decide
  have hv : d.fixed.toInt32 text = cola.toInt32 (z : ℚ) := by rw [hz]; rfl
  simp only [colaDragstart, colaDragend, colaMouseover, colaMouseout, bitOr32, bitAnd32, hv,
    bits32_toInt32, h2, h4, h6, h5, and_self]

/-- A pattern with a bit set is the pattern of a number other than 0. -/
theorem ofBits32_ne_zero (b : Nat) (k : Nat) (hb : b < 2 ^ 32) (hk : b.testBit k = true) :
    ofBits32 b ≠ 0 := by
  have hb0 : b ≠ 0 := by
    intro e
    rw [e, Nat.zero_testBit] at hk
    cases hk
  unfold ofBits32
  split <;> omega

/-- C25, amended: on a node whose flag `fixed` is an integer `z`, each of the
four handlers leaves an integer flag with the bit 0 of `z`; `colaDragstart`
and `colaMouseover` leave a flag other than 0 and set `(px, py)` to `(x, y)`;
and when the bits 1 and 2 of `z` are clear, `colaDragstart` followed by
`colaDragend`, and `colaMouseover` followed by `colaMouseout`, leave the
32-bit reading of `z`, which is `z` itself when `-2^31 ≤ z < 2^31`. -/
theorem drag_handlers_fixed (text : Val → Option ℚ) (d : Node) (z : Int)
    (hz : d.fixed = .num z) :
    (∃ a b c e : Int,
      (colaDragstart text d).fixed = .num a ∧ (colaDragend text d).fixed = .num b ∧
      (colaMouseover text d).fixed = .num c ∧ (colaMouseout text d).fixed = .num e ∧
      bitOf a 0 = bitOf z 0 ∧ bitOf b 0 = bitOf z 0 ∧
      bitOf c 0 = bitOf z 0 ∧ bitOf e 0 = bitOf z 0 ∧
      a ≠ 0 ∧ c ≠ 0) ∧
    (colaDragstart text d).px = d.x ∧ (colaDragstart text d).py = d.y ∧
    (colaMouseover text d).px = d.x ∧ (colaMouseover text d).py = d.y ∧
    (bitOf z 1 = false → bitOf z 2 = false →
      (colaDragend text (colaDragstart text d)).fixed = .num (cola.toInt32 (z : ℚ)) ∧
      (colaMouseout text (colaMouseover text d)).fixed = .num (cola.toInt32 (z : ℚ))) ∧
    (-2 ^ 31 ≤ z → z < 2 ^ 31 → cola.toInt32 (z : ℚ) = z) := by
  obtain ⟨h1, h2, h3, h4⟩ := handlers_fixed text d z hz
  have hb := bits32_lt z
  have t := testBit_two_four_six
  refine ⟨⟨_, _, _, _, h1, h2, h3, h4, ?_, ?_, ?_, ?_, ?_, ?_⟩, rfl, rfl, rfl, rfl, ?_, ?_⟩
  · rw [bitOf_zero_ofBits32, bitOf_zero_bits32, lor_even_mod_two _ _ (by norm_num)]
  · rw [bitOf_zero_ofBits32, bitOf_zero_bits32, land_odd_mod_two _ _ (by norm_num)]
  · rw [bitOf_zero_ofBits32, bitOf_zero_bits32, lor_even_mod_two _ _ (by norm_num)]
  · rw [bitOf_zero_ofBits32, bitOf_zero_bits32, land_odd_mod_two _ _ (by norm_num)]
  · refine ofBits32_ne_zero _ 1 (Nat.or_lt_two_pow hb (by norm_num)) ?_
    rw [Nat.testBit_or, (t 1).1]
    simp
  · refine ofBits32_ne_zero _ 2 (Nat.or_lt_two_pow hb (by norm_num)) ?_
    rw [Nat.testBit_or, (t 2).2.1]
    simp
  · intro hb1 hb2
    rw [(bitOf_bits32 z).1] at hb1
    rw [(bitOf_bits32 z).2] at hb2
    constructor
    · rw [(handlers_fixed text _ _ h1).2.1,
        bits32_ofBits32 _ (Nat.or_lt_two_pow hb (by norm_num)),
        lor_land_not32 _ 2 6 hb (by norm_num), ofBits32_bits32]
      · intro i hi
        rw [(t i).1, decide_eq_true_eq] at hi
        rw [(t i).2.2, decide_eq_true_eq]
        exact Or.inl hi
      · intro i hi
        rw [(t i).2.2, decide_eq_true_eq] at hi
        rcases hi with rfl | rfl
        · exact hb1
        · exact hb2
    · rw [(handlers_fixed text _ _ h3).2.2.2,
        bits32_ofBits32 _ (Nat.or_lt_two_pow hb (by norm_num)),
        lor_land_not32 _ 4 4 hb (by norm_num), ofBits32_bits32]
      · intro i hi
        exact hi
      · intro i hi
        rw [(t i).2.1, decide_eq_true_eq] at hi
        rw [hi]
        exact hb2
  · intro hlo hhi
    rw [toInt32_intCast]
    omega

/-- C25, amended, at a concrete input: a node whose flag `fixed` is 1. -/
theorem drag_handlers_fixed_witness :
    markedNode.fixed = .num ((1 : Int) : ℚ) ∧
    (bitOf 1 1 = false → bitOf 1 2 = false →
      (colaDragend noText (colaDragstart noText markedNode)).fixed =
        .num (cola.toInt32 ((1 : Int) : ℚ)) ∧
      (colaMouseout noText (colaMouseover noText markedNode)).fixed =
        .num (cola.toInt32 ((1 : Int) : ℚ))) ∧
    (-2 ^ 31 ≤ (1 : Int) → (1 : Int) < 2 ^ 31 → cola.toInt32 ((1 : Int) : ℚ) = 1) :=
  ⟨by simp [markedNode],
   (drag_handlers_fixed noText markedNode 1 (by simp [markedNode])).2.2.2.2.2⟩

/-- C25, as stated, fails: on a node whose flag `fixed` is `2^32`, an integer
whose bits 1 and 2 are clear, `colaDragstart` followed by `colaDragend`
leaves the flag 0, and so does `colaMouseover` followed by `colaMouseout`. -/
theorem drag_round_trip_loses_wide_flag :
    wideNode.fixed = .num ((4294967296 : Int) : ℚ) ∧
    bitOf 4294967296 1 = false ∧ bitOf 4294967296 2 = false ∧
    (colaDragend noText (colaDragstart noText wideNode)).fixed = .num ((0 : Int) : ℚ) ∧
    (colaMouseout noText (colaMouseover noText wideNode)).fixed = .num ((0 : Int) : ℚ) ∧
    Val.num ((0 : Int) : ℚ) ≠ wideNode.fixed := by
  have hw : wideNode.fixed = .num ((4294967296 : Int) : ℚ) := by simp [wideNode]
  obtain ⟨h1, -, h3, -⟩ := handlers_fixed noText wideNode 4294967296 hw
  refine ⟨hw, by decide, by decide, ?_, ?_, ?_⟩
  · rw [(handlers_fixed noText _ _ h1).2.1]
    have e : ofBits32 (bits32 (ofBits32 (bits32 4294967296 ||| 2)) &&& (2 ^ 32 - 1 - 6)) = 0 := by
      decide
    rw [e]
  · rw [(handlers_fixed noText _ _ h3).2.2.2]
    have e : ofBits32 (bits32 (ofBits32 (bits32 4294967296 ||| 4)) &&& (2 ^ 32 - 1 - 4)) = 0 := by
      decide
    rw [e]
  · rw [hw]
    intro h
    have := Val.num.inj h
    norm_num at this

/-! ## Groups: leaves, nested groups, parents and the root group -/

/-- The node or group that a natural number below the length denotes. -/
theorem resolveEndpoint_nat (n i : ℕ) (h : i < n) :
    resolveEndpoint n (.index (i : ℚ)) = .node i := by
  simp only [resolveEndpoint, arrayIndex_nat n i h]

/-- The loop over the leaves of the group `k`, when every leaf is an index of
the node list: every leaf is replaced by the node it denotes, a node listed
has the parent `k`, and every other node is as it was. -/
theorem adaptor.groupsLeaves_valid (k : Nat) (ls : List Endpoint) (ns : List Node)
    (h : ∀ e ∈ ls, ∃ i : ℕ, e = .index i ∧ i < ns.length) :
    ∃ ns' : List Node,
      adaptor.groupsLeaves k ls ns = .ok (ls.map (resolveEndpoint ns.length), ns') ∧
      ns'.length = ns.length ∧
      ∀ (j : ℕ) (v : Node), ns[j]? = some v →
        ∃ v' : Node, ns'[j]? = some v' ∧ v' = { v with parent := v'.parent } ∧
          (Endpoint.index (j : ℚ) ∈ ls → v'.parent = some k) ∧
          (Endpoint.index (j : ℚ) ∉ ls → v'.parent = v.parent) := by
  induction ls generalizing ns with
  | nil =>
    refine ⟨ns, rfl, rfl, ?_⟩
    intro j v hv
    exact ⟨v, hv, rfl, fun hmem => absurd hmem (List.not_mem_nil _), fun _ => rfl⟩
  | cons e rest ih =>
    obtain ⟨i, rfl, hi⟩ := h e (List.mem_cons_self e rest)
    have hlen : (ns.modify (fun o => { o with parent := some k }) i).length = ns.length :=
      List.length_modify _ _ _
    obtain ⟨ns', hrun, hlen', hpt⟩ := ih (ns.modify (fun o => { o with parent := some k }) i)
      (fun e' he' => by
        obtain ⟨i', hi', hlt⟩ := h e' (List.mem_cons_of_mem _ he')
        exact ⟨i', hi', by rw [hlen]; exact hlt⟩)
    refine ⟨ns', ?_, hlen'.trans hlen, ?_⟩
    · simp only [adaptor.groupsLeaves, arrayIndex_nat _ _ hi, hrun, hlen, List.map_cons,
        resolveEndpoint_nat _ _ hi]
    · intro j v hv
      have hmod : (ns.modify (fun o => { o with parent := some k }) i)[j]? =
          some (if i = j then { v with parent := some k } else v) := by
        rw [List.getElem?_modify, hv]
        by_cases hij : i = j <;> simp [hij]
      obtain ⟨v', hv', hsame, hin, hout⟩ := hpt j _ hmod
      refine ⟨v', hv', ?_, ?_, ?_⟩
      · rw [hsame]
        by_cases hij : i = j <;> simp [hij]
      · intro hmem
        by_cases hr : Endpoint.index (j : ℚ) ∈ rest
        · exact hin hr
        · rw [hout hr]
          have hij : i = j := by
            rcases List.mem_cons.1 hmem with e | e
            · exact_mod_cast (Endpoint.index.inj e).symm
            · exact absurd e hr
          simp [hij]
      · intro hmem
        have hr : Endpoint.index (j : ℚ) ∉ rest := fun e => hmem (List.mem_cons_of_mem _ e)
        have hij : ¬ i = j := by
          intro e
          apply hmem
          rw [e]
          exact List.mem_cons_self _ _
        rw [hout hr]
        simp [hij]

/-- The loop over the nested groups of the group `k`, when every entry is an
index of the list of groups: every entry is replaced by the group it denotes,
a group listed has the parent `k`, and every other group is as it was. -/
theorem adaptor.groupsNested_valid (k : Nat) (es : List Endpoint) (gs : List Group)
    (h : ∀ e ∈ es, ∃ i : ℕ, e = .index i ∧ i < gs.length) :
    ∃ gs' : List Group,
      adaptor.groupsNested k es gs = .ok (es.map (resolveEndpoint gs.length), gs') ∧
      gs'.length = gs.length ∧
      ∀ (j : ℕ) (g : Group), gs[j]? = some g →
        ∃ g' : Group, gs'[j]? = some g' ∧ g' = { g with parent := g'.parent } ∧
          (Endpoint.index (j : ℚ) ∈ es → g'.parent = some k) ∧
          (Endpoint.index (j : ℚ) ∉ es → g'.parent = g.parent) := by
  induction es generalizing gs with
  | nil =>
    refine ⟨gs, rfl, rfl, ?_⟩
    intro j g hg
    exact ⟨g, hg, rfl, fun hmem => absurd hmem (List.not_mem_nil _), fun _ => rfl⟩
  | cons e rest ih =>
    obtain ⟨i, rfl, hi⟩ := h e (List.mem_cons_self e rest)
    have hlen : (gs.modify (fun g => { g with parent := some k }) i).length = gs.length :=
      List.length_modify _ _ _
    obtain ⟨gs', hrun, hlen', hpt⟩ := ih (gs.modify (fun g => { g with parent := some k }) i)
      (fun e' he' => by
        obtain ⟨i', hi', hlt⟩ := h e' (List.mem_cons_of_mem _ he')
        exact ⟨i', hi', by rw [hlen]; exact hlt⟩)
    refine ⟨gs', ?_, hlen'.trans hlen, ?_⟩
    · simp only [adaptor.groupsNested, arrayIndex_nat _ _ hi, hrun, hlen, List.map_cons,
        resolveEndpoint_nat _ _ hi]
    · intro j g hg
      have hmod : (gs.modify (fun g => { g with parent := some k }) i)[j]? =
          some (if i = j then { g with parent := some k } else g) := by
        rw [List.getElem?_modify, hg]
        by_cases hij : i = j <;> simp [hij]
      obtain ⟨g', hg', hsame, hin, hout⟩ := hpt j _ hmod
      refine ⟨g', hg', ?_, ?_, ?_⟩
      · rw [hsame]
        by_cases hij : i = j <;> simp [hij]
      · intro hmem
        by_cases hr : Endpoint.index (j : ℚ) ∈ rest
        · exact hin hr
        · rw [hout hr]
          have hij : i = j := by
            rcases List.mem_cons.1 hmem with e | e
            · exact_mod_cast (Endpoint.index.inj e).symm
            · exact absurd e hr
          simp [hij]
      · intro hmem
        have hr : Endpoint.index (j : ℚ) ∉ rest := fun e => hmem (List.mem_cons_of_mem _ e)
        have hij : ¬ i = j := by
          intro e
          apply hmem
          rw [e]
          exact List.mem_cons_self _ _
        rw [hout hr]
        simp [hij]

/-- The body of the loop of `groups(x)` for the group `g` at position `k`,
when its leaves and nested groups are valid indices: the group gets its
padding, its leaves and its nested groups; the nodes and groups it lists get
the parent `k`; everything else is kept. -/
theorem adaptor.groupsStep_valid (st : List Node × List Group) (k : Nat) (g : Group)
    (hk : st.2[k]? = some g) (hl : ValidIndices g.leaves st.1.length)
    (hg : ValidIndices g.groups st.2.length) :
    ∃ st' : List Node × List Group,
      adaptor.groupsStep st k = .ok st' ∧
      st'.1.length = st.1.length ∧ st'.2.length = st.2.length ∧
      (∀ (j : ℕ) (v : Node), st.1[j]? = some v →
        ∃ v' : Node, st'.1[j]? = some v' ∧ v' = { v with parent := v'.parent } ∧
          (Listed g.leaves j → v'.parent = some k) ∧
          (¬ Listed g.leaves j → v'.parent = v.parent)) ∧
      (∀ (j : ℕ) (h : Group), st.2[j]? = some h →
        ∃ h' : Group, st'.2[j]? = some h' ∧
          (j = k →
            h'.padding = (if g.padding.isUndefined then .num 1 else g.padding) ∧
            h'.leaves = g.leaves.map (List.map (resolveEndpoint st.1.length)) ∧
            h'.groups = g.groups.map (List.map (resolveEndpoint st.2.length))) ∧
          (j ≠ k → h'.padding = h.padding ∧ h'.leaves = h.leaves ∧ h'.groups = h.groups) ∧
          (Listed g.groups j → h'.parent = some k) ∧
          (¬ Listed g.groups j → h'.parent = h.parent)) := by
  obtain ⟨ns, gs⟩ := st
  simp only at hk hl hg ⊢
  -- the padding
  have hpad : ∃ gs1 : List Group,
      (if g.padding.isUndefined then gs.modify (fun g => { g with padding := .num 1 }) k
        else gs) = gs1 ∧ gs1.length = gs.length ∧
      ∀ (j : ℕ) (h : Group), gs[j]? = some h →
        ∃ h1 : Group, gs1[j]? = some h1 ∧ h1.leaves = h.leaves ∧ h1.groups = h.groups ∧
          h1.parent = h.parent ∧
          (j = k → h1.padding = (if g.padding.isUndefined then .num 1 else g.padding)) ∧
          (j ≠ k → h1.padding = h.padding) := by
    refine ⟨_, rfl, ?_, ?_⟩
    · split
      · exact List.length_modify _ _ _
      · rfl
    · intro j h hj
      by_cases hu : g.padding.isUndefined = true
      · simp only [hu, if_true, List.getElem?_modify, hj]
        by_cases hjk : k = j
        · subst hjk
          have e : g = h := Option.some.inj (hk.symm.trans hj)
          subst e
          refine ⟨{ g with padding := .num 1 }, by simp, rfl, rfl, rfl, fun _ => ?_,
            fun e => absurd rfl e⟩
          simp [hu]
        · refine ⟨h, by simp [hjk], rfl, rfl, rfl, fun e => absurd e.symm hjk, fun _ => rfl⟩
      · simp only [hu, if_false, Bool.false_eq_true]
        refine ⟨h, hj, rfl, rfl, rfl, ?_, fun _ => rfl⟩
        intro e
        subst e
        rw [hk] at hj
        cases hj
        rfl
  obtain ⟨gs1, hgs1, hlen1, hpt1⟩ := hpad
  -- the leaves
  have hleaves : ∃ (ns2 : List Node) (gs2 : List Group),
      ((g.leaves = none ∧ ns2 = ns ∧ gs2 = gs1) ∨
        ∃ ls : List Endpoint, g.leaves = some ls ∧
          adaptor.groupsLeaves k ls ns = .ok (ls.map (resolveEndpoint ns.length), ns2) ∧
          gs2 = gs1.modify
            (fun g => { g with leaves := some (ls.map (resolveEndpoint ns.length)) }) k) ∧
      ns2.length = ns.length ∧ gs2.length = gs.length ∧
      (∀ (j : ℕ) (v : Node), ns[j]? = some v →
        ∃ v' : Node, ns2[j]? = some v' ∧ v' = { v with parent := v'.parent } ∧
          (Listed g.leaves j → v'.parent = some k) ∧
          (¬ Listed g.leaves j → v'.parent = v.parent)) ∧
      (∀ (j : ℕ) (h : Group), gs1[j]? = some h →
        ∃ h2 : Group, gs2[j]? = some h2 ∧ h2.padding = h.padding ∧ h2.groups = h.groups ∧
          h2.parent = h.parent ∧
          (j = k → h2.leaves = g.leaves.map (List.map (resolveEndpoint ns.length))) ∧
          (j ≠ k → h2.leaves = h.leaves)) := by
    cases hgl : g.leaves with
    | none =>
      refine ⟨ns, gs1, Or.inl ⟨rfl, rfl, rfl⟩, rfl, hlen1, ?_, ?_⟩
      · intro j v hv
        refine ⟨v, hv, rfl, ?_, fun _ => rfl⟩
        rintro ⟨ls, e, -⟩
        cases e
      · intro j h hj
        refine ⟨h, hj, rfl, rfl, rfl, ?_, fun _ => rfl⟩
        intro e
        subst e
        obtain ⟨h0, hh0⟩ : ∃ h0, gs[j]? = some h0 := ⟨g, hk⟩
        obtain ⟨h1, e1, el, -⟩ := hpt1 j g hk
        rw [hj] at e1
        cases e1
        rw [el, hgl]
        rfl
    | some ls =>
      obtain ⟨ns', hrun, hlen', hpt⟩ := adaptor.groupsLeaves_valid k ls ns (hl ls hgl)
      refine ⟨ns', gs1.modify
          (fun g => { g with leaves := some (ls.map (resolveEndpoint ns.length)) }) k,
        Or.inr ⟨ls, rfl, hrun, rfl⟩, hlen', ?_, ?_, ?_⟩
      · rw [List.length_modify, hlen1]
      · intro j v hv
        obtain ⟨v', hv', hsame, hin, hout⟩ := hpt j v hv
        refine ⟨v', hv', hsame, ?_, ?_⟩
        · rintro ⟨ls', e, hmem⟩
          cases e
          exact hin hmem
        · intro hnot
          exact hout (fun hmem => hnot ⟨ls, rfl, hmem⟩)
      · intro j h hj
        simp only [List.getElem?_modify, hj]
        by_cases hjk : k = j
        · subst hjk
          exact ⟨{ h with leaves := some (ls.map (resolveEndpoint ns.length)) }, by simp, rfl,
            rfl, rfl, fun _ => rfl, fun e => absurd rfl e⟩
        · exact ⟨h, by simp [hjk], rfl, rfl, rfl, fun e => absurd e.symm hjk, fun _ => rfl⟩
  obtain ⟨ns2, gs2, hrun2, hnlen2, hglen2, hnpt2, hgpt2⟩ := hleaves
  -- the nested groups
  have hnested : ∃ gs3 : List Group,
      ((g.groups = none ∧ gs3 = gs2) ∨
        ∃ (es : List Endpoint) (gs' : List Group), g.groups = some es ∧
          adaptor.groupsNested k es gs2 = .ok (es.map (resolveEndpoint gs2.length), gs') ∧
          gs3 = gs'.modify
            (fun g => { g with groups := some (es.map (resolveEndpoint gs2.length)) }) k) ∧
      gs3.length = gs.length ∧
      (∀ (j : ℕ) (h : Group), gs2[j]? = some h →
        ∃ h3 : Group, gs3[j]? = some h3 ∧ h3.padding = h.padding ∧ h3.leaves = h.leaves ∧
          (j = k → h3.groups = g.groups.map (List.map (resolveEndpoint gs.length))) ∧
          (j ≠ k → h3.groups = h.groups) ∧
          (Listed g.groups j → h3.parent = some k) ∧
          (¬ Listed g.groups j → h3.parent = h.parent)) := by
    cases hgg : g.groups with
    | none =>
      refine ⟨gs2, Or.inl ⟨rfl, rfl⟩, hglen2, ?_⟩
      intro j h hj
      refine ⟨h, hj, rfl, rfl, ?_, fun _ => rfl, ?_, fun _ => rfl⟩
      · intro e
        subst e
        obtain ⟨h1, e1, -, eg1, -⟩ := hpt1 j g hk
        obtain ⟨h2, e2, -, eg2, -⟩ := hgpt2 j h1 e1
        rw [hj] at e2
        cases e2
        rw [eg2, eg1, hgg]
        rfl
      · rintro ⟨es, e, -⟩
        cases e
    | some es =>
      have hv : ∀ e ∈ es, ∃ i : ℕ, e = .index i ∧ i < gs2.length := by
        intro e he
        obtain ⟨i, hi, hlt⟩ := hg es hgg e he
        exact ⟨i, hi, by rw [hglen2]; exact hlt⟩
      obtain ⟨gs', hrun, hlen', hpt⟩ := adaptor.groupsNested_valid k es gs2 hv
      refine ⟨gs'.modify
          (fun g => { g with groups := some (es.map (resolveEndpoint gs2.length)) }) k,
        Or.inr ⟨es, gs', rfl, hrun, rfl⟩, ?_, ?_⟩
      · rw [List.length_modify, hlen', hglen2]
      · intro j h hj
        obtain ⟨h', hh', hsame, hin, hout⟩ := hpt j h hj
        have hin' : Listed (some es) j → h'.parent = some k := by
          rintro ⟨es', e, hmem⟩
          cases e
          exact hin hmem
        have hout' : ¬ Listed (some es) j → h'.parent = h.parent :=
          fun hnot => hout (fun hmem => hnot ⟨es, rfl, hmem⟩)
        have hp : h'.padding = h.padding := by rw [hsame]
        have hlv : h'.leaves = h.leaves := by rw [hsame]
        have hgr : h'.groups = h.groups := by rw [hsame]
        simp only [List.getElem?_modify, hh']
        by_cases hjk : k = j
        · subst hjk
          refine ⟨{ h' with groups := some (es.map (resolveEndpoint gs2.length)) }, by simp, hp,
            hlv, fun _ => ?_, fun e => absurd rfl e, hin', hout'⟩
          simp [hglen2]
        · exact ⟨h', by simp [hjk], hp, hlv, fun e => absurd e.symm hjk, fun _ => hgr,
            hin', hout'⟩
  obtain ⟨gs3, hrun3, hglen3, hgpt3⟩ := hnested
  refine ⟨(ns2, gs3), ?_, hnlen2, hglen3, hnpt2, ?_⟩
  · unfold adaptor.groupsStep
    simp only [List.get?_eq_getElem?, hk, hgs1]
    rcases hrun2 with ⟨hgl, rfl, rfl⟩ | ⟨ls, hgl, hrunl, rfl⟩
    · rcases hrun3 with ⟨hgg, rfl⟩ | ⟨es, gs', hgg, hrung, rfl⟩
      · simp only [hgl, hgg]
      · simp only [hgl, hgg, hrung]
    · rcases hrun3 with ⟨hgg, rfl⟩ | ⟨es, gs', hgg, hrung, rfl⟩
      · simp only [hgl, hgg, hrunl]
      · simp only [hgl, hgg, hrunl, hrung]
  · intro j h hj
    obtain ⟨h1, e1, l1, g1, p1, pk1, pn1⟩ := hpt1 j h hj
    obtain ⟨h2, e2, pd2, g2, p2, lk2, ln2⟩ := hgpt2 j h1 e1
    obtain ⟨h3, e3, pd3, l3, gk3, gn3, pin3, pout3⟩ := hgpt3 j h2 e2
    refine ⟨h3, e3, ?_, ?_, pin3, ?_⟩
    · intro e
      exact ⟨by rw [pd3, pd2, pk1 e], by rw [l3, lk2 e], gk3 e⟩
    · intro e
      exact ⟨by rw [pd3, pd2, pn1 e], by rw [l3, ln2 e, l1], by rw [gn3 e, g2, g1]⟩
    · intro hnot
      rw [pout3 hnot, p2, p1]

/-- The last position below `m + 1` that satisfies `P` is `m` when `P m`
holds, and otherwise the last one below `m`. -/
theorem lastBelow_succ (m : Nat) (P : Nat → Prop) (k : Nat) :
    (P m → (LastBelow (m + 1) P k ↔ k = m)) ∧
    (¬ P m → (LastBelow (m + 1) P k ↔ LastBelow m P k)) := by
  constructor
  · intro hP
    constructor
    · rintro ⟨hk, -, hlast⟩
      by_contra hne
      exact hlast m (by omega) (by omega) hP
    · rintro rfl
      exact ⟨by omega, hP, fun k' h1 h2 => by omega⟩
  · intro hP
    constructor
    · rintro ⟨hk, hPk, hlast⟩
      have hkm : k ≠ m := fun e => hP (e ▸ hPk)
      exact ⟨by omega, hPk, fun k' h1 h2 => hlast k' h1 (by omega)⟩
    · rintro ⟨hk, hPk, hlast⟩
      refine ⟨by omega, hPk, fun k' h1 h2 => ?_⟩
      by_cases e : k' = m
      · rw [e]; exact hP
      · exact hlast k' h1 (by omega)

/-- If some position below `m` satisfies `P`, there is a last one. -/
theorem exists_lastBelow (m : Nat) (P : Nat → Prop) (h : ∃ k, k < m ∧ P k) :
    ∃ k, LastBelow m P k := by
  induction m with
  | zero =>
    obtain ⟨k, hk, -⟩ := h
    omega
  | succ m ih =>
    by_cases hP : P m
    · exact ⟨m, ((lastBelow_succ m P m).1 hP).2 rfl⟩
    · obtain ⟨k, hk, hPk⟩ := h
      have hkm : k ≠ m := fun e => hP (e ▸ hPk)
      obtain ⟨k0, hk0⟩ := ih ⟨k, by omega, hPk⟩
      exact ⟨k0, ((lastBelow_succ m P k0).2 hP).2 hk0⟩

/-- The loop of `groups(x)` before its first group. -/
theorem groupsProcessed_zero (ns0 : List Node) (x : List Group)
    (hn : ∀ v ∈ ns0, v.parent = none) (hx : ∀ g ∈ x, g.parent = none) :
    GroupsProcessed ns0 x 0 (ns0, x) := by
  refine ⟨rfl, rfl, ?_, ?_⟩
  · intro j v hv
    refine ⟨v, hv, rfl, fun k => ?_⟩
    rw [hn v (List.getElem?_mem hv)]
    constructor
    · intro e; cases e
    · rintro ⟨hk, -⟩; omega
  · intro j h hj
    refine ⟨h, hj, fun hlt => by omega, fun _ => ⟨rfl, rfl, rfl⟩, fun k => ?_⟩
    rw [hx h (List.getElem?_mem hj)]
    constructor
    · intro e; cases e
    · rintro ⟨hk, -⟩; omega

/-- One more group processed by the loop of `groups(x)`. -/
theorem groupsProcessed_succ (ns0 : List Node) (x : List Group) (m : Nat)
    (st : List Node × List Group)
    (hl : ∀ g ∈ x, ValidIndices g.leaves ns0.length)
    (hg : ∀ g ∈ x, ValidIndices g.groups x.length)
    (hm : m < x.length) (h : GroupsProcessed ns0 x m st) :
    ∃ st' : List Node × List Group,
      adaptor.groupsStep st m = .ok st' ∧ GroupsProcessed ns0 x (m + 1) st' := by
  obtain ⟨hnlen, hglen, hnodes, hgroups⟩ := h
  have hxm : x[m]? = some x[m] := List.getElem?_eq_getElem hm
  obtain ⟨g, hgm, -, hkeep, -⟩ := hgroups m x[m] hxm
  obtain ⟨hpad, hlv, hgr⟩ := hkeep (le_refl m)
  have hmem : x[m] ∈ x := List.getElem_mem hm
  have hvl : ValidIndices g.leaves st.1.length := by
    rw [hlv, hnlen]; exact hl _ hmem
  have hvg : ValidIndices g.groups st.2.length := by
    rw [hgr, hglen]; exact hg _ hmem
  obtain ⟨st', hrun, hnlen', hglen', hnpt, hgpt⟩ := adaptor.groupsStep_valid st m g hgm hvl hvg
  have hPl : ∀ j : ℕ, Listed g.leaves j ↔ listsLeaf x m j := by
    intro j
    rw [hlv]
    constructor
    · intro hL; exact ⟨x[m], hxm, hL⟩
    · rintro ⟨g0, e, hL⟩
      rw [hxm] at e
      cases e
      exact hL
  have hPg : ∀ j : ℕ, Listed g.groups j ↔ listsGroup x m j := by
    intro j
    rw [hgr]
    constructor
    · intro hL; exact ⟨x[m], hxm, hL⟩
    · rintro ⟨g0, e, hL⟩
      rw [hxm] at e
      cases e
      exact hL
  refine ⟨st', hrun, hnlen'.trans hnlen, hglen'.trans hglen, ?_, ?_⟩
  · intro j v hv
    obtain ⟨v1, hv1, hsame1, hpar1⟩ := hnodes j v hv
    obtain ⟨v2, hv2, hsame2, hin, hout⟩ := hnpt j v1 hv1
    refine ⟨v2, hv2, ?_, fun k => ?_⟩
    · rw [hsame2, hsame1]
    · by_cases hL : Listed g.leaves j
      · rw [hin hL, ((lastBelow_succ m (fun k => listsLeaf x k j) k).1 ((hPl j).1 hL))]
        constructor
        · intro e; exact (Option.some.inj e).symm
        · intro e; rw [e]
      · rw [hout hL, hpar1 k,
          ((lastBelow_succ m (fun k => listsLeaf x k j) k).2 (fun e => hL ((hPl j).2 e)))]
  · intro j h hj
    obtain ⟨h1, hh1, hlow1, hhigh1, hpar1⟩ := hgroups j h hj
    obtain ⟨h2, hh2, hat, hoff, hin, hout⟩ := hgpt j h1 hh1
    refine ⟨h2, hh2, ?_, ?_, fun k => ?_⟩
    · intro hlt
      by_cases e : j = m
      · subst e
        have e1 : h1 = g := Option.some.inj (hh1.symm.trans hgm)
        have e0 : h = x[j] := Option.some.inj (hj.symm.trans hxm)
        obtain ⟨a, b, c⟩ := hat rfl
        rw [a, b, c, hpad, hlv, hgr, hnlen, hglen, ← e0]
        exact ⟨rfl, rfl, rfl⟩
      · obtain ⟨a, b, c⟩ := hoff e
        obtain ⟨a', b', c'⟩ := hlow1 (by omega)
        exact ⟨a.trans a', b.trans b', c.trans c'⟩
    · intro hle
      obtain ⟨a, b, c⟩ := hoff (by omega)
      obtain ⟨a', b', c'⟩ := hhigh1 (by omega)
      exact ⟨a.trans a', b.trans b', c.trans c'⟩
    · by_cases hL : Listed g.groups j
      · rw [hin hL, ((lastBelow_succ m (fun k => listsGroup x k j) k).1 ((hPg j).1 hL))]
        constructor
        · intro e; exact (Option.some.inj e).symm
        · intro e; rw [e]
      · rw [hout hL, hpar1 k,
          ((lastBelow_succ m (fun k => listsGroup x k j) k).2 (fun e => hL ((hPg j).2 e)))]

/-- The loop of `groups(x)` over the groups below position `m` returns, with
these groups processed. -/
theorem groupsProcessed_fold (ns0 : List Node) (x : List Group)
    (hn : ∀ v ∈ ns0, v.parent = none) (hx : ∀ g ∈ x, g.parent = none)
    (hl : ∀ g ∈ x, ValidIndices g.leaves ns0.length)
    (hg : ∀ g ∈ x, ValidIndices g.groups x.length) (m : Nat) (hm : m ≤ x.length) :
    ∃ st : List Node × List Group,
      (List.range m).foldlM adaptor.groupsStep (ns0, x) = .ok st ∧
      GroupsProcessed ns0 x m st := by
  induction m with
  | zero => exact ⟨(ns0, x), rfl, groupsProcessed_zero ns0 x hn hx⟩
  | succ m ih =>
    obtain ⟨st, hrun, hinv⟩ := ih (by omega)
    obtain ⟨st', hstep, hinv'⟩ := groupsProcessed_succ ns0 x m st hl hg (by omega) hinv
    refine ⟨st', ?_, hinv'⟩
    rw [List.range_succ, List.foldlM_append, hrun]
    simp only [List.foldlM_cons, List.foldlM_nil]
    show (adaptor.groupsStep st m >>= fun s' => pure s') = Except.ok st'
    rw [hstep]
    rfl

/-- The positions that `filter` keeps for the root group. -/
theorem mem_positionsWhere {α : Type} (p : α → Bool) (xs : List α) (j : Nat) :
    j ∈ positionsWhere p xs ↔ ∃ a : α, xs[j]? = some a ∧ p a = true := by
  simp only [positionsWhere, List.mem_filter, List.mem_range, List.get?_eq_getElem?]
  constructor
  · rintro ⟨hj, hp⟩
    rw [List.getElem?_eq_getElem hj] at hp ⊢
    exact ⟨_, rfl, by simpa using hp⟩
  · rintro ⟨a, ha, hp⟩
    have hj : j < xs.length := by
      by_contra hge
      rw [List.getElem?_eq_none (by omega)] at ha
      cases ha
    refine ⟨hj, ?_⟩
    rw [ha]
    simpa using hp

/-- C30, amended: on a layout whose nodes carry no parent, `groups(x)` for
groups `x` that carry no parent yet and list valid node and group indices
returns the layout.  Afterwards every group that had no padding has the
padding 1 and any other its own; every leaf index and nested-group index has
been replaced by the node or group it denotes; the parent of a node or group
is the last group of `x` that lists it, so the group that lists it when there
is only one; a node or group is otherwise unchanged; and the root group holds
exactly the nodes that no group lists as a leaf and exactly the groups that no
group lists as nested. -/
theorem groups_sets_parents (s : adaptor) (x : List Group)
    (hn : ∀ v ∈ s._nodes, v.parent = none) (hx : ∀ g ∈ x, g.parent = none)
    (hl : ∀ g ∈ x, ValidIndices g.leaves s._nodes.length)
    (hg : ∀ g ∈ x, ValidIndices g.groups x.length) :
    ∃ s' : adaptor,
      s.groups (some x) = .ok (s', .self) ∧
      s' = { s with _nodes := s'._nodes, _groups := s'._groups, _rootGroup := s'._rootGroup } ∧
      s'._nodes.length = s._nodes.length ∧ s'._groups.length = x.length ∧
      (∀ i : ℕ, i < s._nodes.length →
        resolveEndpoint s._nodes.length (.index (i : ℚ)) = .node i) ∧
      (∀ i : ℕ, i < x.length → resolveEndpoint x.length (.index (i : ℚ)) = .node i) ∧
      (∀ (k : ℕ) (g : Group), x[k]? = some g →
        ∃ g' : Group, s'._groups[k]? = some g' ∧
          g'.padding = (if g.padding.isUndefined then .num 1 else g.padding) ∧
          g'.leaves = g.leaves.map (List.map (resolveEndpoint s._nodes.length)) ∧
          g'.groups = g.groups.map (List.map (resolveEndpoint x.length)) ∧
          (∀ k' : Nat, g'.parent = some k' ↔
            listsGroup x k' k ∧ ∀ k'' : Nat, k' < k'' → ¬ listsGroup x k'' k) ∧
          (∀ k' : Nat, listsGroup x k' k → (∀ k'' : Nat, listsGroup x k'' k → k'' = k') →
            g'.parent = some k')) ∧
      (∀ (j : ℕ) (v : Node), s._nodes[j]? = some v →
        ∃ v' : Node, s'._nodes[j]? = some v' ∧ v' = { v with parent := v'.parent } ∧
          (∀ k : Nat, v'.parent = some k ↔
            listsLeaf x k j ∧ ∀ k' : Nat, k < k' → ¬ listsLeaf x k' j) ∧
          (∀ k : Nat, listsLeaf x k j → (∀ k' : Nat, listsLeaf x k' j → k' = k) →
            v'.parent = some k)) ∧
      ∃ rl rg : List Nat,
        s'._rootGroup = some { leaves := some rl, groups := some rg } ∧
        (∀ j : Nat, j ∈ rl ↔ j < s._nodes.length ∧ ∀ k : Nat, ¬ listsLeaf x k j) ∧
        (∀ k : Nat, k ∈ rg ↔ k < x.length ∧ ∀ k' : Nat, ¬ listsGroup x k' k) := by
  obtain ⟨st, hrun, hnlen, hglen, hnodes, hgroups⟩ :=
    groupsProcessed_fold s._nodes x hn hx hl hg x.length (le_refl _)
  -- the last group that lists, among all groups
  have hlast : ∀ (P : Nat → Prop), (∀ k, P k → k < x.length) → ∀ k : Nat,
      (LastBelow x.length P k ↔ P k ∧ ∀ k' : Nat, k < k' → ¬ P k') := by
    intro P hP k
    constructor
    · rintro ⟨-, hPk, hl'⟩
      exact ⟨hPk, fun k' h1 h2 => hl' k' h1 (hP k' h2) h2⟩
    · rintro ⟨hPk, hl'⟩
      exact ⟨hP k hPk, hPk, fun k' h1 _ => hl' k' h1⟩
  have hbl : ∀ j k : Nat, listsLeaf x k j → k < x.length := by
    rintro j k ⟨g, hgk, -⟩
    by_contra hge
    rw [List.getElem?_eq_none (by omega)] at hgk
    cases hgk
  have hbg : ∀ j k : Nat, listsGroup x k j → k < x.length := by
    rintro j k ⟨g, hgk, -⟩
    by_contra hge
    rw [List.getElem?_eq_none (by omega)] at hgk
    cases hgk
  have hnone : ∀ (P : Nat → Prop) (o : Option Nat), (∀ k, P k → k < x.length) →
      (∀ k : Nat, o = some k ↔ LastBelow x.length P k) → (o.isNone = true ↔ ∀ k, ¬ P k) := by
    intro P o hP ho
    constructor
    · intro hnone' k hPk
      obtain ⟨k0, hk0⟩ := exists_lastBelow x.length P ⟨k, hP k hPk, hPk⟩
      rw [(ho k0).2 hk0] at hnone'
      cases hnone'
    · intro hno
      cases o with
      | none => rfl
      | some k => exact absurd ((ho k).1 rfl).2.1 (hno k)
  refine ⟨{ s with
      _nodes := st.1
      _groups := st.2
      _rootGroup := some
        { leaves := some (positionsWhere (fun v => v.parent.isNone) st.1)
          groups := some (positionsWhere (fun g => g.parent.isNone) st.2) } },
    by simp only [adaptor.groups, hrun], rfl, hnlen, hglen,
    fun i hi => resolveEndpoint_nat _ _ hi, fun i hi => resolveEndpoint_nat _ _ hi, ?_, ?_, ?_⟩
  · intro k g hk
    obtain ⟨g', hg', hlow, -, hpar⟩ := hgroups k g hk
    have hklt : k < x.length := by
      by_contra hge
      rw [List.getElem?_eq_none (by omega)] at hk
      cases hk
    obtain ⟨a, b, c⟩ := hlow hklt
    have hiff : ∀ k' : Nat, g'.parent = some k' ↔
        listsGroup x k' k ∧ ∀ k'' : Nat, k' < k'' → ¬ listsGroup x k'' k := by
      intro k'
      rw [hpar k', hlast (fun k' => listsGroup x k' k) (hbg k) k']
    refine ⟨g', hg', a, b, c, hiff, ?_⟩
    intro k' hk' huniq
    refine (hiff k').2 ⟨hk', fun k'' hlt hk'' => ?_⟩
    have := huniq k'' hk''
    omega
  · intro j v hv
    obtain ⟨v', hv', hsame, hpar⟩ := hnodes j v hv
    have hiff : ∀ k : Nat, v'.parent = some k ↔
        listsLeaf x k j ∧ ∀ k' : Nat, k < k' → ¬ listsLeaf x k' j := by
      intro k
      rw [hpar k, hlast (fun k => listsLeaf x k j) (hbl j) k]
    refine ⟨v', hv', hsame, hiff, ?_⟩
    intro k hk huniq
    refine (hiff k).2 ⟨hk, fun k' hlt hk' => ?_⟩
    have := huniq k' hk'
    omega
  · refine ⟨_, _, rfl, ?_, ?_⟩
    · intro j
      rw [mem_positionsWhere]
      constructor
      · rintro ⟨v', hv', hp⟩
        have hj : j < s._nodes.length := by
          rw [← hnlen]
          by_contra hge
          rw [List.getElem?_eq_none (by omega)] at hv'
          cases hv'
        obtain ⟨v'', hv'', -, hpar⟩ := hnodes j _ (List.getElem?_eq_getElem hj)
        rw [hv'] at hv''
        cases hv''
        exact ⟨hj, (hnone _ _ (hbl j) hpar).1 hp⟩
      · rintro ⟨hj, hno⟩
        obtain ⟨v', hv', -, hpar⟩ := hnodes j _ (List.getElem?_eq_getElem hj)
        exact ⟨v', hv', (hnone _ _ (hbl j) hpar).2 hno⟩
    · intro k
      rw [mem_positionsWhere]
      constructor
      · rintro ⟨g', hg', hp⟩
        have hk : k < x.length := by
          rw [← hglen]
          by_contra hge
          rw [List.getElem?_eq_none (by omega)] at hg'
          cases hg'
        obtain ⟨g'', hg'', -, -, hpar⟩ := hgroups k _ (List.getElem?_eq_getElem hk)
        rw [hg'] at hg''
        cases hg''
        exact ⟨hk, (hnone _ _ (hbg k) hpar).1 hp⟩
      · rintro ⟨hk, hno⟩
        obtain ⟨g', hg', -, -, hpar⟩ := hgroups k _ (List.getElem?_eq_getElem hk)
        exact ⟨g', hg', (hnone _ _ (hbg k) hpar).2 hno⟩

/-- C30, as stated, fails: on a layout of one node, `groups(x)` for two
groups that both list node 0 replaces the leaf of the first group by node 0,
and the parent of node 0 is the second group, not the first. -/
theorem groups_shared_leaf_parent :
    ∃ s' : adaptor, oneNodeLayout.groups (some sharingGroups) = .ok (s', .self) ∧
      (∀ v ∈ oneNodeLayout._nodes, v.parent = none) ∧
      s'._groups.map (fun g => g.leaves) = [some [.node 0], some [.node 0]] ∧
      s'._nodes.map (fun v => v.parent) = [some 1] ∧
      (some 1 : Option Nat) ≠ some 0 := by
  refine ⟨_, rfl, ?_, rfl, rfl, by decide⟩
  intro v hv
  simp only [oneNodeLayout, List.mem_singleton] at hv
  rw [hv]

/-- C30, amended, at a concrete input: on a layout of three nodes,
`groups(x)` for a group of the nodes 0 and 1 nested in a second group. -/
theorem groups_sets_parents_witness :
    (∀ v ∈ threeNodeLayout._nodes, v.parent = none) ∧
    (∀ g ∈ nestedGroups, g.parent = none) ∧
    (∀ g ∈ nestedGroups, ValidIndices g.leaves threeNodeLayout._nodes.length) ∧
    (∀ g ∈ nestedGroups, ValidIndices g.groups nestedGroups.length) ∧
    ∃ s' : adaptor,
      threeNodeLayout.groups (some nestedGroups) = .ok (s', .self) ∧
      s'._nodes.length = threeNodeLayout._nodes.length ∧
      s'._groups.length = nestedGroups.length ∧
      ∃ rl rg : List Nat,
        s'._rootGroup = some { leaves := some rl, groups := some rg } ∧
        (∀ j : Nat, j ∈ rl ↔
          j < threeNodeLayout._nodes.length ∧ ∀ k : Nat, ¬ listsLeaf nestedGroups k j) ∧
        (∀ k : Nat, k ∈ rg ↔
          k < nestedGroups.length ∧ ∀ k' : Nat, ¬ listsGroup nestedGroups k' k) := by
  have h1 : ∀ v ∈ threeNodeLayout._nodes, v.parent = none := by
    intro v hv
    simp only [threeNodeLayout, List.mem_cons, List.mem_singleton, List.mem_nil_iff,
      or_false, or_self] at hv
    rw [hv]
  have h2 : ∀ g ∈ nestedGroups, g.parent = none := by
    intro g hg
    simp only [nestedGroups, List.mem_cons, List.mem_singleton, List.mem_nil_iff,
      or_false] at hg
    rcases hg with rfl | rfl <;> rfl
  have h3 : ∀ g ∈ nestedGroups, ValidIndices g.leaves threeNodeLayout._nodes.length := by
    intro g hg ls hls e he
    simp only [nestedGroups, List.mem_cons, List.mem_singleton, List.mem_nil_iff,
      or_false] at hg
    rcases hg with rfl | rfl
    · cases hls
      simp only [List.mem_cons, List.mem_singleton, List.mem_nil_iff, or_false] at he
      rcases he with rfl | rfl
      · exact ⟨0, by simp, by simp [threeNodeLayout]⟩
      · exact ⟨1, by simp, by simp [threeNodeLayout]⟩
    · cases hls
  have h4 : ∀ g ∈ nestedGroups, ValidIndices g.groups nestedGroups.length := by
    intro g hg es hes e he
    simp only [nestedGroups, List.mem_cons, List.mem_singleton, List.mem_nil_iff,
      or_false] at hg
    rcases hg with rfl | rfl
    · cases hes
    · cases hes
      simp only [List.mem_cons, List.mem_singleton, List.mem_nil_iff, or_false] at he
      rw [he]
      exact ⟨0, by simp, by decide⟩
  obtain ⟨s', hs', -, hn, hg, -, -, -, -, hroot⟩ :=
    groups_sets_parents threeNodeLayout nestedGroups h1 h2 h3 h4
  exact ⟨h1, h2, h3, h4, s', hs', hn, hg, hroot⟩

/-! ## Shortest paths on the cycle of four nodes -/

/-- The node indices of the cycle. -/
theorem range_four : List.range 4 = [0, 1, 2, 3] := rfl

/-- The cycle has four nodes. -/
theorem cycle4_n : cycle4.n = 4 := rfl

/-- The neighbours of each node of the cycle. -/
theorem cycle4_neighbours :
    cycle4.neighbours 0 = [(1, 1), (3, 1)] ∧ cycle4.neighbours 1 = [(0, 1), (2, 1)] ∧
    cycle4.neighbours 2 = [(1, 1), (3, 1)] ∧ cycle4.neighbours 3 = [(2, 1), (0, 1)] :=
  ⟨rfl, rfl, rfl, rfl⟩

/-- Dijkstra's algorithm from each node of the cycle. -/
theorem cycle4_dijkstra :
    cycle4.dijkstraNeighbours 0 = [some 0, some 1, some 2, some 1] ∧
    cycle4.dijkstraNeighbours 1 = [some 1, some 0, some 1, some 2] ∧
    cycle4.dijkstraNeighbours 2 = [some 2, some 1, some 0, some 1] ∧
    cycle4.dijkstraNeighbours 3 = [some 1, some 2, some 1, some 0] := by
  refine ⟨?_, ?_, ?_, ?_⟩ <;>
    norm_num [Calculator.dijkstraNeighbours, Calculator.scan, Calculator.closest,
      Calculator.relax, cycle4_neighbours, range_four, cycle4_n] <;>
    rfl

/-- The distance matrix of the cycle. -/
theorem cycle4_matrix :
    cycle4.DistanceMatrix =
      [[.num 0, .num 1, .num 2, .num 1], [.num 1, .num 0, .num 1, .num 2],
       [.num 2, .num 1, .num 0, .num 1], [.num 1, .num 2, .num 1, .num 0]] := by
  simp only [Calculator.DistanceMatrix, cycle4_n, range_four, List.map_cons, List.map_nil,
    cycle4_dijkstra]

/-- C22, as stated, fails: in the distance matrix of the cycle of four nodes
with edges of length 1, the row of node 0 is `[0, 1, 2, 1]`, which as a
multiset is not `{0, 1, 2, 2}`: node 0 has two neighbours at distance 1 and
one node at distance 2. -/
theorem cycle4_row_is_not_0122 :
    cycle4.DistanceMatrix[0]? = some [.num 0, .num 1, .num 2, .num 1] ∧
    (([.num 0, .num 1, .num 2, .num 1] : List Val) : Multiset Val) ≠
      {.num 0, .num 1, .num 2, .num 2} := by
  refine ⟨by rw [cycle4_matrix]; rfl, ?_⟩
  intro h
  have h' := congrArg (fun m => (m.map Val.toRat).sum) h
  simp [Val.toRat] at h'

/-- C22, amended: the distance matrix of the cycle of four nodes with edges
of length 1 is symmetric, and every row, read as a multiset of distances from
its node, is `{0, 1, 1, 2}`. -/
theorem cycle4_distances :
    cycle4.DistanceMatrix.length = 4 ∧
    (∀ i j : Nat, matrixEntry cycle4.DistanceMatrix i j = matrixEntry cycle4.DistanceMatrix j i) ∧
    ∀ row ∈ cycle4.DistanceMatrix,
      ((row : List Val) : Multiset Val) = {.num 0, .num 1, .num 1, .num 2} := by
  rw [cycle4_matrix]
  refine ⟨rfl, ?_, ?_⟩
  · intro i j
    rcases i with _ | _ | _ | _ | i <;> rcases j with _ | _ | _ | _ | j <;> rfl
  · intro row hrow
    simp only [List.mem_cons, List.mem_singleton, List.mem_nil_iff, or_false] at hrow
    rcases hrow with rfl | rfl | rfl | rfl
    · exact Multiset.coe_eq_coe.2 (.cons _ (.cons _ (.swap _ _ _)))
    · exact Multiset.coe_eq_coe.2 (.swap _ _ _)
    · exact Multiset.coe_eq_coe.2
        (((List.perm_append_singleton (Val.num 2) [.num 1, .num 0, .num 1]).symm).trans
          (.swap _ _ _))
    · exact Multiset.coe_eq_coe.2
        ((List.perm_append_singleton (Val.num 0) [.num 1, .num 2, .num 1]).trans
          (.cons _ (.cons _ (.swap _ _ _))))

/-! ## The three runs of `start` -/

/-- The coordinates a list of nodes reads from the rows depend on the number
of nodes only. -/
theorem readCoordinates_map_of_length (X : List Val × List Val) (ns ms : List Node)
    (h : ns.length = ms.length) :
    (readCoordinates X ns).map (fun v => v.x) = (readCoordinates X ms).map (fun v => v.x) ∧
    (readCoordinates X ns).map (fun v => v.y) = (readCoordinates X ms).map (fun v => v.y) := by
  constructor <;>
  · apply List.ext_getElem?
    intro k
    simp only [readCoordinates, List.getElem?_map, mapAt_getElem?]
    by_cases hk : k < ns.length
    · have hk' : k < ms.length := h ▸ hk
      simp [List.getElem?_eq_getElem hk, List.getElem?_eq_getElem hk']
    · have hk' : ¬ k < ms.length := h ▸ hk
      simp [List.getElem?_eq_none (not_lt.1 hk), List.getElem?_eq_none (not_lt.1 hk')]

/-- The rows after the coordinates went to the nodes and back depend on the
number of nodes only. -/
theorem writeCoordinates_readCoordinates (X : List Val × List Val) (ns ms : List Node)
    (h : ns.length = ms.length) :
    writeCoordinates (readCoordinates X ns) X = writeCoordinates (readCoordinates X ms) X := by
  obtain ⟨h1, h2⟩ := readCoordinates_map_of_length X ns ms h
  have hl : (readCoordinates X ns).length = (readCoordinates X ms).length := by
    simp [readCoordinates, mapAt_length, h]
  simp only [writeCoordinates, h1, h2, hl]

/-- The number of nodes `start` leaves is the number it pinned. -/
theorem adaptor.startFinish_length (lib : Library) (p : Prepared) (args : List ℚ) :
    (adaptor.startFinish lib p (adaptor.startIterate lib p args)).layout._nodes.length =
      p.layout._nodes.length := by
  simp only [adaptor.startFinish]
  rw [(adaptor.resume_fields _).1]
  by_cases hpk :
      (!p.layout._distanceMatrix.truthy && p.layout._handleDisconnected.truthy) = true <;>
    by_cases ht : p.ao.truthy = true <;>
    simp [hpk, ht, adaptor.startIterate, mapAt_length, readCoordinates, adaptor.startLocks_nodes]

/-- C12: a `start(u, c, a)` that returns has run the descent engine exactly
three times, for `u`, then `c`, then `a` iterations, an argument left out
counting as 0, each run on the rows the run before it returned.  The first
run is on a new engine, with no projection.  The second is on that engine
with the rows the first run returned, with no projection or one made without
overlap avoidance.  The third is on the same engine with the rows the second
run returned (after their round trip through the nodes if `avoidOverlaps` was
on), with the overlap-avoiding projection if `avoidOverlaps` was on and
otherwise the projection of the second.  The engine the layout is left with
is that of the third run with the rows the third run returned, the
coordinates of the packed nodes written over them if the components are
packed. -/
theorem start_runs (lib : Library) (s : adaptor) (args : List ℚ) (r : Started)
    (h : s.start lib args = .ok r) :
    ∃ d0 d1 d2 d3 : Descent,
      r.runs = [(d0, args.getD 0 0), (d1, args.getD 1 0), (d2, args.getD 2 0)] ∧
      d0.project = none ∧
      d1.x = lib.run d0 (args.getD 0 0) ∧
      (d1.project = none ∨ ∃ P : Projection, d1.project = some P ∧ P.avoidOverlaps = false) ∧
      (s._avoidOverlaps.truthy = true →
        ∃ P : Projection, d2.project = some P ∧ P.avoidOverlaps = true) ∧
      (s._avoidOverlaps.truthy = false → d2.project = d1.project) ∧
      (d1.locks = d0.locks ∧ d1.D = d0.D ∧ d1.G = d0.G ∧ d1.threshold = d0.threshold) ∧
      (s._avoidOverlaps.truthy = false → d2.x = lib.run d1 (args.getD 1 0)) ∧
      (s._avoidOverlaps.truthy = true →
        d2.x = writeCoordinates (readCoordinates (lib.run d1 (args.getD 1 0)) r.layout._nodes)
                 (lib.run d1 (args.getD 1 0))) ∧
      (d2.locks = d1.locks ∧ d2.D = d1.D ∧ d2.threshold = d1.threshold) ∧
      r.layout._descent = some d3 ∧
      (d3.project = d2.project ∧ d3.locks = d2.locks ∧ d3.D = d2.D ∧ d3.G = d2.G ∧
        d3.threshold = d2.threshold) ∧
      ((!s._distanceMatrix.truthy && s._handleDisconnected.truthy) = false →
        d3.x = lib.run d2 (args.getD 2 0)) ∧
      ((!s._distanceMatrix.truthy && s._handleDisconnected.truthy) = true →
        d3.x = writeCoordinates r.layout._nodes (lib.run d2 (args.getD 2 0))) := by
  obtain ⟨p, hp, rfl⟩ := (adaptor.start_eq_ok lib s args r).1 h
  obtain ⟨hao, -, hdm, hhd, -⟩ := adaptor.startPrepare_settings lib s p hp
  have hlen := adaptor.startFinish_length lib p args
  rw [← hao, ← hdm, ← hhd]
  have hround : ∀ X : List Val × List Val,
      writeCoordinates (readCoordinates X
        (adaptor.startLocks p.layout._nodes 0 (Locks.clear {})).1) X =
      writeCoordinates (readCoordinates X
        (adaptor.startFinish lib p (adaptor.startIterate lib p args)).layout._nodes) X := by
    intro X
    apply writeCoordinates_readCoordinates
    rw [hlen, adaptor.startLocks_nodes, List.length_map]
  have hdesc : ∀ a : adaptor, a.resume.1._descent = a._descent :=
    fun a => (adaptor.resume_fields a).2.2.1
  have hnodes : ∀ a : adaptor, a.resume.1._nodes = a._nodes :=
    fun a => (adaptor.resume_fields a).1
  by_cases hc : 0 < p.curConstraints.length <;> by_cases ht : p.ao.truthy = true <;>
    by_cases hpk :
      (!p.layout._distanceMatrix.truthy && p.layout._handleDisconnected.truthy) = true <;>
    simp only [adaptor.startFinish, adaptor.startIterate, argument_default, hc, ht, hpk,
      if_true, if_false, hdesc, hnodes] at hround ⊢ <;>
    refine ⟨_, _, _, _, rfl, rfl, rfl, ?_, ?_, ?_, ⟨rfl, rfl, rfl, rfl⟩, ?_, ?_,
      ⟨rfl, rfl, rfl⟩, rfl, ⟨rfl, rfl, rfl, rfl, rfl⟩, ?_, ?_⟩
  all_goals first
    | exact Or.inl rfl
    | exact Or.inr ⟨_, rfl, rfl⟩
    | exact fun _ => ⟨_, rfl, rfl⟩
    | exact fun _ => rfl
    | exact fun _ => hround _
    | exact fun h' => absurd h' (by simp)

/-- C12 at a concrete input: `start(5, 7)` on a layout of two nodes with
`avoidOverlaps` on. -/
theorem start_runs_witness :
    ∃ (r : Started) (d0 d1 d2 d3 : Descent),
      twoNodeLayout.start sampleLibrary [5, 7] = .ok r ∧
      r.runs = [(d0, 5), (d1, 7), (d2, 0)] ∧
      d0.project = none ∧
      d1.x = sampleLibrary.run d0 5 ∧
      (d1.project = none ∨ ∃ P : Projection, d1.project = some P ∧ P.avoidOverlaps = false) ∧
      (twoNodeLayout._avoidOverlaps.truthy = true →
        ∃ P : Projection, d2.project = some P ∧ P.avoidOverlaps = true) ∧
      (twoNodeLayout._avoidOverlaps.truthy = false → d2.project = d1.project) ∧
      (d1.locks = d0.locks ∧ d1.D = d0.D ∧ d1.G = d0.G ∧ d1.threshold = d0.threshold) ∧
      (twoNodeLayout._avoidOverlaps.truthy = false → d2.x = sampleLibrary.run d1 7) ∧
      (twoNodeLayout._avoidOverlaps.truthy = true →
        d2.x = writeCoordinates (readCoordinates (sampleLibrary.run d1 7) r.layout._nodes)
                 (sampleLibrary.run d1 7)) ∧
      (d2.locks = d1.locks ∧ d2.D = d1.D ∧ d2.threshold = d1.threshold) ∧
      r.layout._descent = some d3 ∧
      (d3.project = d2.project ∧ d3.locks = d2.locks ∧ d3.D = d2.D ∧ d3.G = d2.G ∧
        d3.threshold = d2.threshold) ∧
      ((!twoNodeLayout._distanceMatrix.truthy && twoNodeLayout._handleDisconnected.truthy)
          = false →
        d3.x = sampleLibrary.run d2 0) ∧
      ((!twoNodeLayout._distanceMatrix.truthy && twoNodeLayout._handleDisconnected.truthy)
          = true →
        d3.x = writeCoordinates r.layout._nodes (sampleLibrary.run d2 0)) := by
  have h : ∃ r, twoNodeLayout.start sampleLibrary [5, 7] = .ok r := ⟨_, rfl⟩
  obtain ⟨r, hr⟩ := h
  obtain ⟨d0, d1, d2, d3, h1, h2⟩ := start_runs sampleLibrary twoNodeLayout [5, 7] r hr
  exact ⟨r, d0, d1, d2, d3, hr, by simpa using h1, h2⟩

/-! ## A step whose stress is not a number -/

/-- The properties a tick that takes its step leaves: alpha and the last
stress come from the step; the running flag, the threshold, the links and the
count of kicks are as they were. -/
theorem adaptor.tick_step_state (rungeKutta : Descent → Num × Descent) (s : adaptor)
    (d : Descent) (ls : List Link) (h : belowThreshold s._alpha s._threshold = false)
    (hl : s._links = .val ls) (hd : s._descent = some d) :
    ∃ s' : adaptor, s.tick rungeKutta = .ok (s', .undefined) ∧
      s'._alpha = s.tickAlpha (rungeKutta (s.tickDescent d)).1 ∧
      s'._lastStress = some (rungeKutta (s.tickDescent d)).1 ∧
      s'._descent = some (rungeKutta (s.tickDescent d)).2 ∧
      s'._links = s._links ∧ s'._running = s._running ∧ s'._threshold = s._threshold ∧
      s'.kicks = s.kicks :=
  ⟨_, adaptor.tick_of_step rungeKutta s d ls h hl hd, rfl, rfl, rfl, rfl, rfl, rfl, rfl⟩

/-- The layout that `start` leaves is marked running if it was idle. -/
theorem adaptor.start_running (lib : Library) (s : adaptor) (args : List ℚ) (r : Started)
    (h : s.start lib args = .ok r) (ha : numTruthy s._alpha = false)
    (hr : s._running = false) :
    r.layout._running = true := by
  obtain ⟨p, hp, rfl⟩ := (adaptor.start_eq_ok lib s args r).1 h
  have hal : p.layout._alpha = s._alpha ∧ p.layout._running = s._running := by
    obtain ⟨s0, links0, dg, D, gv, cur, hf, -, -, -, -, -, -, rfl⟩ :=
      adaptor.startPrepare_ok lib s p hp
    rw [hf]
    exact ⟨rfl, rfl⟩
  simp only [adaptor.startFinish]
  unfold adaptor.resume
  rw [adaptor.alpha_of_cold _ _ (by simpa [hal.1] using ha)]
  have hr' : p.layout._running = false := hal.2.trans hr
  simp [hr']

/-- The stress `NaN` is not the number 0. -/
theorem Num.nan_ne_zero : Num.nan ≠ Num.num 0 := by
  intro e
  cases e

/-- The layout `halfPlacedLayout` starts, and its descent engine then holds
`undefined` as the second coordinate of the first node. -/
theorem halfPlacedLayout_started :
    ∃ (r : Started) (d : Descent), halfPlacedLayout.start sampleLibrary [] = .ok r ∧
      r.layout._descent = some d ∧ d.x = ([.num 1, .num 3], [.undefined, .num 4]) := by
  have h : ∃ p, halfPlacedLayout.startPrepare sampleLibrary = .ok p ∧
      ∃ d, (adaptor.startFinish sampleLibrary p
              (adaptor.startIterate sampleLibrary p [])).layout._descent = some d ∧
        d.x = ([.num 1, .num 3], [.undefined, .num 4]) := by
    refine ⟨_, rfl, ?_⟩
    simp only [adaptor.startFinish, adaptor.resume]
    rw [adaptor.alpha_fields]
    exact ⟨_, rfl, rfl⟩
  obtain ⟨p, hp, d, hd, hx⟩ := h
  refine ⟨_, d, ?_, hd, hx⟩
  unfold adaptor.start
  rw [hp]

/-- C5, amended, at concrete inputs: the new layout, which `resume()` starts;
the stopped layout, which it leaves alone; and the layout `halfPlacedLayout`
after `start()` and two ticks whose step returns `NaN`, which is running with
alpha `NaN` and which it leaves alone as well. -/
theorem resume_alpha_witness :
    (adaptor.new.resume.1.alpha none).2 = Ret.value (some (.num (1 / 10))) ∧
    stoppedLayout.resume.1 = stoppedLayout ∧
    ∃ (r : Started) (d : Descent) (s1 s2 : adaptor),
      halfPlacedLayout.start sampleLibrary [] = .ok r ∧
      r.layout._descent = some d ∧ d.x = ([.num 1, .num 3], [.undefined, .num 4]) ∧
      r.layout.tick nanStep = .ok (s1, .undefined) ∧
      s1.tick nanStep = .ok (s2, .undefined) ∧
      s2._running = true ∧ s2._alpha = some .nan ∧
      s2.resume.1 = s2 ∧ (s2.resume.1.alpha none).2 = Ret.value (some .nan) := by
  obtain ⟨ha, hr⟩ := stoppedLayout_state
  refine ⟨(resume_alpha adaptor.new).1 (by simp [adaptor.new]),
    ((resume_alpha stoppedLayout).2.1 ⟨hr, Or.inl ha⟩).1, ?_⟩
  obtain ⟨r, d, hr0, hd, hx⟩ := halfPlacedLayout_started
  obtain ⟨-, ⟨ls, hl⟩, hth, hls, hal⟩ :=
    adaptor.start_state sampleLibrary halfPlacedLayout [] r hr0
  have hrun : r.layout._running = true :=
    adaptor.start_running sampleLibrary halfPlacedLayout [] r hr0 rfl rfl
  have ha0 : r.layout._alpha = some (.num (1 / 10)) := hal rfl rfl
  have hth0 : r.layout._threshold = .val (1 / 100) := hth
  have hls0 : r.layout._lastStress = none := hls
  have hb0 : belowThreshold r.layout._alpha r.layout._threshold = false := by
    rw [ha0, hth0]
    simp [belowThreshold]
    norm_num
  obtain ⟨s1, ht1, ha1, hls1, hd1, hl1, hr1, hth1, -⟩ :=
    adaptor.tick_step_state nanStep r.layout d ls hb0 hl hd
  have ha1' : s1._alpha = some (.num (1 / 10)) := by
    rw [ha1, (adaptor.tickAlpha_eq r.layout (nanStep (r.layout.tickDescent d)).1).2.2
      Num.nan_ne_zero hls0, ha0]
  have hb1 : belowThreshold s1._alpha s1._threshold = false := by
    rw [ha1', hth1, hth0]
    simp [belowThreshold]
    norm_num
  obtain ⟨s2, ht2, ha2, -, -, -, hr2, -, -⟩ :=
    adaptor.tick_step_state nanStep s1 _ ls hb1 (hl1.trans hl) hd1
  have ha2' : s2._alpha = some .nan := by
    rw [ha2, (adaptor.tickAlpha_eq s1 (nanStep (s1.tickDescent _)).1).2.1
      Num.nan_ne_zero (by rw [hls1]; simp)]
    rfl
  have hr2' : s2._running = true := by rw [hr2, hr1, hrun]
  have key := (resume_alpha s2).2.1 ⟨hr2', Or.inr (Or.inr ha2')⟩
  refine ⟨r, d, s1, s2, hr0, hd, hx, ht1, ht2, hr2', ha2', key.1, ?_⟩
  have h2 := key.2
  rw [ha2'] at h2
  exact h2

/-- The properties a tick below the threshold leaves: alpha is 0 and the
layout is not running; the last stress, the threshold, the links and the
descent engine are as they were. -/
theorem adaptor.tick_end_state (rungeKutta : Descent → Num × Descent) (s : adaptor)
    (h : belowThreshold s._alpha s._threshold = true) :
    ∃ s' : adaptor, s.tick rungeKutta = .ok (s', .bool true) ∧
      s'._alpha = some (.num 0) ∧ s'._running = false ∧
      s'._lastStress = s._lastStress ∧ s'._descent = s._descent ∧
      s'._links = s._links ∧ s'._threshold = s._threshold :=
  ⟨_, adaptor.tick_of_below rungeKutta s h, rfl, rfl, rfl, rfl, rfl, rfl⟩

/-- The method `convergenceThreshold(x)`, for a number that is not 0, writes
no property of the layout but `_threshold`. -/
theorem adaptor.convergenceThreshold_fields (s : adaptor) (q : ℚ) (hq : q ≠ 0) :
    (s.convergenceThreshold (some (.val q))).1 = { s with _threshold := .val q } := by
  simp [adaptor.convergenceThreshold, hq]

/-- C6, as stated, fails: the layout `halfPlacedLayout` is started, stopped
and ticked to its end, given the threshold -1 and ticked twice with a step
that returns `NaN`; it is then not running, its alpha is `NaN`, neither 0 nor
unset, and `alpha(0.5)` fires `start`, sets the running flag and calls
`kick`. -/
theorem alpha_starts_from_nan :
    ∃ (r : Started) (d : Descent) (s1 s2 s3 : adaptor),
      halfPlacedLayout.start sampleLibrary [] = .ok r ∧
      r.layout._descent = some d ∧ d.x = ([.num 1, .num 3], [.undefined, .num 4]) ∧
      r.layout.stop.1.tick nanStep = .ok (s1, .bool true) ∧
      (s1.convergenceThreshold (some (.val (-1)))).1.tick nanStep = .ok (s2, .undefined) ∧
      s2.tick nanStep = .ok (s3, .undefined) ∧
      s3._running = false ∧ s3._alpha = some .nan ∧
      s3._alpha ≠ some (.num 0) ∧ s3._alpha ≠ none ∧
      (s3.alpha (some (1 / 2))).1.events = s3.events ++ [startEvent (1 / 2)] ∧
      (s3.alpha (some (1 / 2))).1._running = true ∧
      (s3.alpha (some (1 / 2))).1._alpha = some (.num (1 / 2)) ∧
      (s3.alpha (some (1 / 2))).1.kicks = s3.kicks + 1 := by
  obtain ⟨r, d, hr0, hd, hx⟩ := halfPlacedLayout_started
  obtain ⟨-, ⟨ls, hl⟩, hth, hls, hal⟩ :=
    adaptor.start_state sampleLibrary halfPlacedLayout [] r hr0
  have ha0 : r.layout._alpha = some (.num (1 / 10)) := hal rfl rfl
  have hth0 : r.layout._threshold = .val (1 / 100) := hth
  have hls0 : r.layout._lastStress = none := hls
  have hot : numTruthy r.layout._alpha = true := by
    rw [ha0]
    simp [numTruthy]
  have hstop : r.layout.stop = ({ r.layout with _alpha := some (.num 0) }, .self) := by
    simp [adaptor.stop, adaptor.alpha_of_hot r.layout 0 hot]
  have hb : belowThreshold (r.layout.stop.1)._alpha (r.layout.stop.1)._threshold = true := by
    rw [hstop]
    show belowThreshold (some (.num 0)) r.layout._threshold = true
    rw [hth0]
    simp [belowThreshold]
  obtain ⟨s1, ht1, ha1, hr1, hls1, hd1, hl1, hth1⟩ :=
    adaptor.tick_end_state nanStep r.layout.stop.1 hb
  have hstopf : (r.layout.stop.1)._lastStress = none ∧ (r.layout.stop.1)._descent = some d ∧
      (r.layout.stop.1)._links = .val ls := by
    rw [hstop]
    exact ⟨hls0, hd, hl⟩
  have hct := adaptor.convergenceThreshold_fields s1 (-1) (by norm_num)
  have hb2 : belowThreshold (s1.convergenceThreshold (some (.val (-1)))).1._alpha
      (s1.convergenceThreshold (some (.val (-1)))).1._threshold = false := by
    rw [hct]
    show belowThreshold s1._alpha (FnOr.val (-1 : ℚ)) = false
    rw [ha1]
    simp [belowThreshold]
  have hcf : (s1.convergenceThreshold (some (.val (-1)))).1._lastStress = none ∧
      (s1.convergenceThreshold (some (.val (-1)))).1._descent = some d ∧
      (s1.convergenceThreshold (some (.val (-1)))).1._links = .val ls ∧
      (s1.convergenceThreshold (some (.val (-1)))).1._alpha = some (.num 0) ∧
      (s1.convergenceThreshold (some (.val (-1)))).1._running = false ∧
      (s1.convergenceThreshold (some (.val (-1)))).1._threshold = .val (-1) := by
    rw [hct]
    exact ⟨hls1.trans hstopf.1, hd1.trans hstopf.2.1, hl1.trans hstopf.2.2, ha1, hr1, rfl⟩
  obtain ⟨s2, ht2, ha2, hls2, hd2, hl2, hr2, hth2, -⟩ :=
    adaptor.tick_step_state nanStep (s1.convergenceThreshold (some (.val (-1)))).1
      d ls hb2 hcf.2.2.1 hcf.2.1
  have ha2' : s2._alpha = some (.num 0) := by
    rw [ha2, (adaptor.tickAlpha_eq (s1.convergenceThreshold (some (.val (-1)))).1
      (nanStep (adaptor.tickDescent (s1.convergenceThreshold (some (.val (-1)))).1 d)).1).2.2
      Num.nan_ne_zero hcf.1]
    exact hcf.2.2.2.1
  have hb3 : belowThreshold s2._alpha s2._threshold = false := by
    rw [ha2', hth2, hcf.2.2.2.2.2]
    simp [belowThreshold]
  obtain ⟨s3, ht3, ha3, -, -, -, hr3, -, -⟩ :=
    adaptor.tick_step_state nanStep s2 _ ls hb3 (hl2.trans hcf.2.2.1) hd2
  have ha3' : s3._alpha = some .nan := by
    rw [ha3, (adaptor.tickAlpha_eq s2 (nanStep (s2.tickDescent _)).1).2.1
      Num.nan_ne_zero (by rw [hls2]; simp)]
    rfl
  have hr3' : s3._running = false := by rw [hr3, hr2, hcf.2.2.2.2.1]
  have hcold : numTruthy s3._alpha = false := by
    rw [ha3']
    rfl
  have hpos : (0 : ℚ) < 1 / 2 := by norm_num
  have hfire := adaptor.alpha_of_cold s3 (1 / 2) hcold
  rw [if_pos ⟨hpos, hr3'⟩] at hfire
  refine ⟨r, d, s1, s2, s3, hr0, hd, hx, ht1, ht2, ht3, hr3', ha3', ?_, ?_, ?_⟩
  · rw [ha3']
    simp
  · rw [ha3']
    simp
  · rw [hfire]
    exact ⟨rfl, rfl, rfl, rfl⟩

end cola
